import Mathlib

/-!
# go-rs2-sfx: sound-effect track decoder and renderer

A shallow embedding of `generator.go`, `filter.go` and `track.go`, followed by
theorems about the waveform generator, the IIR filter record and its
coefficient cascade, and the saturating mixer with its PCM container.

Conventions of the embedding.

* Go `int` is the 64-bit two's-complement integer of the usual targets: a value
  is a mathematical integer, and `wrap64` is applied where an operation can
  leave the 64-bit range.  `int8` conversion is `toInt8`.
* Go `&`, `^` and `>>` on signed integers are `Int.land`, `Int.xor` and `>>>`
  (arithmetic shift); Go `/` is `Int.tdiv` (truncation toward zero).
* A run-time panic (index out of range) is the error `Err.indexOutOfRange`.
* `float64` arithmetic of `filter.go` is written over an arbitrary field `R`
  with the library functions `math.Pow`, `math.Cos` and the conversion to
  `int64` supplied by `MathOps R`; instantiating `R` with the rationals gives
  an executable model, instantiating it with the reals gives exact arithmetic.
-/

namespace snd

/-! ## Machine integers -/

/-- Wrap a mathematical integer into the signed 64-bit range of Go `int`. -/
def wrap64 (x : Int) : Int := (x + 2 ^ 63) % 2 ^ 64 - 2 ^ 63

/-- Go conversion `int8(x)`: the low 8 bits read as two's complement. -/
def toInt8 (x : Int) : Int := (x + 128) % 256 - 128

/-! ## Errors -/

/-- Failures of the decoder and renderer: the two errors built in the sources,
an error handed up from a collaborator, and the run-time panic. -/
inductive Err where
  /-- `fmt.Errorf("IIR filter invalid pair interval [%d, %d]", ..)` of `filter.read`. -/
  | pairInterval (onset release : Int)
  /-- `errors.New("empty sound")` of `Track.generate`. -/
  | emptySound
  /-- An error returned by `envelope.readShape`, `tone.read` or `tone.generate`. -/
  | collaborator (msg : String)
  /-- Go run-time panic: index out of range. -/
  | indexOutOfRange
  deriving DecidableEq, Repr

/-! ## Byte cursor -/

/-- Modelled from the spec: the byte cursor `buffer` (its declaration is not among
the analysed sources).  Section 6 describes it as sequential `u8()/u16()` reads
advancing the position, `rewind(n)` stepping back, an out-of-bounds access being
fatal; `track.go` builds it as `buffer{data, 0}`.  Bytes are naturals, reduced
modulo 256 when read; 16-bit reads take the high byte first. -/
structure buffer where
  data : List Nat
  pos : Nat
  deriving DecidableEq, Repr

/-- Modelled from the spec: `u8()` reads one byte and advances the cursor by one. -/
def buffer.u8 (b : buffer) : Except Err (Nat × buffer) :=
  match b.data[b.pos]? with
  | some v => .ok (v % 256, { b with pos := b.pos + 1 })
  | none => .error .indexOutOfRange

/-- Modelled from the spec: `u16()` reads two bytes and advances the cursor by two. -/
def buffer.u16 (b : buffer) : Except Err (Nat × buffer) :=
  match b.u8 with
  | .error e => .error e
  | .ok (hi, b1) =>
    match b1.u8 with
    | .error e => .error e
    | .ok (lo, b2) => .ok (hi * 256 + lo, b2)

/-- Modelled from the spec: `rewind(n)` steps the cursor back by `n`. -/
def buffer.rewind (b : buffer) (n : Nat) : buffer := { b with pos := b.pos - n }

/-- Modelled from the spec: `p8(v)` stores the low 8 bits of `v` at the cursor and
advances it by one. -/
def buffer.p8 (b : buffer) (v : Int) : Except Err buffer :=
  if b.pos < b.data.length then
    .ok { data := b.data.set b.pos (v % 256).toNat, pos := b.pos + 1 }
  else .error .indexOutOfRange

/-- Modelled from the spec: `put(src)` stores the bytes of `src` one after another. -/
def buffer.put (b : buffer) (src : List Nat) : Except Err buffer :=
  src.foldlM (fun b x => b.p8 (x : Int)) b

/-- Modelled from the spec: `p16le(v)` stores 16 bits of `v`, low byte first. -/
def buffer.p16le (b : buffer) (v : Int) : Except Err buffer := do
  let b ← b.p8 v
  b.p8 (v >>> (8 : Nat))

/-- Modelled from the spec: `p32le(v)` stores 32 bits of `v`, low byte first. -/
def buffer.p32le (b : buffer) (v : Int) : Except Err buffer := do
  let b ← b.p8 v
  let b ← b.p8 (v >>> (8 : Nat))
  let b ← b.p8 (v >>> (16 : Nat))
  b.p8 (v >>> (24 : Nat))

/-! ## generator.go -/

/-- Entry `i` of the `noise` table as filled by `init`: `(rand.Int() & 0x2) - 1`,
where `rand i` is the value returned by the `i`-th call of `rand.Int()`. -/
def noiseInit (rand : Nat → Int) (i : Nat) : Int := Int.land (rand i) 0x2 - 1

/-- Index used for the `sin` table and by the square and saw shapes: `phase & 0x7FFF`. -/
def phaseIndex (phase : Int) : Int := Int.land phase 0x7FFF

/-- Index used for the `noise` table: `(phase / 2607) & 0x7FFF`. -/
def noiseIndex (phase : Int) : Int := Int.land (Int.tdiv phase 2607) 0x7FFF

/-- The function `generate(form, phase, amplitude)`; the two tables filled by `init` are
passed as `noise` and `sin` (arrays of 32768 entries, given by their entry at each index). -/
def generate (noise sin : Nat → Int) (form : Nat) (phase amplitude : Int) : Int :=
  match form with
  | 1 => if phaseIndex phase < 16384 then amplitude else wrap64 (-amplitude)
  | 2 => (wrap64 (sin (phaseIndex phase).toNat * amplitude)) >>> (14 : Nat)
  | 3 => wrap64 ((wrap64 (phaseIndex phase * amplitude)) >>> (14 : Nat) - amplitude)
  | 4 => wrap64 (noise (noiseIndex phase).toNat * amplitude)
  | _ => 0

/-! ## filter.go: the record and its reader -/

/-- The struct `filter`; arrays are given by their entry at each index. -/
structure filter (R : Type) where
  Pairs : Nat → Int
  Frequencies : Nat → Nat → Nat → R
  Ranges : Nat → Nat → Nat → R
  Unities : Nat → Int

/-- The zero value `filter{}`. -/
def filter.zero (R : Type) [Zero R] : filter R :=
  { Pairs := fun _ => 0, Frequencies := fun _ _ _ => 0, Ranges := fun _ _ _ => 0,
    Unities := fun _ => 0 }

/-- Assignment `a[i] = v` on an array given by its entries. -/
def set1 {α : Type} (a : Nat → α) (i : Nat) (v : α) : Nat → α :=
  fun k => if k = i then v else a k

/-- Assignment `a[i][j][k] = v` on a three-dimensional array given by its entries. -/
def set3 {α : Type} (a : Nat → Nat → Nat → α) (i j k : Nat) (v : α) : Nat → Nat → Nat → α :=
  fun x y z => if x = i ∧ y = j ∧ z = k then v else a x y z

/-- What `filter.read` leaves behind: the returned error (or `none` for `nil`), the
filter as mutated so far and the cursor. -/
structure ReadOutcome (R : Type) where
  err : Option Err
  f : filter R
  buf : buffer

/-- Body of the first pair loop of `filter.read` (lines 35-36): the start codes. -/
def readStartPair {R : Type} [NatCast R] (direction pair : Nat) (s : filter R × buffer) :
    Except Err (filter R × buffer) :=
  match s.2.u16 with
  | .error e => .error e
  | .ok (v, b1) =>
    let f1 := { s.1 with Frequencies := set3 s.1.Frequencies direction 0 pair (v : R) }
    match b1.u16 with
    | .error e => .error e
    | .ok (w, b2) =>
      .ok ({ f1 with Ranges := set3 f1.Ranges direction 0 pair (w : R) }, b2)

/-- Body of the second pair loop of `filter.read` (lines 42-48): the end codes, read when
the migration bit `1 << (direction*4) << pair` is set and copied from the start codes
otherwise. -/
def readEndPair {R : Type} [NatCast R] (migration direction pair : Nat) (s : filter R × buffer) :
    Except Err (filter R × buffer) :=
  if migration &&& ((1 <<< (direction * 4) <<< pair) % 256) ≠ 0 then
    match s.2.u16 with
    | .error e => .error e
    | .ok (v, b1) =>
      let f1 := { s.1 with Frequencies := set3 s.1.Frequencies direction 1 pair (v : R) }
      match b1.u16 with
      | .error e => .error e
      | .ok (w, b2) =>
        .ok ({ f1 with Ranges := set3 f1.Ranges direction 1 pair (w : R) }, b2)
  else
    let f1 := { s.1 with
      Frequencies := set3 s.1.Frequencies direction 1 pair (s.1.Frequencies direction 0 pair) }
    .ok ({ f1 with Ranges := set3 f1.Ranges direction 1 pair (f1.Ranges direction 0 pair) }, s.2)

/-- The nested loops `for direction < 2 { for pair < f.Pairs[direction] { body } }`. -/
def pairLoops {R : Type} (body : Nat → Nat → filter R × buffer → Except Err (filter R × buffer))
    (s : filter R × buffer) : Except Err (filter R × buffer) :=
  (List.range 2).foldlM
    (fun s direction =>
      (List.range (s.1.Pairs direction).toNat).foldlM (fun s pair => body direction pair s) s)
    s

/-- Lines 28-50 of `filter.read`: unities, migration mask and the two pair loops; returns
the filter, the cursor and the migration mask. -/
def readBody {R : Type} [NatCast R] (f : filter R) (b : buffer) :
    Except Err (filter R × buffer × Nat) :=
  match b.u16 with
  | .error e => .error e
  | .ok (u0, b1) =>
    match b1.u16 with
    | .error e => .error e
    | .ok (u1, b2) =>
      match b2.u8 with
      | .error e => .error e
      | .ok (migration, b3) =>
        let f1 := { f with Unities := set1 (set1 f.Unities 0 (u0 : Int)) 1 (u1 : Int) }
        match pairLoops readStartPair (f1, b3) with
        | .error e => .error e
        | .ok s1 =>
          match pairLoops (readEndPair migration) s1 with
          | .error e => .error e
          | .ok s2 => .ok (s2.1, s2.2, migration)

/-- The method `filter.read(in, envelope)`.  The collaborator `envelope.readShape(in)` is
the parameter `readShape`: it returns the message of its error (or `none` for `nil`) and
the cursor it leaves.  When a read of lines 28-50 runs out of bytes the method does not
return; the outcome then carries `Err.indexOutOfRange` with the filter and the cursor as
they stood before line 28, not the partly filled filter and the advanced cursor that the
stopped call leaves in memory. -/
def filter.read {R : Type} [NatCast R] (readShape : buffer → Option String × buffer)
    (f : filter R) (b : buffer) : ReadOutcome R :=
  match b.u8 with
  | .error e => ⟨some e, f, b⟩
  | .ok (count, b1) =>
    let f1 := { f with
      Pairs := set1 (set1 f.Pairs 0 ((count >>> 4 : Nat) : Int)) 1 ((count &&& 0xF : Nat) : Int) }
    if f1.Pairs 0 > 4 ∨ f1.Pairs 1 > 4 then
      ⟨some (.pairInterval (f1.Pairs 0) (f1.Pairs 1)), f1, b1⟩
    else if count ≠ 0 then
      match readBody f1 b1 with
      | .error e => ⟨some e, f1, b1⟩
      | .ok (f2, b2, migration) =>
        if migration ≠ 0 ∨ f2.Unities 0 ≠ f2.Unities 1 then
          ⟨(readShape b2).1.map Err.collaborator, f2, (readShape b2).2⟩
        else ⟨none, f2, b2⟩
    else
      ⟨none, { f1 with Unities := set1 (set1 f1.Unities 0 0) 1 0 }, b1⟩

/-! ## track.go: the mixer and the PCM container -/

/-- The constant `SampleRate`. -/
def SampleRate : Int := 22050

/-- Lines 119-120 of `Track.generate`: the saturation test `((sample + 128) & -256) != 0`. -/
def saturationTest (sample : Int) : Bool :=
  Int.land (wrap64 (sample + 128)) (-256) != 0

/-- Lines 119-122 of `Track.generate`: the value stored into the `int8` sample buffer for
the accumulator `sample`, namely `sample>>31 ^ 127` when the saturation test fires and
`sample` otherwise, converted with `int8(..)`. -/
def saturate (sample : Int) : Int :=
  toInt8 (if saturationTest sample then Int.xor (sample >>> (31 : Nat)) 127 else sample)

/-- Lines 118-122 of `Track.generate`: one step of the mixing loop, from the stored sample
`cur` and the tone sample `toneSample` to the new stored sample. -/
def mixSample (cur toneSample : Int) : Int :=
  saturate (wrap64 (cur + (toneSample >>> (8 : Nat))))

/-- The clamp as the specification words it (design notes):
`if acc > 127 then 127 elif acc < -128 then -128`, the accumulator itself otherwise. -/
def explicitClamp (acc : Int) : Int :=
  if acc > 127 then 127 else if acc < -128 then -128 else acc

/-- Modelled from the spec: the Tone collaborator (its declaration is not among the
analysed sources).  Section 3 gives a tone a start time and a duration in milliseconds,
section 6 gives `read(cursor)` and `generate(sampleCount, lengthMs)` returning a sequence
of integers or an error (given here by its message, and handed up by `Track.generate` as
`Err.collaborator`).  `track.go` converts `Start` and `Length` with `int(..)` and adds
them in their own type; they are taken to be unsigned 16-bit, the type of the cursor's
`u16()` that `track.go` stores unconverted into the `uint16` loop markers.  `read` stands
for `newTone()` followed by `tone.read(in)`. -/
structure ToneOps (τ : Type) where
  Start : τ → Nat
  Length : τ → Nat
  Start_lt : ∀ t, Start t < 65536
  Length_lt : ∀ t, Length t < 65536
  read : buffer → Except Err (τ × buffer)
  generate : τ → Int → Int → Except String (List Int)

/-- The struct `Track`; `Tones` is the array of 10 optional tones. -/
structure Track (τ : Type) where
  Tones : List (Option τ)
  Delay : Int
  LoopBegin : Nat
  LoopEnd : Nat

/-- The zero value `Track{}` built by `loadTrack`. -/
def Track.zero (τ : Type) : Track τ :=
  { Tones := List.replicate 10 none, Delay := 0, LoopBegin := 0, LoopEnd := 0 }

/-- Body of the slot loop of `Track.read` (lines 77-83). -/
def readSlot {τ : Type} (ops : ToneOps τ) (s : Track τ × buffer) (i : Nat) :
    Except Err (Track τ × buffer) :=
  match s.2.u8 with
  | .error e => .error e
  | .ok (presence, b1) =>
    if presence ≠ 0 then
      match ops.read (b1.rewind 1) with
      | .error e => .error e
      | .ok (tn, b2) => .ok ({ s.1 with Tones := s.1.Tones.set i (some tn) }, b2)
    else .ok (s.1, b1)

/-- The method `Track.read(in)`: ten slots, then the two loop markers. -/
def Track.read {τ : Type} (ops : ToneOps τ) (t : Track τ) (b : buffer) :
    Except Err (Track τ × buffer) :=
  match (List.range 10).foldlM (readSlot ops) (t, b) with
  | .error e => .error e
  | .ok (t1, b1) =>
    match b1.u16 with
    | .error e => .error e
    | .ok (loopBegin, b2) =>
      match b2.u16 with
      | .error e => .error e
      | .ok (loopEnd, b3) => .ok ({ t1 with LoopBegin := loopBegin, LoopEnd := loopEnd }, b3)

/-- The sum `t.Start+t.Length` of line 96, formed in the 16-bit type of the two fields. -/
def toneEnd {τ : Type} (ops : ToneOps τ) (tn : τ) : Int :=
  (((ops.Start tn + ops.Length tn) % 65536 : Nat) : Int)

/-- Lines 95-97 of `Track.generate`: the body of the loop computing `length`.  Both
arguments of `math.Max` are integers below `2^53`, which `float64` represents exactly. -/
def lengthStep {τ : Type} (ops : ToneOps τ) (length : Int) (slot : Option τ) : Int :=
  match slot with
  | some tn => max (toneEnd ops tn) length
  | none => length

/-- Lines 92-98 of `Track.generate`: the running maximum `length`. -/
def trackLength {τ : Type} (ops : ToneOps τ) (tones : List (Option τ)) : Int :=
  tones.foldl (lengthStep ops) 0

/-- Line 104 of `Track.generate`: `sampleCount := (length * SampleRate) / 1000`. -/
def sampleCountOf (length : Int) : Int := Int.tdiv (wrap64 (length * SampleRate)) 1000

/-- Lines 117-123 of `Track.generate`: the mixing loop of one tone. -/
def mixTone (samples toneSamples : List Int) (toneStart toneSampleCount : Int) :
    Except Err (List Int) :=
  (List.range toneSampleCount.toNat).foldlM
    (fun (samples : List Int) (pos : Nat) =>
      let idx : Int := (pos : Int) + toneStart
      if 0 ≤ idx ∧ idx < samples.length then
        match toneSamples[pos]? with
        | none => .error .indexOutOfRange
        | some ts => .ok (samples.set idx.toNat (mixSample (samples.getD idx.toNat 0) ts))
      else .error .indexOutOfRange)
    samples

/-- Lines 108-124 of `Track.generate`: one iteration of the loop over the tone slots. -/
def renderSlot {τ : Type} (ops : ToneOps τ) (samples : List Int) (slot : Option τ) :
    Except Err (List Int) :=
  match slot with
  | none => .ok samples
  | some tn =>
    let toneSampleCount := Int.tdiv (wrap64 ((ops.Length tn : Int) * SampleRate)) 1000
    let toneStart := Int.tdiv (wrap64 ((ops.Start tn : Int) * SampleRate)) 1000
    match ops.generate tn toneSampleCount (ops.Length tn : Int) with
    | .error e => .error (.collaborator e)
    | .ok toneSamples => mixTone samples toneSamples toneStart toneSampleCount

/-- Line 105 of `Track.generate`: `samples := make([]int8, sampleCount)`. -/
def newSamples (sampleCount : Int) : List Int := List.replicate sampleCount.toNat 0

/-- Lines 105-125 of `Track.generate`: the zeroed sample buffer and the loop over the
tone slots; the result is the final sample buffer. -/
def renderTones {τ : Type} (ops : ToneOps τ) (tones : List (Option τ)) (sampleCount : Int) :
    Except Err (List Int) :=
  tones.foldlM (renderSlot ops) (newSamples sampleCount)

/-- The byte handed to `p8` for one stored sample (line 143): `int(sample - 127)`, the
subtraction being done in `int8`. -/
def sampleByteArg (sample : Int) : Int := toInt8 (sample - 127)

/-- Lines 127-140 of `Track.generate`: the 44-byte header written into a fresh buffer of
`44 + sampleCount` bytes. -/
def writeHeader (sampleCount : Int) : Except Err buffer := do
  let buf : buffer := { data := List.replicate (44 + sampleCount).toNat 0, pos := 0 }
  let buf ← buf.put [82, 73, 70, 70]
  let buf ← buf.p32le (36 + sampleCount)
  let buf ← buf.put [87, 65, 86, 69]
  let buf ← buf.put [102, 109, 116, 32]
  let buf ← buf.p32le 16
  let buf ← buf.p16le 1
  let buf ← buf.p16le 1
  let buf ← buf.p32le 22050
  let buf ← buf.p32le 22050
  let buf ← buf.p16le 1
  let buf ← buf.p16le 8
  let buf ← buf.put [100, 97, 116, 97]
  buf.p32le sampleCount

/-- Lines 142-144 of `Track.generate`: the loop storing one byte per sample. -/
def writeSamples (buf : buffer) (samples : List Int) : Except Err buffer :=
  samples.foldlM (fun buf sample => buf.p8 (sampleByteArg sample)) buf

/-- The method `Track.generate()`: the bytes of the container, or the error. -/
def Track.generate {τ : Type} (ops : ToneOps τ) (t : Track τ) : Except Err (List Nat) :=
  let length := trackLength ops t.Tones
  if length = 0 then .error .emptySound
  else
    let sampleCount := sampleCountOf length
    match renderTones ops t.Tones sampleCount with
    | .error e => .error e
    | .ok samples =>
      match writeHeader sampleCount with
      | .error e => .error e
      | .ok buf =>
        match writeSamples buf samples with
        | .error e => .error e
        | .ok buf1 => .ok buf1.data

/-- The specification's "maximum of `(start + length)` over present tones is `L`": some
present tone ends at `L` and no present tone ends later. -/
def IsMaxEnd {τ : Type} (ops : ToneOps τ) (tones : List (Option τ)) (L : Int) : Prop :=
  (∃ tn, some tn ∈ tones ∧ toneEnd ops tn = L) ∧ ∀ tn, some tn ∈ tones → toneEnd ops tn ≤ L

/-- The byte stored by `p8(v)`. -/
def byteOf (v : Int) : Nat := (v % 256).toNat

/-- The four bytes stored by `p32le(v)`. -/
def le32 (v : Int) : List Nat :=
  [byteOf v, byteOf (v >>> (8 : Nat)), byteOf (v >>> (16 : Nat)), byteOf (v >>> (24 : Nat))]

/-- The 44 bytes that lines 128-140 of `Track.generate` store, in order. -/
def headerBytes (sampleCount : Int) : List Nat :=
  [82, 73, 70, 70] ++ le32 (36 + sampleCount) ++ [87, 65, 86, 69] ++ [102, 109, 116, 32]
    ++ [16, 0, 0, 0] ++ [1, 0] ++ [1, 0] ++ [34, 86, 0, 0] ++ [34, 86, 0, 0] ++ [1, 0] ++ [8, 0]
    ++ [100, 97, 116, 97] ++ le32 sampleCount

/-- A concrete Tone collaborator for instantiating the statements: a tone is its start and
its length, its record is a presence byte followed by two 16-bit values, and it renders the
constant tone sample 256 over its sample count. -/
def plainTones : ToneOps (Fin 65536 × Fin 65536) where
  Start := fun t => t.1.val
  Length := fun t => t.2.val
  Start_lt := fun t => t.1.isLt
  Length_lt := fun t => t.2.isLt
  read := fun b =>
    match b.u8 with
    | .error e => .error e
    | .ok (_, b1) =>
      match b1.u16 with
      | .error e => .error e
      | .ok (len, b2) =>
        match b2.u16 with
        | .error e => .error e
        | .ok (start, b3) => .ok ((Fin.ofNat start, Fin.ofNat len), b3)
  generate := fun _ sampleCount _ => .ok (List.replicate sampleCount.toNat 256)

/-- A Tone collaborator like `plainTones` whose `generate` returns no error and no
samples, whatever sample count it is asked for. -/
def silentTones : ToneOps (Fin 65536 × Fin 65536) :=
  { plainTones with generate := fun _ _ _ => .ok [] }

/-- Little-endian 32-bit value held by the four bytes of `bytes` starting at `off`. -/
def le32At (bytes : List Nat) (off : Nat) : Nat :=
  bytes.getD off 0 + 256 * bytes.getD (off + 1) 0 + 65536 * bytes.getD (off + 2) 0
    + 16777216 * bytes.getD (off + 3) 0

/-! ## filter.go: evaluation of the coefficient cascade -/

/-- The `math` library as used by `filter.go` over the number type `R`: `math.Pow`,
`math.Cos`, `math.Pi` and the conversion `int64(x)`. -/
structure MathOps (R : Type) where
  pow : R → R → R
  cos : R → R
  pi : R
  toInt64 : R → Int

/-- The package-level scratch variables `_unity`, `_unity16`, `_coef` and `_coef16`. -/
structure Scratch (R : Type) where
  unity : R
  unity16 : Int
  coef : Nat → Nat → R
  coef16 : Nat → Nat → Int

/-- Read `a[dir][i]` of a `[2][8]` array; out of range is the run-time panic. -/
def get28 {α : Type} (a : Nat → Nat → α) (dir i : Nat) : Except Err α :=
  if dir < 2 ∧ i < 8 then .ok (a dir i) else .error .indexOutOfRange

/-- The array `a` with entry `[dir][i]` replaced by `v`. -/
def store28 {α : Type} (a : Nat → Nat → α) (dir i : Nat) (v : α) : Nat → Nat → α :=
  fun x y => if x = dir ∧ y = i then v else a x y

/-- Write `a[dir][i] = v` of a `[2][8]` array; out of range is the run-time panic. -/
def set28 {α : Type} (a : Nat → Nat → α) (dir i : Nat) (v : α) : Except Err (Nat → Nat → α) :=
  if dir < 2 ∧ i < 8 then .ok (store28 a dir i v) else .error .indexOutOfRange

/-- Read `a[direction][k][pair]` of a `[2][2][4]` array; out of range is the run-time panic. -/
def get224 {α : Type} (a : Nat → Nat → Nat → α) (direction k pair : Nat) : Except Err α :=
  if direction < 2 ∧ k < 2 ∧ pair < 4 then .ok (a direction k pair) else .error .indexOutOfRange

/-- The function `normalize(f)`. -/
def normalize {R : Type} [Field R] (m : MathOps R) (f : R) : R :=
  let a := (32703197 / 1000000 : R) * m.pow 2 f
  a * m.pi / 11025

/-- The method `filter.gain(direction, pair, delta)`. -/
def filter.gain {R : Type} [Field R] (m : MathOps R) (f : filter R) (direction pair : Nat)
    (delta : R) : Except Err R := do
  let a ← get224 f.Ranges direction 0 pair
  let b ← get224 f.Ranges direction 1 pair
  let g := a + ((b - a) * delta)
  let g := g * (100 / 65536)
  pure (1 - m.pow 10 (-g / 20))

/-- The method `filter.phase(direction, pair, delta)`. -/
def filter.phase {R : Type} [Field R] (m : MathOps R) (f : filter R) (direction pair : Nat)
    (delta : R) : Except Err R := do
  let a ← get224 f.Frequencies direction 0 pair
  let b ← get224 f.Frequencies direction 1 pair
  let g := a + ((b - a) * delta)
  let g := g * (1 / 8192)
  pure (normalize m g)

/-- Lines 70-75 of `filter.eval`: the unity gain, recomputed when `dir == 0`. -/
def evalUnity {R : Type} [Field R] (m : MathOps R) (f : filter R) (s : Scratch R)
    (dir : Nat) (del : R) : Scratch R :=
  if dir = 0 then
    let u : R := ((f.Unities 0 : Int) : R) + ((wrap64 (f.Unities 1 - f.Unities 0) : Int) : R) * del
    let u := u * (30517578 / 10000000000)
    let unity := m.pow (1 / 10) (u / 20)
    { s with unity := unity, unity16 := m.toInt64 (unity * 65536) }
  else s

/-- Line 97 of `filter.eval`: `_coef[dir][pair] += _coef[dir][pair-1]*a + _coef[dir][pair-2]*b`. -/
def backPropagate {R : Type} [Field R] (dir : Nat) (a b : R) (c : Nat → Nat → R) (pair : Nat) :
    Except Err (Nat → Nat → R) := do
  let x ← get28 c dir pair
  let y ← get28 c dir (pair - 1)
  let z ← get28 c dir (pair - 2)
  set28 c dir pair (x + (y * a + z * b))

/-- Lines 88-101 of `filter.eval`: the body of the section loop for section `n >= 1`. -/
def cascadeStep {R : Type} [Field R] (m : MathOps R) (f : filter R) (dir : Nat) (del : R)
    (c : Nat → Nat → R) (n : Nat) : Except Err (Nat → Nat → R) := do
  let u ← f.gain m dir n del
  let th ← f.phase m dir n del
  let a := -2 * u * m.cos th
  let b := u * u
  let top ← get28 c dir (n * 2 - 1)
  let c ← set28 c dir (n * 2 + 1) (top * b)
  let top ← get28 c dir (n * 2 - 1)
  let below ← get28 c dir (n * 2 - 2)
  let c ← set28 c dir (n * 2) (top * a + below * b)
  let c ← (List.range' 2 (n * 2 - 2)).reverse.foldlM (backPropagate dir a b) c
  let c1 ← get28 c dir 1
  let c0 ← get28 c dir 0
  let c ← set28 c dir 1 (c1 + (c0 * a + b))
  let c0 ← get28 c dir 0
  set28 c dir 0 (c0 + a)

/-- Lines 80-102 of `filter.eval`: the coefficient array after the section loop, before
the unity scaling and the fixed-point conversion. -/
def cascade {R : Type} [Field R] (m : MathOps R) (f : filter R) (dir : Nat) (del : R)
    (c : Nat → Nat → R) : Except Err (Nat → Nat → R) := do
  let u ← f.gain m dir 0 del
  let th ← f.phase m dir 0 del
  let c ← set28 c dir 0 (-2 * u * m.cos th)
  let c ← set28 c dir 1 (u * u)
  (List.range' 1 ((f.Pairs dir).toNat - 1)).foldlM (cascadeStep m f dir del) c

/-- Line 106 of `filter.eval`: `_coef[0][n] *= _unity`. -/
def scaleBody {R : Type} [Field R] (unity : R) (c : Nat → Nat → R) (n : Nat) :
    Except Err (Nat → Nat → R) := do
  let x ← get28 c 0 n
  set28 c 0 n (x * unity)

/-- Lines 104-108 of `filter.eval`: the unity scaling, applied when `dir == 0`. -/
def scaleOnset {R : Type} [Field R] (f : filter R) (dir : Nat) (unity : R)
    (c : Nat → Nat → R) : Except Err (Nat → Nat → R) :=
  if dir = 0 then (List.range (wrap64 (f.Pairs 0 * 2)).toNat).foldlM (scaleBody unity) c
  else .ok c

/-- Line 111 of `filter.eval`: `_coef16[dir][n] = int64(_coef[dir][n] * 65536.0)`. -/
def fixedBody {R : Type} [Field R] (m : MathOps R) (dir : Nat) (c : Nat → Nat → R)
    (c16 : Nat → Nat → Int) (n : Nat) : Except Err (Nat → Nat → Int) := do
  let x ← get28 c dir n
  set28 c16 dir n (m.toInt64 (x * 65536))

/-- Lines 110-112 of `filter.eval`: the conversion to 16.16 fixed point. -/
def toFixed {R : Type} [Field R] (m : MathOps R) (f : filter R) (dir : Nat)
    (c : Nat → Nat → R) (c16 : Nat → Nat → Int) : Except Err (Nat → Nat → Int) :=
  (List.range (wrap64 (f.Pairs dir * 2)).toNat).foldlM (fixedBody m dir c) c16

/-- The method `filter.eval(dir, del)`: the scratch variables it leaves and the order it
returns.  Reading `f.Pairs[dir]` with `dir` outside the array is the run-time panic. -/
def filter.eval {R : Type} [Field R] (m : MathOps R) (f : filter R) (s : Scratch R)
    (dir : Nat) (del : R) : Except Err (Scratch R × Int) :=
  let s1 := evalUnity m f s dir del
  if ¬ dir < 2 then .error .indexOutOfRange
  else if f.Pairs dir = 0 then .ok (s1, 0)
  else do
    let c ← cascade m f dir del s1.coef
    let c ← scaleOnset f dir s1.unity c
    let c16 ← toFixed m f dir c s1.coef16
    pure ({ s1 with coef := c, coef16 := c16 }, wrap64 (f.Pairs dir * 2))

/-! ## The cascade as a polynomial product -/

open Polynomial in
/-- The coefficient array holds the product of the first `n` section polynomials. -/
def HoldsProduct {R : Type} [Field R] (a b : Nat → R) (dir n : Nat) (c : Nat → Nat → R) : Prop :=
  ∀ k, k < n * 2 →
    c dir k = (∏ i in Finset.range n, (1 + C (a i) * X + C (b i) * X ^ 2 : R[X])).coeff (k + 1)

/-! ## Sequences of byte stores -/

/-- The values handed to `p8` by `p16le(v)`. -/
def le16Vals (v : Int) : List Int := [v, v >>> (8 : Nat)]

/-- The values handed to `p8` by `p32le(v)`. -/
def le32Vals (v : Int) : List Int := [v, v >>> (8 : Nat), v >>> (16 : Nat), v >>> (24 : Nat)]

/-- The 44 values handed to `p8` by lines 128-140 of `Track.generate`, in order. -/
def headerVals (n : Int) : List Int :=
  ([82, 73, 70, 70] : List Int) ++ (le32Vals (36 + n)
    ++ (([87, 65, 86, 69] : List Int) ++ (([102, 109, 116, 32] : List Int)
    ++ (le32Vals 16 ++ (le16Vals 1 ++ (le16Vals 1 ++ (le32Vals 22050 ++ (le32Vals 22050
    ++ (le16Vals 1 ++ (le16Vals 8 ++ (([100, 97, 116, 97] : List Int) ++ le32Vals n)))))))))))

/-- Storing the values `vs` one after another with `p8`. -/
def p8s (b : buffer) (vs : List Int) : Except Err buffer :=
  vs.foldlM (fun b v => b.p8 v) b

/-- Go conversion `int(x)` of a floating value: truncation toward zero. -/
def goTrunc {R : Type} [LinearOrderedField R] [FloorRing R] (x : R) : Int :=
  if 0 ≤ x then ⌊x⌋ else ⌈x⌉

/-- Entry `i` of the `sin` table as filled by `init`:
`int(math.Sin(float64(i)/(16384.0/math.Pi)) * 16384.0)`, over the number type `R` with
`math.Sin`, `math.Pi` and the conversion `int(..)` supplied. -/
def sinInit {R : Type} [Field R] (sin : R → R) (pi : R) (toInt : R → Int) (i : Nat) : Int :=
  toInt (sin ((i : R) / (16384 / pi)) * 16384)

/-- The specification's "maximum of `(start + length)` over present tones, floored at 0". -/
def maxEndOrZero {τ : Type} (ops : ToneOps τ) (tones : List (Option τ)) : Int :=
  ((tones.filterMap id).map (toneEnd ops)).foldr max 0

/-- The big-endian 16-bit value held by the two bytes of `data` at offset `p`. -/
def be16 (data : List Nat) (p : Nat) : Nat :=
  data.getD p 0 % 256 * 256 + data.getD (p + 1) 0 % 256

/-- Bytes consumed by the second pair loop of `filter.read` for the pairs `0 .. n-1` of
direction `d`: four for every pair whose migration bit `d*4 + k` is set, none otherwise. -/
def endBytes (migration d n : Nat) : Nat :=
  ((List.range n).map (fun k => if Nat.testBit migration (d * 4 + k) then 4 else 0)).sum

/-- Offset in the stream at which the second pair loop of `filter.read` stands when it
reaches pair `n` of direction `d`, for a record starting at `pos` with `p0` onset and `p1`
release pairs: behind the count byte, the two unities, the migration byte and the start
codes, plus the end codes read so far. -/
def endCodePos (pos p0 p1 migration d n : Nat) : Nat :=
  pos + 6 + 4 * (p0 + p1) + (if d = 0 then 0 else endBytes migration 0 p0)
    + endBytes migration d n

/-- A record with one onset and one release pair: count byte `0x11`, unities 0 and 0,
migration byte `0x01` (bit 0 set, bit 4 clear), start codes (1, 2) and (3, 4), and the
end codes (5, 6) of the onset pair. -/
def endCodeRecord : List Nat := [0x11, 0, 0, 0, 0, 0x01, 0, 1, 0, 2, 0, 3, 0, 4, 0, 5, 0, 6]

/-- What the second pair loop of `filter.read` has done after the pairs `0 .. k-1` of
direction `d`, from the state `s0` (filter and cursor) to the state `s1`: the cursor moved
by `endBytes`, the start codes and all other end codes are untouched, and every pair has
its end codes read from the stream (bit set) or copied from its start codes (bit clear). -/
def EndLoopSpec {R : Type} [NatCast R] (mg d k : Nat) (s0 s1 : filter R × buffer) : Prop :=
  s1.2.data = s0.2.data ∧ s1.2.pos = s0.2.pos + endBytes mg d k
    ∧ s1.1.Pairs = s0.1.Pairs ∧ s1.1.Unities = s0.1.Unities
    ∧ (∀ x z, s1.1.Frequencies x 0 z = s0.1.Frequencies x 0 z
        ∧ s1.1.Ranges x 0 z = s0.1.Ranges x 0 z)
    ∧ (∀ x z, ¬ (x = d ∧ z < k) → s1.1.Frequencies x 1 z = s0.1.Frequencies x 1 z
        ∧ s1.1.Ranges x 1 z = s0.1.Ranges x 1 z)
    ∧ ∀ n, n < k →
        if Nat.testBit mg (d * 4 + n) then
          s1.1.Frequencies d 1 n = ((be16 s0.2.data (s0.2.pos + endBytes mg d n) : Nat) : R)
            ∧ s1.1.Ranges d 1 n
              = ((be16 s0.2.data (s0.2.pos + endBytes mg d n + 2) : Nat) : R)
        else
          s1.1.Frequencies d 1 n = s0.1.Frequencies d 0 n
            ∧ s1.1.Ranges d 1 n = s0.1.Ranges d 0 n

/-! ## Bitwise facts -/

theorem ldiff_255_eq_zero_iff (m : Nat) : Nat.ldiff m 255 = 0 ↔ m < 256 := by
  constructor
  · intro h
    have hlt : m < 2 ^ 8 := by
      apply Nat.lt_pow_two_of_testBit
      intro i hi
      have h1 := Nat.testBit_ldiff m 255 i
      rw [h] at h1
      have h2 : Nat.testBit 255 i = false := by
        apply Nat.testBit_eq_false_of_lt
        calc 255 < 2 ^ 8 := by norm_num
          _ ≤ 2 ^ i := Nat.pow_le_pow_right (by norm_num) hi
      simp [h2] at h1
      exact h1
    simpa using hlt
  · intro h
    apply Nat.eq_of_testBit_eq
    intro i
    rw [Nat.testBit_ldiff]
    simp only [Nat.zero_testBit]
    by_cases hi : i < 8
    · have h1 : Nat.testBit 255 i = true := by
        have h2 := @Nat.testBit_two_pow_sub_one 8 i
        simpa [hi] using h2
      simp [h1]
    · have h1 : Nat.testBit m i = false := by
        apply Nat.testBit_eq_false_of_lt
        calc m < 2 ^ 8 := by simpa using h
          _ ≤ 2 ^ i := Nat.pow_le_pow_right (by norm_num) (by omega)
      simp [h1]

/-- Masking with `-256` gives zero exactly on `[0, 256)`. -/
theorem land_neg256_eq_zero_iff (v : Int) : Int.land v (-256) = 0 ↔ 0 ≤ v ∧ v < 256 := by
  have h256 : (-256 : Int) = Int.negSucc 255 := rfl
  rw [h256]
  cases v with
  | ofNat m =>
    show ((Nat.ldiff m 255 : Nat) : Int) = 0 ↔ _
    rw [Int.natCast_eq_zero, ldiff_255_eq_zero_iff]
    simp only [Int.ofNat_eq_coe]
    omega
  | negSucc m =>
    show Int.negSucc (m ||| 255) = 0 ↔ _
    constructor
    · intro h; exact absurd h (by simp)
    · intro h; exact absurd h.1 (by simp [Int.negSucc_lt_zero])

theorem ldiff_32767 (m : Nat) : Nat.ldiff 32767 m = 32767 - m % 32768 := by
  apply Nat.eq_of_testBit_eq
  intro i
  rw [Nat.testBit_ldiff]
  have hr : m % 2 ^ 15 < 2 ^ 15 := Nat.mod_lt _ (by norm_num)
  have h1 := Nat.testBit_two_pow_sub_succ hr i
  have h2 : (2 : Nat) ^ 15 - (m % 2 ^ 15 + 1) = 32767 - m % 32768 := by norm_num; omega
  rw [h2] at h1
  rw [h1, Nat.testBit_mod_two_pow]
  have h3 := @Nat.testBit_two_pow_sub_one 15 i
  have h4 : (2 : Nat) ^ 15 - 1 = 32767 := by norm_num
  rw [h4] at h3
  rw [h3]
  by_cases hi : i < 15 <;> simp [hi]

/-- Masking with `0x7FFF` is reduction modulo 32768, also for negative integers. -/
theorem land_32767 (x : Int) : Int.land x 32767 = x % 32768 := by
  cases x with
  | ofNat m =>
    show ((m &&& 32767 : Nat) : Int) = _
    have h := Nat.and_pow_two_sub_one_eq_mod m 15
    norm_num at h
    rw [h]
    simp only [Int.ofNat_eq_coe]
    omega
  | negSucc m =>
    show ((Nat.ldiff 32767 m : Nat) : Int) = _
    rw [ldiff_32767, Int.negSucc_eq]
    omega

/-! ## The saturating mixer -/

theorem saturationTest_iff (s : Int) :
    saturationTest s = true ↔ ¬ (0 ≤ wrap64 (s + 128) ∧ wrap64 (s + 128) < 256) := by
  unfold saturationTest
  rw [bne_iff_ne, Ne, land_neg256_eq_zero_iff]

theorem saturationTest_eq_false_iff (s : Int) :
    saturationTest s = false ↔ (0 ≤ wrap64 (s + 128) ∧ wrap64 (s + 128) < 256) := by
  rw [← Bool.not_eq_true, saturationTest_iff, not_not]

/-- Inside the 32-bit range the shift/xor formula is the explicit clamp. -/
theorem saturate_eq_explicitClamp_of_32bit (acc : Int) (hlo : -2 ^ 31 ≤ acc)
    (hhi : acc < 2 ^ 31) : saturate acc = explicitClamp acc := by
  unfold saturate explicitClamp
  by_cases h1 : acc > 127
  · have ht : saturationTest acc = true := by
      rw [saturationTest_iff]; unfold wrap64; omega
    have hs : acc >>> (31 : Nat) = 0 := by
      rw [Int.shiftRight_eq_div_pow]; norm_num; omega
    rw [ht, hs, if_pos h1]
    simp only [if_true]
    decide
  · by_cases h2 : acc < -128
    · have ht : saturationTest acc = true := by
        rw [saturationTest_iff]; unfold wrap64; omega
      have hs : acc >>> (31 : Nat) = -1 := by
        rw [Int.shiftRight_eq_div_pow]; norm_num; omega
      rw [ht, hs, if_neg h1, if_pos h2]
      simp only [if_true]
      decide
    · have ht : saturationTest acc = false := by
        rw [saturationTest_eq_false_iff]; unfold wrap64; omega
      rw [ht, if_neg h1, if_neg h2]
      simp only [Bool.false_eq_true, if_false]
      unfold toInt8; omega

/-- C1 (code defect): the accumulator `2^31`, reached from a stored sample 0 and a tone
sample `2^39`, lies above 127, the explicit clamp gives 127, and the shift/xor formula of
the mixing loop stores 126; the accumulator `2^38` (tone sample `2^46`) is stored as -1. -/
theorem saturate_two_pow_31 :
    wrap64 (0 + ((2 : Int) ^ 39) >>> (8 : Nat)) = 2 ^ 31 ∧ mixSample 0 (2 ^ 39) = 126
      ∧ explicitClamp (2 ^ 31) = 127 ∧ mixSample 0 (2 ^ 46) = -1 := by
  have h1 : saturationTest (2 ^ 31) = true := by
    rw [saturationTest_iff]; unfold wrap64; norm_num
  have h2 : saturationTest (2 ^ 38) = true := by
    rw [saturationTest_iff]; unfold wrap64; norm_num
  have e1 : wrap64 (0 + ((2 : Int) ^ 39) >>> (8 : Nat)) = 2 ^ 31 := by decide
  have e2 : wrap64 (0 + ((2 : Int) ^ 46) >>> (8 : Nat)) = 2 ^ 38 := by decide
  refine ⟨e1, ?_, by decide, ?_⟩
  · unfold mixSample saturate
    rw [e1, h1]; decide
  · unfold mixSample saturate
    rw [e2, h2]; decide

/-- C2: for every 64-bit accumulator the saturation test `((acc + 128) & -256) != 0` is
false exactly when `acc` lies in `[-128, 127]`, and in that case the value stored into
the sample buffer is `acc` itself. -/
theorem saturationTest_false_iff_in_range (acc : Int) (hlo : -2 ^ 63 ≤ acc)
    (hhi : acc < 2 ^ 63) :
    (saturationTest acc = false ↔ (-128 ≤ acc ∧ acc ≤ 127))
      ∧ (-128 ≤ acc ∧ acc ≤ 127 → saturate acc = acc)
      ∧ (¬ (-128 ≤ acc ∧ acc ≤ 127) → saturationTest acc = true) := by
  have key : saturationTest acc = false ↔ (-128 ≤ acc ∧ acc ≤ 127) := by
    rw [saturationTest_eq_false_iff]; unfold wrap64; omega
  refine ⟨key, ?_, ?_⟩
  · intro h
    unfold saturate
    rw [key.mpr h]
    simp only [Bool.false_eq_true, if_false]
    unfold toInt8; omega
  · intro h
    cases ht : saturationTest acc with
    | true => rfl
    | false => exact absurd (key.mp ht) h

theorem saturationTest_false_iff_in_range_witness :
    (saturationTest 5 = false ↔ (-128 ≤ (5 : Int) ∧ (5 : Int) ≤ 127))
      ∧ (-128 ≤ (5 : Int) ∧ (5 : Int) ≤ 127 → saturate 5 = 5)
      ∧ (¬ (-128 ≤ (5 : Int) ∧ (5 : Int) ≤ 127) → saturationTest 5 = true) :=
  saturationTest_false_iff_in_range 5 (by decide) (by decide)

/-! ## Loops in the error monad -/

theorem foldlM_ok_invariant {σ α : Type} (P : σ → Prop) (g : σ → α → Except Err σ)
    (hg : ∀ s a s', P s → g s a = .ok s' → P s') :
    ∀ (l : List α) (s s' : σ), P s → l.foldlM g s = .ok s' → P s' := by
  intro l
  induction l with
  | nil =>
    intro s s' hs h
    simp only [List.foldlM_nil, pure, Except.pure, Except.ok.injEq] at h
    exact h ▸ hs
  | cons a l ih =>
    intro s s' hs h
    rw [List.foldlM_cons] at h
    cases hga : g s a with
    | error e => rw [hga] at h; simp [bind, Except.bind] at h
    | ok s1 =>
      rw [hga] at h
      simp only [bind, Except.bind] at h
      exact ih s1 s' (hg s a s1 hs hga) h

theorem foldlM_error_cause {σ α : Type} (Q : Err → Prop) (g : σ → α → Except Err σ)
    (hg : ∀ s a e, g s a = .error e → Q e) :
    ∀ (l : List α) (s : σ) (e : Err), l.foldlM g s = .error e → Q e := by
  intro l
  induction l with
  | nil =>
    intro s e h
    simp [pure, Except.pure] at h
  | cons a l ih =>
    intro s e h
    rw [List.foldlM_cons] at h
    cases hga : g s a with
    | error e1 =>
      rw [hga] at h
      simp only [bind, Except.bind, Except.error.injEq] at h
      exact h ▸ hg s a e1 hga
    | ok s1 =>
      rw [hga] at h
      simp only [bind, Except.bind] at h
      exact ih s1 e h

/-! ## The filter reader -/

theorem u8_error (b : buffer) (e : Err) (h : b.u8 = .error e) : e = .indexOutOfRange := by
  unfold buffer.u8 at h
  split at h
  · simp at h
  · simp only [Except.error.injEq] at h; exact h.symm

theorem u16_error (b : buffer) (e : Err) (h : b.u16 = .error e) : e = .indexOutOfRange := by
  unfold buffer.u16 at h
  split at h
  · next e1 h1 => simp only [Except.error.injEq] at h; exact h ▸ u8_error _ _ h1
  · next hi b1 h1 =>
    split at h
    · next e2 h2 => simp only [Except.error.injEq] at h; exact h ▸ u8_error _ _ h2
    · simp at h

theorem readStartPair_error {R : Type} [NatCast R] (d p : Nat) (s : filter R × buffer) (e : Err)
    (h : readStartPair d p s = .error e) : e = .indexOutOfRange := by
  unfold readStartPair at h
  split at h
  · next e1 h1 => simp only [Except.error.injEq] at h; exact h ▸ u16_error _ _ h1
  · next v b1 h1 =>
    simp only at h
    split at h
    · next e2 h2 => simp only [Except.error.injEq] at h; exact h ▸ u16_error _ _ h2
    · simp at h

theorem readStartPair_pairs {R : Type} [NatCast R] (d p : Nat) (s s' : filter R × buffer)
    (h : readStartPair d p s = .ok s') : s'.1.Pairs = s.1.Pairs := by
  unfold readStartPair at h
  split at h
  · simp at h
  · next v b1 h1 =>
    simp only at h
    split at h
    · simp at h
    · next w b2 h2 =>
      simp only [Except.ok.injEq] at h
      rw [← h]

theorem readEndPair_error {R : Type} [NatCast R] (mg d p : Nat) (s : filter R × buffer) (e : Err)
    (h : readEndPair mg d p s = .error e) : e = .indexOutOfRange := by
  unfold readEndPair at h
  split at h
  · split at h
    · next e1 h1 => simp only [Except.error.injEq] at h; exact h ▸ u16_error _ _ h1
    · next v b1 h1 =>
      simp only at h
      split at h
      · next e2 h2 => simp only [Except.error.injEq] at h; exact h ▸ u16_error _ _ h2
      · simp at h
  · simp at h

theorem readEndPair_pairs {R : Type} [NatCast R] (mg d p : Nat) (s s' : filter R × buffer)
    (h : readEndPair mg d p s = .ok s') : s'.1.Pairs = s.1.Pairs := by
  unfold readEndPair at h
  split at h
  · split at h
    · simp at h
    · next v b1 h1 =>
      simp only at h
      split at h
      · simp at h
      · next w b2 h2 =>
        simp only [Except.ok.injEq] at h
        rw [← h]
  · simp only [Except.ok.injEq] at h
    rw [← h]

theorem pairLoops_error {R : Type}
    (body : Nat → Nat → filter R × buffer → Except Err (filter R × buffer))
    (hb : ∀ d p s e, body d p s = .error e → e = .indexOutOfRange)
    (s : filter R × buffer) (e : Err) (h : pairLoops body s = .error e) :
    e = .indexOutOfRange := by
  unfold pairLoops at h
  refine foldlM_error_cause (fun e => e = .indexOutOfRange) _ ?_ _ _ _ h
  intro s1 d e1 h1
  exact foldlM_error_cause (fun e => e = .indexOutOfRange) _ (fun s2 p e2 h2 => hb d p s2 e2 h2)
    _ _ _ h1

theorem pairLoops_pairs {R : Type}
    (body : Nat → Nat → filter R × buffer → Except Err (filter R × buffer))
    (hb : ∀ d p s s', body d p s = .ok s' → s'.1.Pairs = s.1.Pairs)
    (s s' : filter R × buffer) (h : pairLoops body s = .ok s') :
    s'.1.Pairs = s.1.Pairs := by
  unfold pairLoops at h
  refine foldlM_ok_invariant (fun x => x.1.Pairs = s.1.Pairs) _ ?_ _ _ _ rfl h
  intro s1 d s2 hs1 h1
  refine foldlM_ok_invariant (fun x => x.1.Pairs = s.1.Pairs) _ ?_ _ _ _ hs1 h1
  intro s3 p s4 hs3 h3
  rw [hb d p s3 s4 h3]; exact hs3

theorem readBody_error {R : Type} [NatCast R] (f : filter R) (b : buffer) (e : Err)
    (h : readBody f b = .error e) : e = .indexOutOfRange := by
  unfold readBody at h
  split at h
  · next e1 h1 => simp only [Except.error.injEq] at h; exact h ▸ u16_error _ _ h1
  · split at h
    · next e1 h1 => simp only [Except.error.injEq] at h; exact h ▸ u16_error _ _ h1
    · split at h
      · next e1 h1 => simp only [Except.error.injEq] at h; exact h ▸ u8_error _ _ h1
      · simp only at h
        split at h
        · next e1 h1 =>
          simp only [Except.error.injEq] at h
          exact h ▸ pairLoops_error _ readStartPair_error _ _ h1
        · split at h
          · next e1 h1 =>
            simp only [Except.error.injEq] at h
            exact h ▸ pairLoops_error _ (readEndPair_error _) _ _ h1
          · simp at h

theorem readBody_pairs {R : Type} [NatCast R] (f : filter R) (b : buffer)
    (r : filter R × buffer × Nat) (h : readBody f b = .ok r) : r.1.Pairs = f.Pairs := by
  unfold readBody at h
  split at h
  · simp at h
  · split at h
    · simp at h
    · split at h
      · simp at h
      · simp only at h
        split at h
        · simp at h
        · next s1 h1 =>
          split at h
          · simp at h
          · next s2 h2 =>
            simp only [Except.ok.injEq] at h
            rw [← h]
            simp only
            rw [pairLoops_pairs _ (readEndPair_pairs _) _ _ h2,
              pairLoops_pairs _ readStartPair_pairs _ _ h1]

theorem u8_at (data : List Nat) (pos c : Nat) (hc : data[pos]? = some c) (hlt : c < 256) :
    buffer.u8 ⟨data, pos⟩ = .ok (c, ⟨data, pos + 1⟩) := by
  unfold buffer.u8
  simp only [hc, Nat.mod_eq_of_lt hlt]

/-- C3: on a record whose count byte is `c`, `filter.read` returns the pair-interval error
carrying `c >> 4` and `c & 0xF`, with the cursor just behind the count byte, exactly when
one of the two nibbles exceeds 4; and whenever it returns no error both pair counts of the
filter lie in `[0, 4]`. -/
theorem filter_read_pair_interval {R : Type} [NatCast R]
    (readShape : buffer → Option String × buffer) (f : filter R) (data : List Nat)
    (pos c : Nat) (hc : data[pos]? = some c) (hlt : c < 256) :
    (((filter.read readShape f ⟨data, pos⟩).err
          = some (.pairInterval ((c >>> 4 : Nat) : Int) ((c &&& 0xF : Nat) : Int))
        ∧ (filter.read readShape f ⟨data, pos⟩).buf = ⟨data, pos + 1⟩)
      ↔ (c >>> 4 > 4 ∨ c &&& 0xF > 4))
    ∧ ((filter.read readShape f ⟨data, pos⟩).err = none →
        0 ≤ (filter.read readShape f ⟨data, pos⟩).f.Pairs 0
        ∧ (filter.read readShape f ⟨data, pos⟩).f.Pairs 0 ≤ 4
        ∧ 0 ≤ (filter.read readShape f ⟨data, pos⟩).f.Pairs 1
        ∧ (filter.read readShape f ⟨data, pos⟩).f.Pairs 1 ≤ 4) := by
  have hu := u8_at data pos c hc hlt
  have hp0 : ∀ (P : Nat → Int) (x y : Int), set1 (set1 P 0 x) 1 y 0 = x := by
    intro P x y; simp [set1]
  have hp1 : ∀ (P : Nat → Int) (x y : Int), set1 (set1 P 0 x) 1 y 1 = y := by
    intro P x y; simp [set1]
  unfold filter.read
  rw [hu]
  simp only [hp0, hp1]
  by_cases hbad : c >>> 4 > 4 ∨ c &&& 0xF > 4
  · have hbad' : ((c >>> 4 : Nat) : Int) > 4 ∨ ((c &&& 0xF : Nat) : Int) > 4 := by
      rcases hbad with h | h
      · left; exact_mod_cast h
      · right; exact_mod_cast h
    rw [if_pos hbad']
    simp [hbad]
  · have hbad' : ¬ (((c >>> 4 : Nat) : Int) > 4 ∨ ((c &&& 0xF : Nat) : Int) > 4) := by
      intro h
      apply hbad
      rcases h with h | h
      · left; exact_mod_cast h
      · right; exact_mod_cast h
    have hb0 : 0 ≤ ((c >>> 4 : Nat) : Int) ∧ ((c >>> 4 : Nat) : Int) ≤ 4 := by
      constructor
      · exact Int.ofNat_nonneg _
      · by_contra h; exact hbad' (Or.inl (by omega))
    have hb1 : 0 ≤ ((c &&& 0xF : Nat) : Int) ∧ ((c &&& 0xF : Nat) : Int) ≤ 4 := by
      constructor
      · exact Int.ofNat_nonneg _
      · by_contra h; exact hbad' (Or.inr (by omega))
    rw [if_neg hbad']
    by_cases hz : c ≠ 0
    · rw [if_pos hz]
      split
      · next e he =>
        have hidx := readBody_error _ _ _ he
        subst hidx
        simp [hbad]
      · next f2 b2 mg he =>
        have hpairs := readBody_pairs _ _ _ he
        simp only at hpairs
        split
        · constructor
          · simp only [hbad, iff_false, not_and]
            intro h
            cases hrs : (readShape b2).1 <;> simp [hrs] at h
          · intro _
            rw [hpairs]
            simp only [hp0, hp1]
            exact ⟨hb0.1, hb0.2, hb1.1, hb1.2⟩
        · constructor
          · simp [hbad]
          · intro _
            rw [hpairs]
            simp only [hp0, hp1]
            exact ⟨hb0.1, hb0.2, hb1.1, hb1.2⟩
    · rw [if_neg hz]
      constructor
      · simp [hbad]
      · intro _
        simp only [hp0, hp1]
        exact ⟨hb0.1, hb0.2, hb1.1, hb1.2⟩

theorem filter_read_pair_interval_witness :
    (((filter.read (fun b => (none, b)) (filter.zero Int) ⟨[0x50], 0⟩).err
          = some (.pairInterval ((0x50 >>> 4 : Nat) : Int) ((0x50 &&& 0xF : Nat) : Int))
        ∧ (filter.read (fun b => (none, b)) (filter.zero Int) ⟨[0x50], 0⟩).buf = ⟨[0x50], 0 + 1⟩)
      ↔ (0x50 >>> 4 > 4 ∨ 0x50 &&& 0xF > 4))
    ∧ ((filter.read (fun b => (none, b)) (filter.zero Int) ⟨[0x50], 0⟩).err = none →
        0 ≤ (filter.read (fun b => (none, b)) (filter.zero Int) ⟨[0x50], 0⟩).f.Pairs 0
        ∧ (filter.read (fun b => (none, b)) (filter.zero Int) ⟨[0x50], 0⟩).f.Pairs 0 ≤ 4
        ∧ 0 ≤ (filter.read (fun b => (none, b)) (filter.zero Int) ⟨[0x50], 0⟩).f.Pairs 1
        ∧ (filter.read (fun b => (none, b)) (filter.zero Int) ⟨[0x50], 0⟩).f.Pairs 1 ≤ 4) :=
  filter_read_pair_interval (fun b => (none, b)) _ [0x50] 0 0x50 (by decide) (by decide)

/-! ## The renderer -/

theorem trackLength_foldl_spec {τ : Type} (ops : ToneOps τ) (tones : List (Option τ)) :
    ∀ acc : Int,
      let r := tones.foldl (lengthStep ops) acc
      (r = acc ∨ ∃ tn, some tn ∈ tones ∧ r = toneEnd ops tn) ∧ acc ≤ r
        ∧ ∀ tn, some tn ∈ tones → toneEnd ops tn ≤ r := by
  induction tones with
  | nil => intro acc; simp
  | cons slot rest ih =>
    intro acc
    simp only [List.foldl_cons]
    cases slot with
    | none =>
      simp only [lengthStep]
      obtain ⟨h1, h2, h3⟩ := ih acc
      refine ⟨?_, h2, ?_⟩
      · rcases h1 with h | ⟨tn, hm, h⟩
        · left; exact h
        · right; exact ⟨tn, List.mem_cons_of_mem _ hm, h⟩
      · intro tn hm
        rcases List.mem_cons.mp hm with h | h
        · cases h
        · exact h3 tn h
    | some t0 =>
      simp only [lengthStep]
      obtain ⟨h1, h2, h3⟩ := ih (max (toneEnd ops t0) acc)
      refine ⟨?_, ?_, ?_⟩
      · rcases h1 with h | ⟨tn, hm, h⟩
        · rcases max_choice (toneEnd ops t0) acc with hc | hc
          · right; exact ⟨t0, List.mem_cons_self _ _, by rw [h, hc]⟩
          · left; rw [h, hc]
        · right; exact ⟨tn, List.mem_cons_of_mem _ hm, h⟩
      · exact le_trans (le_max_right _ _) h2
      · intro tn hm
        rcases List.mem_cons.mp hm with h | h
        · cases h; exact le_trans (le_max_left _ _) h2
        · exact h3 tn h

theorem toneEnd_bounds {τ : Type} (ops : ToneOps τ) (tn : τ) :
    0 ≤ toneEnd ops tn ∧ toneEnd ops tn < 65536 := by
  unfold toneEnd
  omega

/-- The loop of lines 92-98 computes the maximum end of the present tones. -/
theorem trackLength_eq_of_isMaxEnd {τ : Type} (ops : ToneOps τ) (tones : List (Option τ))
    (L : Int) (h : IsMaxEnd ops tones L) : trackLength ops tones = L := by
  obtain ⟨⟨t0, hm0, he0⟩, hub⟩ := h
  obtain ⟨h1, h2, h3⟩ := trackLength_foldl_spec ops tones 0
  unfold trackLength
  apply le_antisymm
  · rcases h1 with h | ⟨tn, hm, h⟩
    · rw [h, ← he0]; exact (toneEnd_bounds ops t0).1
    · rw [h]; exact hub tn hm
  · rw [← he0]; exact h3 t0 hm0

theorem trackLength_absent {τ : Type} (ops : ToneOps τ) (tones : List (Option τ))
    (h : ∀ slot ∈ tones, slot = none) : trackLength ops tones = 0 := by
  obtain ⟨h1, _, _⟩ := trackLength_foldl_spec ops tones 0
  unfold trackLength
  rcases h1 with h1 | ⟨tn, hm, _⟩
  · exact h1
  · exact absurd (h _ hm) (by simp)

theorem sampleCountOf_eq (L : Int) (h0 : 0 ≤ L) (h1 : L < 65536) :
    sampleCountOf L = L * 22050 / 1000 := by
  unfold sampleCountOf SampleRate wrap64
  have : (L * 22050 + 2 ^ 63) % 2 ^ 64 - 2 ^ 63 = L * 22050 := by omega
  rw [this]
  rw [Int.tdiv_eq_ediv] <;> omega

theorem p8_append (w r : List Nat) (x : Nat) (v : Int) :
    buffer.p8 ⟨w ++ x :: r, w.length⟩ v = .ok ⟨w ++ byteOf v :: r, w.length + 1⟩ := by
  unfold buffer.p8 byteOf
  simp

theorem p8s_append (vs : List Int) :
    ∀ (w r : List Nat),
      p8s ⟨w ++ (List.replicate vs.length 0 ++ r), w.length⟩ vs
        = .ok ⟨w ++ (vs.map byteOf ++ r), w.length + vs.length⟩ := by
  induction vs with
  | nil => intro w r; simp [p8s, pure, Except.pure]
  | cons v rest ih =>
    intro w r
    unfold p8s
    rw [List.foldlM_cons]
    simp only [List.length_cons, List.replicate_succ, List.cons_append]
    rw [p8_append]
    simp only [bind, Except.bind]
    have h := ih (w ++ [byteOf v]) r
    unfold p8s at h
    simp only [List.length_append, List.length_singleton, List.append_assoc,
      List.singleton_append] at h
    rw [h]
    simp only [List.map_cons, List.cons_append]
    congr 2
    omega

theorem put_eq_p8s (b : buffer) (src : List Nat) :
    b.put src = p8s b (src.map (fun x => (x : Int))) := by
  unfold buffer.put p8s
  rw [List.foldlM_map]

theorem p16le_eq_p8s (b : buffer) (v : Int) : b.p16le v = p8s b (le16Vals v) := by
  unfold buffer.p16le p8s le16Vals
  simp only [List.foldlM_cons, List.foldlM_nil, bind_pure]

theorem p32le_eq_p8s (b : buffer) (v : Int) :
    b.p32le v = p8s b (le32Vals v) := by
  unfold buffer.p32le p8s le32Vals
  simp only [List.foldlM_cons, List.foldlM_nil, bind_pure]

theorem writeSamples_eq_p8s (b : buffer) (samples : List Int) :
    writeSamples b samples = p8s b (samples.map sampleByteArg) := by
  unfold writeSamples p8s
  rw [List.foldlM_map]

theorem writeHeader_eq_p8s (n : Nat) :
    writeHeader (n : Int) = p8s ⟨List.replicate (44 + n) 0, 0⟩ (headerVals (n : Int)) := by
  have h44 : (44 + (n : Int)).toNat = 44 + n := by omega
  unfold writeHeader headerVals
  simp only [h44, put_eq_p8s, p16le_eq_p8s, p32le_eq_p8s]
  unfold p8s
  simp only [List.foldlM_append]
  rfl

theorem headerVals_length (n : Int) : (headerVals n).length = 44 := rfl

theorem headerVals_map (n : Int) : (headerVals n).map byteOf = headerBytes n := by
  have h1 : (le32Vals 16).map byteOf = [16, 0, 0, 0] := by decide
  have h2 : (le16Vals 1).map byteOf = [1, 0] := by decide
  have h3 : (le32Vals 22050).map byteOf = [34, 86, 0, 0] := by decide
  have h4 : (le16Vals 8).map byteOf = [8, 0] := by decide
  have h5 : ([82, 73, 70, 70] : List Int).map byteOf = [82, 73, 70, 70] := by decide
  have h6 : ([87, 65, 86, 69] : List Int).map byteOf = [87, 65, 86, 69] := by decide
  have h7 : ([102, 109, 116, 32] : List Int).map byteOf = [102, 109, 116, 32] := by decide
  have h8 : ([100, 97, 116, 97] : List Int).map byteOf = [100, 97, 116, 97] := by decide
  have h9 : ∀ v : Int, (le32Vals v).map byteOf = le32 v := fun v => rfl
  unfold headerVals headerBytes
  simp only [List.map_append, h1, h2, h3, h4, h5, h6, h7, h8, h9, List.append_assoc]

theorem writeHeader_eq (n : Nat) :
    writeHeader (n : Int) = .ok ⟨headerBytes (n : Int) ++ List.replicate n 0, 44⟩ := by
  rw [writeHeader_eq_p8s]
  have hspec := p8s_append (headerVals (n : Int)) [] (List.replicate n 0)
  rw [headerVals_length, List.nil_append, List.length_nil, ← List.replicate_add,
    headerVals_map, List.nil_append, Nat.zero_add] at hspec
  exact hspec


theorem mixTone_length (samples toneSamples : List Int) (toneStart toneSampleCount : Int)
    (out : List Int) (h : mixTone samples toneSamples toneStart toneSampleCount = .ok out) :
    out.length = samples.length := by
  unfold mixTone at h
  refine foldlM_ok_invariant (fun x => x.length = samples.length) _ ?_ _ _ _ rfl h
  intro s pos s' hs hstep
  simp only at hstep
  split at hstep
  · split at hstep
    · simp at hstep
    · simp only [Except.ok.injEq] at hstep
      rw [← hstep, List.length_set]; exact hs
  · simp at hstep

theorem renderSlot_length {τ : Type} (ops : ToneOps τ) (samples : List Int) (slot : Option τ)
    (out : List Int) (h : renderSlot ops samples slot = .ok out) :
    out.length = samples.length := by
  unfold renderSlot at h
  split at h
  · simp only [Except.ok.injEq] at h; rw [← h]
  · simp only at h
    split at h
    · simp at h
    · exact mixTone_length _ _ _ _ _ h

theorem renderTones_length {τ : Type} (ops : ToneOps τ) (tones : List (Option τ))
    (sampleCount : Int) (out : List Int) (h : renderTones ops tones sampleCount = .ok out) :
    out.length = sampleCount.toNat := by
  unfold renderTones at h
  have h0 : (newSamples sampleCount).length = sampleCount.toNat := by
    unfold newSamples; simp
  refine foldlM_ok_invariant (fun x => x.length = sampleCount.toNat) _ ?_ _ _ _ h0 h
  intro s slot s' hs hstep
  rw [renderSlot_length ops s slot s' hstep]; exact hs

/-- When the tone loop completes, `Track.generate` returns the header followed by one byte
per sample. -/
theorem generate_eq_container {τ : Type} (ops : ToneOps τ) (t : Track τ) (L : Int)
    (hmax : IsMaxEnd ops t.Tones L) (hpos : 0 < L) (samples : List Int)
    (hrender : renderTones ops t.Tones (sampleCountOf L) = .ok samples) :
    Track.generate ops t
        = .ok (headerBytes (L * 22050 / 1000)
            ++ samples.map (fun s => byteOf (sampleByteArg s)))
      ∧ (samples.length : Int) = L * 22050 / 1000 := by
  have hlen := trackLength_eq_of_isMaxEnd ops t.Tones L hmax
  obtain ⟨⟨t0, _, he0⟩, _⟩ := hmax
  have hL : L < 65536 := he0 ▸ (toneEnd_bounds ops t0).2
  have hsc := sampleCountOf_eq L (le_of_lt hpos) hL
  have hslen := renderTones_length ops t.Tones _ _ hrender
  rw [hsc] at hrender hslen
  have hN : 0 ≤ L * 22050 / 1000 := by omega
  obtain ⟨n, hn⟩ := Int.eq_ofNat_of_zero_le hN
  rw [hn] at hrender hslen ⊢
  simp only [Int.toNat_ofNat] at hslen
  refine ⟨?_, by rw [hslen]⟩
  unfold Track.generate
  simp only [hlen, hsc, hn]
  rw [if_neg (by omega), hrender]
  simp only
  rw [writeHeader_eq]
  simp only
  rw [writeSamples_eq_p8s]
  have hspec := p8s_append (samples.map sampleByteArg) (headerBytes (n : Int)) []
  have hl : (headerBytes (n : Int)).length = 44 := rfl
  rw [List.length_map, hslen, List.append_nil, hl, List.append_nil] at hspec
  rw [hspec]
  simp only [List.map_map]
  rfl

theorem floor_ms (L : Int) : ⌊((L : ℚ) * 22050) / 1000⌋ = L * 22050 / 1000 := by
  have h := Rat.floor_intCast_div_natCast (L * 22050) 1000
  push_cast at h
  exact h

theorem foldlM_ok_of_step {σ α : Type} (P : σ → Prop) (g : σ → α → Except Err σ) :
    ∀ (l : List α), (∀ s a, a ∈ l → P s → ∃ s', g s a = .ok s' ∧ P s') →
      ∀ s, P s → ∃ s', l.foldlM g s = .ok s' ∧ P s' := by
  intro l
  induction l with
  | nil => intro _ s hs; exact ⟨s, rfl, hs⟩
  | cons a l ih =>
    intro hg s hs
    obtain ⟨s1, h1, hp1⟩ := hg s a (List.mem_cons_self _ _) hs
    obtain ⟨s2, h2, hp2⟩ := ih (fun s a ha => hg s a (List.mem_cons_of_mem _ ha)) s1 hp1
    refine ⟨s2, ?_, hp2⟩
    rw [List.foldlM_cons, h1]
    exact h2

/-- The mixing loop of one tone completes when the tone lies inside the sample buffer and
the tone delivered at least its sample count. -/
theorem mixTone_ok (samples toneSamples : List Int) (toneStart toneSampleCount : Int)
    (h0 : 0 ≤ toneStart) (h1 : toneStart + toneSampleCount ≤ samples.length)
    (h2 : toneSampleCount ≤ toneSamples.length) :
    ∃ out, mixTone samples toneSamples toneStart toneSampleCount = .ok out := by
  unfold mixTone
  obtain ⟨out, hout, _⟩ := foldlM_ok_of_step (fun x : List Int => x.length = samples.length)
    (fun (samples : List Int) (pos : Nat) =>
      let idx : Int := (pos : Int) + toneStart
      if 0 ≤ idx ∧ idx < samples.length then
        match toneSamples[pos]? with
        | none => .error .indexOutOfRange
        | some ts => .ok (samples.set idx.toNat (mixSample (samples.getD idx.toNat 0) ts))
      else .error .indexOutOfRange)
    (List.range toneSampleCount.toNat)
    (by
      intro s pos hpos hs
      have hp : pos < toneSampleCount.toNat := List.mem_range.mp hpos
      have hidx : 0 ≤ (pos : Int) + toneStart ∧ (pos : Int) + toneStart < s.length := by
        rw [hs]; omega
      have hts : pos < toneSamples.length := by omega
      simp only [hidx, and_self, if_true, List.getElem?_eq_getElem hts]
      exact ⟨_, rfl, by rw [List.length_set]; exact hs⟩)
    samples rfl
  exact ⟨out, hout⟩

theorem le32_decode (v : Int) (h0 : 0 ≤ v) (h1 : v < 2 ^ 32) :
    ((byteOf v + 256 * byteOf (v >>> (8 : Nat)) + 65536 * byteOf (v >>> (16 : Nat))
      + 16777216 * byteOf (v >>> (24 : Nat)) : Nat) : Int) = v := by
  unfold byteOf
  simp only [Int.shiftRight_eq_div_pow]
  norm_num
  omega

theorem le32At_header (n : Int) (rest : List Nat) :
    le32At (headerBytes n ++ rest) 4 = byteOf (36 + n) + 256 * byteOf ((36 + n) >>> (8 : Nat))
        + 65536 * byteOf ((36 + n) >>> (16 : Nat)) + 16777216 * byteOf ((36 + n) >>> (24 : Nat))
      ∧ le32At (headerBytes n ++ rest) 40 = byteOf n + 256 * byteOf (n >>> (8 : Nat))
        + 65536 * byteOf (n >>> (16 : Nat)) + 16777216 * byteOf (n >>> (24 : Nat)) := by
  constructor <;> simp [le32At, headerBytes, le32]

theorem isMaxEnd_singleton {τ : Type} (ops : ToneOps τ) (tn : τ) (L : Int)
    (h : toneEnd ops tn = L) : IsMaxEnd ops [some tn] L := by
  unfold IsMaxEnd
  refine ⟨⟨tn, List.mem_singleton.mpr rfl, h⟩, ?_⟩
  intro t1 h1
  have h2 := List.mem_singleton.mp h1
  simp only [Option.some.injEq] at h2
  rw [h2, h]


theorem renderTones_plain_single (start len : Fin 65536)
    (h : start.val + len.val < 65536) :
    ∃ samples, renderTones plainTones [some (start, len)]
      (sampleCountOf (toneEnd plainTones (start, len))) = .ok samples := by
  have hs := start.isLt
  have hl := len.isLt
  have hend : toneEnd plainTones (start, len) = (start.val : Int) + len.val := by
    unfold toneEnd plainTones
    simp only
    omega
  have hcount : sampleCountOf (toneEnd plainTones (start, len))
      = ((start.val : Int) + len.val) * 22050 / 1000 := by
    rw [hend]; exact sampleCountOf_eq _ (by omega) (by omega)
  have hw1 : Int.tdiv (wrap64 ((len.val : Int) * SampleRate)) 1000 = (len.val : Int) * 22050 / 1000 :=
    sampleCountOf_eq _ (by omega) (by omega)
  have hw2 : Int.tdiv (wrap64 ((start.val : Int) * SampleRate)) 1000
      = (start.val : Int) * 22050 / 1000 :=
    sampleCountOf_eq _ (by omega) (by omega)
  unfold renderTones
  simp only [List.foldlM_cons, List.foldlM_nil, bind_pure]
  unfold renderSlot
  simp only [plainTones, hw1, hw2]
  obtain ⟨out, hout⟩ := mixTone_ok (newSamples (sampleCountOf (toneEnd plainTones (start, len))))
    (List.replicate ((len.val : Int) * 22050 / 1000).toNat 256)
    ((start.val : Int) * 22050 / 1000) ((len.val : Int) * 22050 / 1000)
    (by omega)
    (by rw [hcount]; unfold newSamples; rw [List.length_replicate]; omega)
    (by rw [List.length_replicate]; omega)
  refine ⟨out, ?_⟩
  simp only [plainTones] at hout
  rw [hout]

/-- The tone loop of `Track.generate` completes when no present tone's `start + length`
wraps around 16 bits and every present tone delivers at least its sample count. -/
theorem renderTones_ok {τ : Type} (ops : ToneOps τ) (tones : List (Option τ)) (L : Int)
    (hmax : IsMaxEnd ops tones L)
    (hfit : ∀ tn, some tn ∈ tones → ops.Start tn + ops.Length tn < 65536)
    (hgen : ∀ tn, some tn ∈ tones → ∃ ts,
      ops.generate tn (Int.tdiv (wrap64 ((ops.Length tn : Int) * SampleRate)) 1000)
          (ops.Length tn : Int) = .ok ts
        ∧ Int.tdiv (wrap64 ((ops.Length tn : Int) * SampleRate)) 1000 ≤ ts.length) :
    ∃ samples, renderTones ops tones (sampleCountOf L) = .ok samples := by
  obtain ⟨⟨t0, _, he0⟩, hub⟩ := hmax
  have hL0 : 0 ≤ L := he0 ▸ (toneEnd_bounds ops t0).1
  have hL1 : L < 65536 := he0 ▸ (toneEnd_bounds ops t0).2
  have hsc := sampleCountOf_eq L hL0 hL1
  unfold renderTones
  obtain ⟨out, hout, _⟩ := foldlM_ok_of_step
    (fun x : List Int => (x.length : Int) = L * 22050 / 1000) (renderSlot ops) tones
    (by
      intro s slot hslot hs
      cases slot with
      | none => exact ⟨s, rfl, hs⟩
      | some tn =>
        obtain ⟨ts, hts, hlen⟩ := hgen tn hslot
        have hS := ops.Start_lt tn
        have hLn := ops.Length_lt tn
        have hend : (ops.Start tn : Int) + ops.Length tn ≤ L := by
          have h := hub tn hslot
          unfold toneEnd at h
          have hf := hfit tn hslot
          omega
        have hw1 : Int.tdiv (wrap64 ((ops.Length tn : Int) * SampleRate)) 1000
            = (ops.Length tn : Int) * 22050 / 1000 := sampleCountOf_eq _ (by omega) (by omega)
        have hw2 : Int.tdiv (wrap64 ((ops.Start tn : Int) * SampleRate)) 1000
            = (ops.Start tn : Int) * 22050 / 1000 := sampleCountOf_eq _ (by omega) (by omega)
        obtain ⟨out, hout⟩ := mixTone_ok s ts
          (Int.tdiv (wrap64 ((ops.Start tn : Int) * SampleRate)) 1000)
          (Int.tdiv (wrap64 ((ops.Length tn : Int) * SampleRate)) 1000)
          (by rw [hw2]; omega) (by rw [hw1, hw2, hs]; omega) hlen
        refine ⟨out, ?_, ?_⟩
        · unfold renderSlot
          simp only [hts]
          exact hout
        · show (out.length : Int) = L * 22050 / 1000
          rw [mixTone_length _ _ _ _ _ hout]; exact hs)
    (newSamples (sampleCountOf L))
    (by
      show ((newSamples (sampleCountOf L)).length : Int) = L * 22050 / 1000
      unfold newSamples; rw [List.length_replicate, hsc]; omega)
  exact ⟨out, hout⟩

/-! ## Claims about the renderer -/

/-- C5 (as stated, refuted): a track whose only tone starts at 0 and lasts 1 ms has maximum
end 1; `Track.generate` allocates 22 samples, while `ceil(1 * 22050 / 1000)` is 23. -/
theorem sample_buffer_not_ceil :
    IsMaxEnd plainTones [some (0, 1)] 1
      ∧ ((newSamples (sampleCountOf (trackLength plainTones [some (0, 1)]))).length : Int) = 22
      ∧ ⌈((1 : ℚ) * 22050) / 1000⌉ = 23
      ∧ ((newSamples (sampleCountOf (trackLength plainTones [some (0, 1)]))).length : Int)
          ≠ ⌈((1 : ℚ) * 22050) / 1000⌉ := by
  have h22 : ((newSamples (sampleCountOf (trackLength plainTones [some (0, 1)]))).length : Int)
      = 22 := by decide
  have h23 : ⌈((1 : ℚ) * 22050) / 1000⌉ = 23 := by
    rw [Int.ceil_eq_iff]; norm_num
  refine ⟨isMaxEnd_singleton _ _ _ (by decide), h22, h23, ?_⟩
  rw [h22, h23]
  decide

/-- C5 (amended): for every track whose maximum of `(start + length)` over present tones is
`L > 0`, the sample buffer allocated by `Track.generate` has length
`floor(L * 22050 / 1000)`. -/
theorem sample_buffer_length_floor {τ : Type} (ops : ToneOps τ) (tones : List (Option τ))
    (L : Int) (hmax : IsMaxEnd ops tones L) (hpos : 0 < L) :
    ((newSamples (sampleCountOf (trackLength ops tones))).length : Int)
      = ⌊((L : ℚ) * 22050) / 1000⌋ := by
  rw [trackLength_eq_of_isMaxEnd ops tones L hmax, floor_ms]
  obtain ⟨⟨t0, _, he0⟩, _⟩ := hmax
  have hL : L < 65536 := he0 ▸ (toneEnd_bounds ops t0).2
  rw [sampleCountOf_eq L (le_of_lt hpos) hL]
  unfold newSamples
  rw [List.length_replicate]
  omega

theorem sample_buffer_length_floor_witness :
    ((newSamples (sampleCountOf (trackLength plainTones [some (0, 100)]))).length : Int)
      = ⌊(((100 : Int) : ℚ) * 22050) / 1000⌋ :=
  sample_buffer_length_floor plainTones [some (0, 100)] 100
    (isMaxEnd_singleton _ _ _ (by decide)) (by decide)

theorem generate_absent {τ : Type} (ops : ToneOps τ) (t : Track τ)
    (h : ∀ slot ∈ t.Tones, slot = none) : Track.generate ops t = .error .emptySound := by
  unfold Track.generate
  simp only [trackLength_absent ops t.Tones h, if_true]

theorem read_absent {τ : Type} (ops : ToneOps τ) (b0 b1 b2 b3 : Nat) (rest : List Nat) :
    Track.read ops (Track.zero τ) ⟨List.replicate 10 0 ++ b0 :: b1 :: b2 :: b3 :: rest, 0⟩
      = .ok ({ Tones := List.replicate 10 none, Delay := 0,
               LoopBegin := b0 % 256 * 256 + b1 % 256, LoopEnd := b2 % 256 * 256 + b3 % 256 },
             ⟨List.replicate 10 0 ++ b0 :: b1 :: b2 :: b3 :: rest, 14⟩) := by
  have hr : List.range 10 = [0, 1, 2, 3, 4, 5, 6, 7, 8, 9] := by decide
  unfold Track.read
  rw [hr]
  simp [readSlot, buffer.u8, buffer.u16, Track.zero, List.replicate, bind, Except.bind, pure,
    Except.pure]

/-- C6: a track all of whose tone slots are absent makes `Track.generate` return the
empty-sound error and no bytes; and `Track.read`, applied to 10 zero presence bytes followed
by the four bytes of the two loop markers, produces such a track. -/
theorem generate_empty_sound {τ : Type} (ops : ToneOps τ) (t : Track τ)
    (h : ∀ slot ∈ t.Tones, slot = none) (b0 b1 b2 b3 : Nat) (rest : List Nat) :
    Track.generate ops t = .error .emptySound
      ∧ ∃ t1 buf1,
          Track.read ops (Track.zero τ)
              ⟨List.replicate 10 0 ++ b0 :: b1 :: b2 :: b3 :: rest, 0⟩ = .ok (t1, buf1)
            ∧ t1.Tones.length = 10 ∧ (∀ slot ∈ t1.Tones, slot = none)
            ∧ Track.generate ops t1 = .error .emptySound := by
  refine ⟨generate_absent ops t h, _, _, read_absent ops b0 b1 b2 b3 rest, ?_, ?_, ?_⟩
  · simp
  · intro slot hs
    exact (List.mem_replicate.mp hs).2
  · apply generate_absent
    intro slot hs
    exact (List.mem_replicate.mp hs).2

theorem generate_empty_sound_witness :
    Track.generate plainTones (Track.zero (Fin 65536 × Fin 65536)) = .error .emptySound
      ∧ ∃ t1 buf1,
          Track.read plainTones (Track.zero (Fin 65536 × Fin 65536))
              ⟨List.replicate 10 0 ++ 0 :: 5 :: 0 :: 9 :: [], 0⟩ = .ok (t1, buf1)
            ∧ t1.Tones.length = 10 ∧ (∀ slot ∈ t1.Tones, slot = none)
            ∧ Track.generate plainTones t1 = .error .emptySound :=
  generate_empty_sound plainTones (Track.zero _)
    (fun _ hs => (List.mem_replicate.mp hs).2) 0 5 0 9 []

/-- C7 (as stated, refuted): a track whose only tone starts at 65535 ms and lasts 2 ms has
maximum `start + length` equal to 1 (the 16-bit sum wraps) and its tone renders without
error, delivering its 44 samples; yet `Track.generate` returns no bytes: the first mixed
index, 1445046, lies outside the buffer of 22 samples.  Likewise a track whose only tone
(start 0, length 1 ms) renders without error but delivers no samples: the mixing loop
reads `toneSamples[0]` out of range. -/
theorem generate_container_needs_fit :
    IsMaxEnd plainTones [some (65535, 2)] 1
      ∧ plainTones.generate (65535, 2)
          (Int.tdiv (wrap64 ((plainTones.Length (65535, 2) : Int) * SampleRate)) 1000)
          (plainTones.Length (65535, 2) : Int) = .ok (List.replicate 44 256)
      ∧ Track.generate plainTones
          { Tones := [some (65535, 2)], Delay := 0, LoopBegin := 0, LoopEnd := 0 }
        = .error .indexOutOfRange
      ∧ IsMaxEnd silentTones [some (0, 1)] 1
      ∧ silentTones.generate (0, 1)
          (Int.tdiv (wrap64 ((silentTones.Length (0, 1) : Int) * SampleRate)) 1000)
          (silentTones.Length (0, 1) : Int) = .ok []
      ∧ Track.generate silentTones
          { Tones := [some (0, 1)], Delay := 0, LoopBegin := 0, LoopEnd := 0 }
        = .error .indexOutOfRange := by
  exact ⟨isMaxEnd_singleton _ _ _ (by decide), rfl, rfl,
    isMaxEnd_singleton _ _ _ (by decide), rfl, rfl⟩

/-- C7 (amended): for every track whose maximum of `(start + length)` over present tones is
`L > 0`, none of whose present tones has a `start + length` that wraps around 16 bits, and
whose present tones render without error and deliver at least their sample count,
`Track.generate` returns a byte sequence of length `44 + N` with
`N = floor(L * 22050 / 1000)`, whose RIFF size field is `36 + N` and whose data size field
is `N`; for `L = 100`, `N = 2205` and the sequence has 2249 bytes. -/
theorem generate_container_size {τ : Type} (ops : ToneOps τ) (t : Track τ) (L : Int)
    (hmax : IsMaxEnd ops t.Tones L) (hpos : 0 < L)
    (hfit : ∀ tn, some tn ∈ t.Tones → ops.Start tn + ops.Length tn < 65536)
    (hgen : ∀ tn, some tn ∈ t.Tones → ∃ ts,
      ops.generate tn (Int.tdiv (wrap64 ((ops.Length tn : Int) * SampleRate)) 1000)
          (ops.Length tn : Int) = .ok ts
        ∧ Int.tdiv (wrap64 ((ops.Length tn : Int) * SampleRate)) 1000 ≤ ts.length) :
    ∃ bytes, Track.generate ops t = .ok bytes
      ∧ (bytes.length : Int) = 44 + ⌊((L : ℚ) * 22050) / 1000⌋
      ∧ ((le32At bytes 4 : Nat) : Int) = 36 + ⌊((L : ℚ) * 22050) / 1000⌋
      ∧ ((le32At bytes 40 : Nat) : Int) = ⌊((L : ℚ) * 22050) / 1000⌋
      ∧ bytes.take 4 = [82, 73, 70, 70]
      ∧ (L = 100 → ⌊((L : ℚ) * 22050) / 1000⌋ = 2205 ∧ bytes.length = 2249) := by
  obtain ⟨samples, hrender⟩ := renderTones_ok ops t.Tones L hmax hfit hgen
  obtain ⟨hgen, hlen⟩ := generate_eq_container ops t L hmax hpos samples hrender
  obtain ⟨⟨t0, _, he0⟩, _⟩ := hmax
  have hL : L < 65536 := he0 ▸ (toneEnd_bounds ops t0).2
  have hN0 : 0 ≤ L * 22050 / 1000 := by omega
  have hN1 : L * 22050 / 1000 < 2 ^ 31 := by omega
  have hbl : ((headerBytes (L * 22050 / 1000)
      ++ samples.map (fun s => byteOf (sampleByteArg s))).length : Int)
        = 44 + L * 22050 / 1000 := by
    rw [List.length_append, List.length_map]
    have : (headerBytes (L * 22050 / 1000)).length = 44 := rfl
    rw [this]; push_cast; rw [hlen]
  obtain ⟨h4, h40⟩ := le32At_header (L * 22050 / 1000)
    (samples.map (fun s => byteOf (sampleByteArg s)))
  refine ⟨_, hgen, ?_, ?_, ?_, ?_, ?_⟩
  · rw [floor_ms]; exact hbl
  · rw [floor_ms, h4]; exact le32_decode _ (by omega) (by omega)
  · rw [floor_ms, h40]; exact le32_decode _ (by omega) (by omega)
  · rfl
  · intro h100
    rw [floor_ms]
    subst h100
    constructor
    · decide
    · have h2249 : (44 : Int) + 100 * 22050 / 1000 = 2249 := by decide
      rw [h2249] at hbl
      exact_mod_cast hbl

theorem generate_container_size_witness :
    ∃ bytes, Track.generate plainTones
        { Tones := [some (0, 100)], Delay := 0, LoopBegin := 0, LoopEnd := 0 } = .ok bytes
      ∧ (bytes.length : Int) = 44 + ⌊(((100 : Int) : ℚ) * 22050) / 1000⌋
      ∧ ((le32At bytes 4 : Nat) : Int) = 36 + ⌊(((100 : Int) : ℚ) * 22050) / 1000⌋
      ∧ ((le32At bytes 40 : Nat) : Int) = ⌊(((100 : Int) : ℚ) * 22050) / 1000⌋
      ∧ bytes.take 4 = [82, 73, 70, 70]
      ∧ ((100 : Int) = 100 → ⌊(((100 : Int) : ℚ) * 22050) / 1000⌋ = 2205
          ∧ bytes.length = 2249) :=
  generate_container_size plainTones
    { Tones := [some (0, 100)], Delay := 0, LoopBegin := 0, LoopEnd := 0 } 100
    (isMaxEnd_singleton _ _ _ (by decide)) (by decide)
    (by
      intro tn h
      have h1 : tn = (0, 100) := by simpa using h
      subst h1
      decide)
    (by
      intro tn h
      have h1 : tn = (0, 100) := by simpa using h
      subst h1
      exact ⟨_, rfl, by simp [plainTones]⟩)

/-- C8: the byte that `Track.generate` emits for the stored sample at position `i`, at
offset `44 + i` of its result, is `(s - 127) mod 256`, the subtraction wrapping in `int8`:
the samples 0, -128 and 127 are emitted as 129, 1 and 0. -/
theorem generate_sample_byte {τ : Type} (ops : ToneOps τ) (t : Track τ) (L : Int)
    (hmax : IsMaxEnd ops t.Tones L) (hpos : 0 < L) (samples : List Int)
    (hrender : renderTones ops t.Tones (sampleCountOf L) = .ok samples)
    (i : Nat) (hi : i < samples.length) :
    ∃ bytes, Track.generate ops t = .ok bytes
      ∧ bytes[44 + i]? = some (((samples.getD i 0 - 127) % 256).toNat)
      ∧ sampleByteArg (samples.getD i 0) = toInt8 (samples.getD i 0 - 127)
      ∧ byteOf (sampleByteArg 0) = 129 ∧ byteOf (sampleByteArg (-128)) = 1
      ∧ byteOf (sampleByteArg 127) = 0 := by
  obtain ⟨hgen, _⟩ := generate_eq_container ops t L hmax hpos samples hrender
  refine ⟨_, hgen, ?_, rfl, by decide, by decide, by decide⟩
  have hl : (headerBytes (L * 22050 / 1000)).length = 44 := rfl
  rw [List.getElem?_append_right (by omega), hl]
  simp only [Nat.add_sub_cancel_left, List.getElem?_map, List.getElem?_eq_getElem hi,
    Option.map_some', List.getD_eq_getElem _ _ hi, Option.some.injEq]
  unfold byteOf sampleByteArg toInt8
  congr 1
  omega

theorem generate_sample_byte_witness :
    ∃ samples, renderTones plainTones [some (0, 100)] (sampleCountOf 100) = .ok samples
      ∧ ∃ bytes, Track.generate plainTones
          { Tones := [some (0, 100)], Delay := 0, LoopBegin := 0, LoopEnd := 0 } = .ok bytes
        ∧ bytes[44 + 7]? = some (((samples.getD 7 0 - 127) % 256).toNat)
        ∧ sampleByteArg (samples.getD 7 0) = toInt8 (samples.getD 7 0 - 127)
        ∧ byteOf (sampleByteArg 0) = 129 ∧ byteOf (sampleByteArg (-128)) = 1
        ∧ byteOf (sampleByteArg 127) = 0 := by
  obtain ⟨samples, hs⟩ := renderTones_plain_single 0 100 (by decide)
  have hlen : samples.length = 2205 := by
    rw [renderTones_length _ _ _ _ hs]; decide
  exact ⟨samples, hs, generate_sample_byte plainTones
    { Tones := [some (0, 100)], Delay := 0, LoopBegin := 0, LoopEnd := 0 } 100
    (isMaxEnd_singleton _ _ _ (by decide)) (by decide) samples hs 7 (by omega)⟩

/-! ## The waveform generator -/

theorem ldiff_two (m : Nat) : Nat.ldiff 2 m = if m.testBit 1 then 0 else 2 := by
  apply Nat.eq_of_testBit_eq
  intro k
  rw [Nat.testBit_ldiff]
  have h2 : Nat.testBit 2 k = decide (1 = k) := by
    have h := @Nat.testBit_two_pow 1 k
    simpa using h
  by_cases hm : m.testBit 1 = true
  · rw [if_pos hm, h2]
    by_cases hk : 1 = k
    · subst hk; simp [hm]
    · simp [hk]
  · rw [if_neg hm, h2]
    by_cases hk : 1 = k
    · subst hk; simp [hm]
    · simp [hk]

theorem and_two (m : Nat) : m &&& 2 = 0 ∨ m &&& 2 = 2 := by
  have h1 : m &&& 2 ≤ 2 := Nat.and_le_right
  have h2 : (m &&& 2).testBit 0 = false := by
    rw [Nat.testBit_and]; simp
  rw [Nat.testBit_zero] at h2
  simp only [decide_eq_false_iff_not] at h2
  omega

/-- The expression `r & 0x2` is 0 or 2 for every integer `r`. -/
theorem land_two (r : Int) : Int.land r 2 = 0 ∨ Int.land r 2 = 2 := by
  cases r with
  | ofNat m =>
    show ((m &&& 2 : Nat) : Int) = 0 ∨ ((m &&& 2 : Nat) : Int) = 2
    rcases and_two m with h | h <;> rw [h] <;> simp
  | negSucc m =>
    show ((Nat.ldiff 2 m : Nat) : Int) = 0 ∨ ((Nat.ldiff 2 m : Nat) : Int) = 2
    rw [ldiff_two]
    by_cases hm : m.testBit 1 = true
    · rw [if_pos hm]; simp
    · rw [if_neg hm]; simp

theorem noiseInit_values (rand : Nat → Int) (i : Nat) :
    noiseInit rand i = -1 ∨ noiseInit rand i = 1 := by
  unfold noiseInit
  rcases land_two (rand i) with h | h <;> rw [h] <;> simp

theorem phaseIndex_eq (phase : Int) : phaseIndex phase = phase % 32768 := by
  unfold phaseIndex; exact land_32767 phase

theorem noiseIndex_eq (phase : Int) : noiseIndex phase = Int.tdiv phase 2607 % 32768 := by
  unfold noiseIndex; exact land_32767 _

/-- C10: for every phase and every 64-bit amplitude `A`, `generate(noise, p, A)` is `-A` or
`A`; every entry `(r & 2) - 1` of the noise table is -1 or 1 for any integer `r`; and the
index `(p / 2607) & 0x7FFF` lies in `[0, 32768)`. -/
theorem generate_noise_values (rand : Nat → Int) (sin : Nat → Int) (p A : Int)
    (hlo : -2 ^ 63 ≤ A) (hhi : A < 2 ^ 63) :
    (generate (noiseInit rand) sin 4 p A = -A ∨ generate (noiseInit rand) sin 4 p A = A)
      ∧ (∀ r : Int, Int.land r 0x2 - 1 = -1 ∨ Int.land r 0x2 - 1 = 1)
      ∧ 0 ≤ noiseIndex p ∧ noiseIndex p < 32768 := by
  refine ⟨?_, ?_, ?_, ?_⟩
  · show wrap64 (noiseInit rand (noiseIndex p).toNat * A) = -A
      ∨ wrap64 (noiseInit rand (noiseIndex p).toNat * A) = A
    rcases noiseInit_values rand (noiseIndex p).toNat with h | h
    · rw [h]
      by_cases hA : A = -2 ^ 63
      · right; subst hA; decide
      · left; unfold wrap64; omega
    · rw [h]; right; unfold wrap64; omega
  · intro r
    rcases land_two r with h | h <;> rw [h] <;> simp
  · rw [noiseIndex_eq]; omega
  · rw [noiseIndex_eq]; omega

theorem generate_noise_values_witness :
    (generate (noiseInit (fun i => (i : Int))) (fun _ => 0) 4 (-4607) 3 = -3
        ∨ generate (noiseInit (fun i => (i : Int))) (fun _ => 0) 4 (-4607) 3 = 3)
      ∧ (∀ r : Int, Int.land r 0x2 - 1 = -1 ∨ Int.land r 0x2 - 1 = 1)
      ∧ 0 ≤ noiseIndex (-4607) ∧ noiseIndex (-4607) < 32768 :=
  generate_noise_values (fun i => (i : Int)) (fun _ => 0) (-4607) 3 (by decide) (by decide)

theorem noiseIndex_of_nonneg (i r : Nat) (hr : r < 2607) (hi : i < 32768) :
    noiseIndex (2607 * (i : Int) + r) = i := by
  rw [noiseIndex_eq, Int.tdiv_eq_ediv (by omega) (by omega)]
  omega

/-- The noise shape is 32768-periodic in the phase only when the table is constant: a
table with entries in `{-1, 1}` for which `generate(noise, p + 32768, 1)` always equals
`generate(noise, p, 1)` has all its 32768 entries equal. -/
theorem noise_period_forces_constant (noise sin : Nat → Int)
    (hval : ∀ i, noise i = -1 ∨ noise i = 1)
    (hper : ∀ p : Int, generate noise sin 4 (p + 32768) 1 = generate noise sin 4 p 1) :
    ∀ j, j < 32768 → noise j = noise 12 := by
  have hgen : ∀ p : Int, generate noise sin 4 p 1 = noise (noiseIndex p).toNat := by
    intro p
    show wrap64 (noise (noiseIndex p).toNat * 1) = noise (noiseIndex p).toNat
    rcases hval (noiseIndex p).toNat with h | h <;> rw [h] <;> decide
  have h12 : ∀ i : Nat, i + 13 < 32768 → noise (i + 12) = noise i := by
    intro i hi
    have h := hper (2607 * (i : Int) + (0 : Nat))
    rw [hgen, hgen, noiseIndex_of_nonneg i 0 (by omega) (by omega)] at h
    have e : 2607 * (i : Int) + (0 : Nat) + 32768 = 2607 * ((i + 12 : Nat) : Int) + (1484 : Nat) := by
      push_cast; ring
    rw [e, noiseIndex_of_nonneg (i + 12) 1484 (by omega) (by omega)] at h
    simpa using h
  have h13 : ∀ i : Nat, i + 13 < 32768 → noise (i + 13) = noise i := by
    intro i hi
    have h := hper (2607 * (i : Int) + (2000 : Nat))
    rw [hgen, hgen, noiseIndex_of_nonneg i 2000 (by omega) (by omega)] at h
    have e : 2607 * (i : Int) + (2000 : Nat) + 32768 = 2607 * ((i + 13 : Nat) : Int) + (877 : Nat) := by
      push_cast; ring
    rw [e, noiseIndex_of_nonneg (i + 13) 877 (by omega) (by omega)] at h
    simpa using h
  have hup : ∀ k : Nat, 12 + k < 32768 → noise (12 + k) = noise 12 := by
    intro k
    induction k with
    | zero => intro _; rfl
    | succ k ih =>
      intro hk
      have e1 := h13 k (by omega)
      have e2 := h12 k (by omega)
      rw [show 12 + (k + 1) = k + 13 from by omega, e1, ← e2, show k + 12 = 12 + k from by omega]
      exact ih (by omega)
  intro j hj
  by_cases h : 12 ≤ j
  · obtain ⟨k, rfl⟩ : ∃ k, j = 12 + k := ⟨j - 12, by omega⟩
    exact hup k hj
  · rw [← h12 j (by omega), show j + 12 = 12 + j from by omega]
    exact hup j (by omega)

/-- C9 (as stated, refuted): with the noise table filled from the stream `rand i = i`, the
noise shape at phase 4607 gives -1 and at phase `4607 + 32768` gives 1, so the two calls of
`generate` differ. -/
theorem generate_noise_not_periodic :
    generate (noiseInit (fun i => (i : Int))) (fun _ => 0) 4 4607 1 = -1
      ∧ generate (noiseInit (fun i => (i : Int))) (fun _ => 0) 4 (4607 + 32768) 1 = 1
      ∧ generate (noiseInit (fun i => (i : Int))) (fun _ => 0) 4 (4607 + 32768) 1
          ≠ generate (noiseInit (fun i => (i : Int))) (fun _ => 0) 4 4607 1 := by
  have h1 : noiseIndex 4607 = 1 := by rw [noiseIndex_eq]; decide
  have h2 : noiseIndex (4607 + 32768) = 14 := by rw [noiseIndex_eq]; decide
  have e1 : generate (noiseInit (fun i => (i : Int))) (fun _ => 0) 4 4607 1 = -1 := by
    show wrap64 (noiseInit _ (noiseIndex 4607).toNat * 1) = -1
    rw [h1]; decide
  have e2 : generate (noiseInit (fun i => (i : Int))) (fun _ => 0) 4 (4607 + 32768) 1 = 1 := by
    show wrap64 (noiseInit _ (noiseIndex (4607 + 32768)).toNat * 1) = 1
    rw [h2]; decide
  refine ⟨e1, e2, ?_⟩
  rw [e1, e2]
  decide

/-- C9 (amended): for every shape other than noise, every integer phase and every
amplitude, `generate` depends on the phase only through its 15-bit wrap. -/
theorem generate_phase_period (noise sin : Nat → Int) (form : Nat) (phase amplitude : Int)
    (hform : form ≠ 4) :
    generate noise sin form (phase + 32768) amplitude = generate noise sin form phase amplitude := by
  have hp : phaseIndex (phase + 32768) = phaseIndex phase := by
    rw [phaseIndex_eq, phaseIndex_eq]; omega
  unfold generate
  split
  · rw [hp]
  · rw [hp]
  · rw [hp]
  · exact absurd rfl hform
  · rfl

theorem generate_phase_period_witness :
    generate (noiseInit (fun i => (i : Int))) (fun i => (i : Int)) 3 (-5 + 32768) 7
      = generate (noiseInit (fun i => (i : Int))) (fun i => (i : Int)) 3 (-5) 7 :=
  generate_phase_period _ _ 3 (-5) 7 (by decide)

/-! ## The coefficient cascade -/

section Cascade

open Polynomial

theorem get28_ok {α : Type} (a : Nat → Nat → α) (dir i : Nat) (hdir : dir < 2) (hi : i < 8) :
    get28 a dir i = .ok (a dir i) := by
  unfold get28; rw [if_pos ⟨hdir, hi⟩]

theorem set28_ok {α : Type} (a : Nat → Nat → α) (dir i : Nat) (v : α) (hdir : dir < 2)
    (hi : i < 8) : set28 a dir i v = .ok (store28 a dir i v) := by
  unfold set28; rw [if_pos ⟨hdir, hi⟩]

theorem store28_same {α : Type} (a : Nat → Nat → α) (dir i : Nat) (v : α) :
    store28 a dir i v dir i = v := by
  unfold store28; simp

theorem store28_other {α : Type} (a : Nat → Nat → α) (dir i : Nat) (v : α) (x y : Nat)
    (h : ¬ (x = dir ∧ y = i)) : store28 a dir i v x y = a x y := by
  unfold store28; rw [if_neg h]

theorem backPropagate_ok {R : Type} [Field R] (dir : Nat) (a b : R) (c : Nat → Nat → R)
    (pair : Nat) (hdir : dir < 2) (hp : pair < 8) :
    backPropagate dir a b c pair
      = .ok (store28 c dir pair (c dir pair + (c dir (pair - 1) * a + c dir (pair - 2) * b))) := by
  unfold backPropagate
  rw [get28_ok c dir pair hdir hp, get28_ok c dir (pair - 1) hdir (by omega),
    get28_ok c dir (pair - 2) hdir (by omega)]
  simp only [bind, Except.bind]
  exact set28_ok _ _ _ _ hdir hp

/-- The descending loop of line 96-98 adds to every entry `2 <= j < 2 + cnt` the
contribution of the two entries below it, as they were before the loop. -/
theorem backPropagate_loop {R : Type} [Field R] (dir : Nat) (a b : R) (hdir : dir < 2) :
    ∀ (cnt : Nat) (c : Nat → Nat → R), cnt + 2 ≤ 8 →
      ∃ c', (List.range' 2 cnt).reverse.foldlM (backPropagate dir a b) c = .ok c'
        ∧ ∀ x y, c' x y
          = if x = dir ∧ 2 ≤ y ∧ y < 2 + cnt then
              c dir y + (c dir (y - 1) * a + c dir (y - 2) * b)
            else c x y := by
  intro cnt
  induction cnt with
  | zero =>
    intro c _
    refine ⟨c, rfl, ?_⟩
    intro x y
    rw [if_neg (by omega)]
  | succ cnt ih =>
    intro c hb
    have hl : (List.range' 2 (cnt + 1)).reverse = (2 + cnt) :: (List.range' 2 cnt).reverse := by
      rw [List.range'_concat, List.reverse_append]
      simp
    rw [hl, List.foldlM_cons, backPropagate_ok dir a b c (2 + cnt) hdir (by omega)]
    simp only [bind, Except.bind]
    obtain ⟨c', hc', hval⟩ := ih (store28 c dir (2 + cnt)
      (c dir (2 + cnt) + (c dir (2 + cnt - 1) * a + c dir (2 + cnt - 2) * b))) (by omega)
    refine ⟨c', hc', ?_⟩
    intro x y
    rw [hval x y]
    by_cases h1 : x = dir ∧ 2 ≤ y ∧ y < 2 + cnt
    · rw [if_pos h1, if_pos (by omega)]
      rw [store28_other _ _ _ _ _ _ (by omega), store28_other _ _ _ _ _ _ (by omega),
        store28_other _ _ _ _ _ _ (by omega)]
    · rw [if_neg h1]
      by_cases h2 : x = dir ∧ y = 2 + cnt
      · obtain ⟨hx, hy⟩ := h2
        subst hx; subst hy
        rw [store28_same, if_pos (by omega)]
      · rw [store28_other _ _ _ _ _ _ h2, if_neg (by omega)]


/-- What one pass of the section loop (lines 88-101) does to the coefficient array, for a
section `1 <= n <= 3` whose gain and phase are `gn` and `tn`. -/
theorem cascadeStep_ok {R : Type} [Field R] (m : MathOps R) (f : filter R) (dir : Nat) (del : R)
    (c : Nat → Nat → R) (n : Nat) (hdir : dir < 2) (hn1 : 1 ≤ n) (hn3 : n ≤ 3) (gn tn : R)
    (hg : f.gain m dir n del = .ok gn) (ht : f.phase m dir n del = .ok tn) :
    ∃ c', cascadeStep m f dir del c n = .ok c'
      ∧ c' dir (n * 2 + 1) = c dir (n * 2 - 1) * (gn * gn)
      ∧ c' dir (n * 2)
          = c dir (n * 2 - 1) * (-2 * gn * m.cos tn) + c dir (n * 2 - 2) * (gn * gn)
      ∧ (∀ j, 2 ≤ j → j < n * 2 →
          c' dir j = c dir j + (c dir (j - 1) * (-2 * gn * m.cos tn) + c dir (j - 2) * (gn * gn)))
      ∧ c' dir 1 = c dir 1 + (c dir 0 * (-2 * gn * m.cos tn) + gn * gn)
      ∧ c' dir 0 = c dir 0 + -2 * gn * m.cos tn
      ∧ ∀ x y, ¬ (x = dir ∧ y < n * 2 + 2) → c' x y = c x y := by
  obtain ⟨c3, hc3, hval⟩ := backPropagate_loop dir (-2 * gn * m.cos tn) (gn * gn) hdir
    (n * 2 - 2)
    (store28 (store28 c dir (n * 2 + 1) (c dir (n * 2 - 1) * (gn * gn))) dir (n * 2)
      (c dir (n * 2 - 1) * (-2 * gn * m.cos tn) + c dir (n * 2 - 2) * (gn * gn)))
    (by omega)
  have hlow : ∀ y, y < n * 2 →
      (store28 (store28 c dir (n * 2 + 1) (c dir (n * 2 - 1) * (gn * gn))) dir (n * 2)
        (c dir (n * 2 - 1) * (-2 * gn * m.cos tn) + c dir (n * 2 - 2) * (gn * gn))) dir y
        = c dir y := by
    intro y hy
    rw [store28_other _ _ _ _ _ _ (by omega), store28_other _ _ _ _ _ _ (by omega)]
  have h31 : c3 dir 1 = c dir 1 := by
    rw [hval, if_neg (by omega)]; exact hlow 1 (by omega)
  have h30 : c3 dir 0 = c dir 0 := by
    rw [hval, if_neg (by omega)]; exact hlow 0 (by omega)
  refine ⟨store28 (store28 c3 dir 1 (c dir 1 + (c dir 0 * (-2 * gn * m.cos tn) + gn * gn)))
    dir 0 (c dir 0 + -2 * gn * m.cos tn), ?_, ?_, ?_, ?_, ?_, ?_, ?_⟩
  · unfold cascadeStep
    rw [hg, ht]
    simp only [bind, Except.bind]
    rw [get28_ok c dir (n * 2 - 1) hdir (by omega)]
    simp only
    rw [set28_ok _ dir (n * 2 + 1) _ hdir (by omega)]
    simp only
    rw [get28_ok _ dir (n * 2 - 1) hdir (by omega)]
    simp only
    rw [get28_ok _ dir (n * 2 - 2) hdir (by omega)]
    simp only
    rw [set28_ok _ dir (n * 2) _ hdir (by omega)]
    simp only
    rw [store28_other _ _ _ _ _ _ (by omega), store28_other _ _ _ _ _ _ (by omega), hc3]
    simp only
    rw [get28_ok _ dir 1 hdir (by omega)]
    simp only
    rw [get28_ok _ dir 0 hdir (by omega)]
    simp only
    rw [set28_ok _ dir 1 _ hdir (by omega)]
    simp only
    rw [get28_ok _ dir 0 hdir (by omega)]
    simp only
    rw [set28_ok _ dir 0 _ hdir (by omega)]
    rw [store28_other _ _ _ _ _ _ (by omega), h31, h30]
  · rw [store28_other _ _ _ _ _ _ (by omega), store28_other _ _ _ _ _ _ (by omega), hval,
      if_neg (by omega), store28_other _ _ _ _ _ _ (by omega), store28_same]
  · rw [store28_other _ _ _ _ _ _ (by omega), store28_other _ _ _ _ _ _ (by omega), hval,
      if_neg (by omega), store28_same]
  · intro j hj2 hjn
    rw [store28_other _ _ _ _ _ _ (by omega), store28_other _ _ _ _ _ _ (by omega), hval,
      if_pos (by omega), hlow j hjn, hlow (j - 1) (by omega), hlow (j - 2) (by omega)]
  · rw [store28_other _ _ _ _ _ _ (by omega), store28_same]
  · rw [store28_same]
  · intro x y hxy
    rw [store28_other _ _ _ _ _ _ (by omega), store28_other _ _ _ _ _ _ (by omega), hval,
      if_neg (by omega), store28_other _ _ _ _ _ _ (by omega),
      store28_other _ _ _ _ _ _ (by omega)]

theorem coeff_mul_section_zero {R : Type} [Field R] (P : R[X]) (a b : R) :
    (P * (1 + C a * X + C b * X ^ 2)).coeff 0 = P.coeff 0 := by
  simp [mul_add, ← mul_assoc, coeff_mul_X_pow', Polynomial.coeff_mul_C, Polynomial.mul_coeff_zero]

theorem coeff_mul_section_one {R : Type} [Field R] (P : R[X]) (a b : R) :
    (P * (1 + C a * X + C b * X ^ 2)).coeff 1 = P.coeff 1 + P.coeff 0 * a := by
  simp [mul_add, ← mul_assoc, coeff_mul_X_pow', Polynomial.coeff_mul_C, Polynomial.coeff_mul_X]

theorem coeff_mul_section_succ {R : Type} [Field R] (P : R[X]) (a b : R) (k : Nat) :
    (P * (1 + C a * X + C b * X ^ 2)).coeff (k + 2)
      = P.coeff (k + 2) + P.coeff (k + 1) * a + P.coeff k * b := by
  simp [mul_add, ← mul_assoc, coeff_mul_X_pow', Polynomial.coeff_mul_C, Polynomial.coeff_mul_X]

theorem coeff_section {R : Type} [Field R] (a b : R) :
    ((1 + C a * X + C b * X ^ 2 : R[X])).coeff 0 = 1
      ∧ ((1 + C a * X + C b * X ^ 2 : R[X])).coeff 1 = a
      ∧ ((1 + C a * X + C b * X ^ 2 : R[X])).coeff 2 = b
      ∧ ∀ k, ((1 + C a * X + C b * X ^ 2 : R[X])).coeff (k + 3) = 0 := by
  refine ⟨?_, ?_, ?_, ?_⟩
  · simp
  · simp [Polynomial.coeff_one, Polynomial.coeff_X]
  · simp [Polynomial.coeff_one, Polynomial.coeff_X]
  · intro k
    simp [Polynomial.coeff_one, Polynomial.coeff_X]


theorem prod_section_coeff_zero {R : Type} [Field R] (a b : Nat → R) (n : Nat) :
    (∏ i in Finset.range n, (1 + C (a i) * X + C (b i) * X ^ 2 : R[X])).coeff 0 = 1 := by
  induction n with
  | zero => simp
  | succ n ih => rw [Finset.prod_range_succ, coeff_mul_section_zero, ih]

theorem prod_section_coeff_high {R : Type} [Field R] (a b : Nat → R) (n : Nat) :
    ∀ j, n * 2 < j →
      (∏ i in Finset.range n, (1 + C (a i) * X + C (b i) * X ^ 2 : R[X])).coeff j = 0 := by
  induction n with
  | zero =>
    intro j hj
    simp only [Finset.range_zero, Finset.prod_empty, Polynomial.coeff_one]
    rw [if_neg (by omega)]
  | succ n ih =>
    intro j hj
    obtain ⟨k, rfl⟩ : ∃ k, j = k + 2 := ⟨j - 2, by omega⟩
    rw [Finset.prod_range_succ, coeff_mul_section_succ, ih (k + 2) (by omega),
      ih (k + 1) (by omega), ih k (by omega)]
    simp

theorem holdsProduct_step {R : Type} [Field R] (a b : Nat → R) (dir n : Nat)
    (c c' : Nat → Nat → R) (hn : 1 ≤ n) (hinv : HoldsProduct a b dir n c)
    (h1 : c' dir (n * 2 + 1) = c dir (n * 2 - 1) * b n)
    (h2 : c' dir (n * 2) = c dir (n * 2 - 1) * a n + c dir (n * 2 - 2) * b n)
    (h3 : ∀ j, 2 ≤ j → j < n * 2 → c' dir j = c dir j + (c dir (j - 1) * a n + c dir (j - 2) * b n))
    (h4 : c' dir 1 = c dir 1 + (c dir 0 * a n + b n))
    (h5 : c' dir 0 = c dir 0 + a n) :
    HoldsProduct a b dir (n + 1) c' := by
  intro k hk
  rw [Finset.prod_range_succ]
  have hz := prod_section_coeff_zero a b n
  have hh := prod_section_coeff_high a b n
  by_cases k0 : k = 0
  · subst k0
    rw [h5, hinv 0 (by omega), coeff_mul_section_one, hz]
    ring
  · by_cases k1 : k = 1
    · subst k1
      rw [h4, hinv 1 (by omega), hinv 0 (by omega), coeff_mul_section_succ, hz]
      ring
    · by_cases k2 : k < n * 2
      · rw [h3 k (by omega) k2, hinv k k2, hinv (k - 1) (by omega), hinv (k - 2) (by omega)]
        obtain ⟨i, rfl⟩ : ∃ i, k = i + 2 := ⟨k - 2, by omega⟩
        rw [show i + 2 + 1 = (i + 1) + 2 from rfl, coeff_mul_section_succ]
        simp only [Nat.add_sub_cancel]
        rw [show i + 2 - 1 = i + 1 from rfl]
        ring
      · by_cases k3 : k = n * 2
        · subst k3
          rw [h2, hinv (n * 2 - 1) (by omega), hinv (n * 2 - 2) (by omega)]
          rw [show n * 2 + 1 = (n * 2 - 1) + 2 from by omega, coeff_mul_section_succ,
            hh (n * 2 - 1 + 2) (by omega)]
          rw [show n * 2 - 2 + 1 = n * 2 - 1 from by omega]
          ring
        · have k4 : k = n * 2 + 1 := by omega
          subst k4
          rw [h1, hinv (n * 2 - 1) (by omega)]
          rw [show n * 2 + 1 + 1 = n * 2 + 2 from rfl, coeff_mul_section_succ,
            hh (n * 2 + 2) (by omega), hh (n * 2 + 1) (by omega)]
          rw [show n * 2 - 1 + 1 = n * 2 from by omega]
          ring


/-- The section loop keeps the product invariant and touches only the entries
`[dir][0 .. 2 * (n0 + cnt))`. -/
theorem cascade_loop {R : Type} [Field R] (m : MathOps R) (f : filter R) (dir : Nat) (del : R)
    (hdir : dir < 2) (g θ : Nat → R)
    (hg : ∀ n, n < 4 → f.gain m dir n del = .ok (g n))
    (ht : ∀ n, n < 4 → f.phase m dir n del = .ok (θ n)) :
    ∀ (cnt n0 : Nat) (c : Nat → Nat → R), 1 ≤ n0 → n0 + cnt ≤ 4 →
      HoldsProduct (fun n => -2 * g n * m.cos (θ n)) (fun n => g n * g n) dir n0 c →
      ∃ c', (List.range' n0 cnt).foldlM (cascadeStep m f dir del) c = .ok c'
        ∧ HoldsProduct (fun n => -2 * g n * m.cos (θ n)) (fun n => g n * g n) dir (n0 + cnt) c'
        ∧ ∀ x y, ¬ (x = dir ∧ y < (n0 + cnt) * 2) → c' x y = c x y := by
  intro cnt
  induction cnt with
  | zero =>
    intro n0 c _ _ hinv
    exact ⟨c, rfl, hinv, fun _ _ _ => rfl⟩
  | succ cnt ih =>
    intro n0 c h1 h4 hinv
    obtain ⟨c1, hc1, e1, e2, e3, e4, e5, e6⟩ := cascadeStep_ok m f dir del c n0 hdir h1
      (by omega) (g n0) (θ n0) (hg n0 (by omega)) (ht n0 (by omega))
    have hinv1 := holdsProduct_step (fun n => -2 * g n * m.cos (θ n)) (fun n => g n * g n)
      dir n0 c c1 h1 hinv e1 e2 e3 e4 e5
    obtain ⟨c2, hc2, hinv2, hframe⟩ := ih (n0 + 1) c1 (by omega) (by omega) hinv1
    refine ⟨c2, ?_, ?_, ?_⟩
    · rw [List.range'_succ, List.foldlM_cons, hc1]
      exact hc2
    · rw [show n0 + (cnt + 1) = n0 + 1 + cnt from by omega]; exact hinv2
    · intro x y hxy
      rw [hframe x y (by omega), e6 x y (by omega)]

/-- Lines 80-102 of `filter.eval` leave in `_coef[dir][k]`, `k < 2p`, the coefficient of
`x^(k+1)` of the product of the `p` section polynomials, and leave every other entry alone. -/
theorem cascade_holdsProduct {R : Type} [Field R] (m : MathOps R) (f : filter R) (dir : Nat)
    (del : R) (c0 : Nat → Nat → R) (hdir : dir < 2) (g θ : Nat → R)
    (hg : ∀ n, n < 4 → f.gain m dir n del = .ok (g n))
    (ht : ∀ n, n < 4 → f.phase m dir n del = .ok (θ n))
    (hp1 : 1 ≤ f.Pairs dir) (hp4 : f.Pairs dir ≤ 4) :
    ∃ c, cascade m f dir del c0 = .ok c
      ∧ HoldsProduct (fun n => -2 * g n * m.cos (θ n)) (fun n => g n * g n) dir
          (f.Pairs dir).toNat c
      ∧ ∀ x y, ¬ (x = dir ∧ y < (f.Pairs dir).toNat * 2) → c x y = c0 x y := by
  have hinv1 : HoldsProduct (fun n => -2 * g n * m.cos (θ n)) (fun n => g n * g n) dir 1
      (store28 (store28 c0 dir 0 (-2 * g 0 * m.cos (θ 0))) dir 1 (g 0 * g 0)) := by
    intro k hk
    have hc := coeff_section (-2 * g 0 * m.cos (θ 0)) (g 0 * g 0)
    simp only [Finset.prod_range_one]
    by_cases k0 : k = 0
    · subst k0
      rw [store28_other _ _ _ _ _ _ (by omega), store28_same, hc.2.1]
    · have k1 : k = 1 := by omega
      subst k1
      rw [store28_same, hc.2.2.1]
  obtain ⟨c, hc, hinv, hframe⟩ := cascade_loop m f dir del hdir g θ hg ht
    ((f.Pairs dir).toNat - 1) 1 _ (le_refl 1) (by omega) hinv1
  have hcnt : 1 + ((f.Pairs dir).toNat - 1) = (f.Pairs dir).toNat := by omega
  rw [hcnt] at hinv hframe
  refine ⟨c, ?_, hinv, ?_⟩
  · unfold cascade
    rw [hg 0 (by omega), ht 0 (by omega)]
    simp only [bind, Except.bind]
    rw [set28_ok _ dir 0 _ hdir (by omega)]
    simp only
    rw [set28_ok _ dir 1 _ hdir (by omega)]
    exact hc
  · intro x y hxy
    rw [hframe x y hxy, store28_other _ _ _ _ _ _ (by omega),
      store28_other _ _ _ _ _ _ (by omega)]

theorem scale_loop {R : Type} [Field R] (unity : R) :
    ∀ (n : Nat) (c : Nat → Nat → R), n ≤ 8 →
      ∃ c', (List.range n).foldlM (scaleBody unity) c = .ok c'
        ∧ ∀ x y, c' x y = if x = 0 ∧ y < n then c 0 y * unity else c x y := by
  intro n
  induction n with
  | zero =>
    intro c _
    refine ⟨c, rfl, ?_⟩
    intro x y
    rw [if_neg (by omega)]
  | succ n ih =>
    intro c hn
    obtain ⟨c1, hc1, hval⟩ := ih c (by omega)
    refine ⟨store28 c1 0 n (c1 0 n * unity), ?_, ?_⟩
    · rw [List.range_succ, List.foldlM_append, hc1]
      simp only [bind, Except.bind, List.foldlM_cons, List.foldlM_nil]
      unfold scaleBody
      rw [get28_ok c1 0 n (by omega) (by omega)]
      simp only [bind, Except.bind]
      rw [set28_ok _ 0 n _ (by omega) (by omega)]
      rfl
    · intro x y
      by_cases h : x = 0 ∧ y = n
      · obtain ⟨hx, hy⟩ := h
        subst hx; subst hy
        rw [store28_same, hval, if_neg (by omega), if_pos (by omega)]
      · rw [store28_other _ _ _ _ _ _ h, hval]
        by_cases h2 : x = 0 ∧ y < n
        · rw [if_pos h2, if_pos (by omega)]
        · rw [if_neg h2, if_neg (by omega)]

theorem fixed_loop {R : Type} [Field R] (m : MathOps R) (dir : Nat) (c : Nat → Nat → R)
    (hdir : dir < 2) :
    ∀ (n : Nat) (c16 : Nat → Nat → Int), n ≤ 8 →
      ∃ d, (List.range n).foldlM (fixedBody m dir c) c16 = .ok d
        ∧ ∀ x y, d x y = if x = dir ∧ y < n then m.toInt64 (c dir y * 65536) else c16 x y := by
  intro n
  induction n with
  | zero =>
    intro c16 _
    refine ⟨c16, rfl, ?_⟩
    intro x y
    rw [if_neg (by omega)]
  | succ n ih =>
    intro c16 hn
    obtain ⟨d1, hd1, hval⟩ := ih c16 (by omega)
    refine ⟨store28 d1 dir n (m.toInt64 (c dir n * 65536)), ?_, ?_⟩
    · rw [List.range_succ, List.foldlM_append, hd1]
      simp only [bind, Except.bind, List.foldlM_cons, List.foldlM_nil]
      unfold fixedBody
      rw [get28_ok c dir n hdir (by omega)]
      simp only [bind, Except.bind]
      rw [set28_ok _ dir n _ hdir (by omega)]
      rfl
    · intro x y
      by_cases h : x = dir ∧ y = n
      · obtain ⟨hx, hy⟩ := h
        subst hx; subst hy
        rw [store28_same, if_pos (by omega)]
      · rw [store28_other _ _ _ _ _ _ h, hval]
        by_cases h2 : x = dir ∧ y < n
        · rw [if_pos h2, if_pos (by omega)]
        · rw [if_neg h2, if_neg (by omega)]


theorem gain_ok {R : Type} [Field R] (m : MathOps R) (f : filter R) (dir n : Nat) (del : R)
    (hdir : dir < 2) (hn : n < 4) :
    f.gain m dir n del
      = .ok (1 - m.pow 10 (-((f.Ranges dir 0 n + (f.Ranges dir 1 n - f.Ranges dir 0 n) * del)
          * (100 / 65536)) / 20)) := by
  unfold filter.gain get224
  simp [hdir, hn, bind, Except.bind, pure, Except.pure]

theorem phase_ok {R : Type} [Field R] (m : MathOps R) (f : filter R) (dir n : Nat) (del : R)
    (hdir : dir < 2) (hn : n < 4) :
    f.phase m dir n del
      = .ok (normalize m ((f.Frequencies dir 0 n
          + (f.Frequencies dir 1 n - f.Frequencies dir 0 n) * del) * (1 / 8192))) := by
  unfold filter.phase get224
  simp [hdir, hn, bind, Except.bind, pure, Except.pure]

theorem wrap64_pairs (p : Int) (h1 : 1 ≤ p) (h4 : p ≤ 4) :
    wrap64 (p * 2) = 2 * p ∧ (wrap64 (p * 2)).toNat = p.toNat * 2 := by
  unfold wrap64
  constructor <;> omega

/-- C4: over any field of numbers (the reals with `Real.cos` among them), for a filter
whose pair count `p` in direction `dir` satisfies `1 <= p <= 4`, `gain` and `phase` return
values `g n`, `θ n` for every section; after the section loop of `eval(dir, position)`
entry `k < 2p` of the coefficient array is the coefficient of `x^(k+1)` in the product over
`n < p` of `1 + a_n x + b_n x^2` with `a_n = -2 g_n cos(θ_n)`, `b_n = g_n^2`; and the
coefficient stored by `eval` is that value times the unity gain for the onset direction
and that value itself for the release direction. -/
theorem eval_coefficients_are_product {R : Type} [Field R] (m : MathOps R) (f : filter R)
    (s : Scratch R) (dir : Nat) (del : R) (hdir : dir < 2)
    (hp1 : 1 ≤ f.Pairs dir) (hp4 : f.Pairs dir ≤ 4) :
    ∃ (g θ : Nat → R) (c : Nat → Nat → R) (s' : Scratch R),
      (∀ n, n < 4 → f.gain m dir n del = .ok (g n) ∧ f.phase m dir n del = .ok (θ n))
      ∧ cascade m f dir del (evalUnity m f s dir del).coef = .ok c
      ∧ f.eval m s dir del = .ok (s', 2 * f.Pairs dir)
      ∧ s'.unity = (evalUnity m f s dir del).unity
      ∧ ∀ k, k < 2 * (f.Pairs dir).toNat →
          c dir k
            = (∏ n in Finset.range (f.Pairs dir).toNat,
                (1 + C (-2 * g n * m.cos (θ n)) * X + C (g n ^ 2) * X ^ 2 : R[X])).coeff (k + 1)
          ∧ s'.coef dir k = (if dir = 0 then c dir k * s'.unity else c dir k) := by
  let g : Nat → R := fun n =>
    1 - m.pow 10 (-((f.Ranges dir 0 n + (f.Ranges dir 1 n - f.Ranges dir 0 n) * del)
      * (100 / 65536)) / 20)
  let θ : Nat → R := fun n =>
    normalize m ((f.Frequencies dir 0 n
      + (f.Frequencies dir 1 n - f.Frequencies dir 0 n) * del) * (1 / 8192))
  have hg : ∀ n, n < 4 → f.gain m dir n del = .ok (g n) :=
    fun n hn => gain_ok m f dir n del hdir hn
  have ht : ∀ n, n < 4 → f.phase m dir n del = .ok (θ n) :=
    fun n hn => phase_ok m f dir n del hdir hn
  obtain ⟨c, hc, hinv, _⟩ := cascade_holdsProduct m f dir del (evalUnity m f s dir del).coef
    hdir g θ hg ht hp1 hp4
  obtain ⟨hw, hwn⟩ := wrap64_pairs (f.Pairs dir) hp1 hp4
  have hprod : ∀ k, k < 2 * (f.Pairs dir).toNat →
      c dir k = (∏ n in Finset.range (f.Pairs dir).toNat,
        (1 + C (-2 * g n * m.cos (θ n)) * X + C (g n ^ 2) * X ^ 2 : R[X])).coeff (k + 1) := by
    intro k hk
    have h := hinv k (by omega)
    simp only [← pow_two] at h
    exact h
  have hne : ¬ f.Pairs dir = 0 := by omega
  by_cases hd0 : dir = 0
  · subst hd0
    obtain ⟨c1, hc1, hval1⟩ := scale_loop (evalUnity m f s 0 del).unity
      ((f.Pairs 0).toNat * 2) c (by omega)
    obtain ⟨d, hd, _⟩ := fixed_loop m 0 c1 hdir ((f.Pairs 0).toNat * 2)
      (evalUnity m f s 0 del).coef16 (by omega)
    refine ⟨g, θ, c, { evalUnity m f s 0 del with coef := c1, coef16 := d },
      fun n hn => ⟨hg n hn, ht n hn⟩, hc, ?_, rfl, ?_⟩
    · unfold filter.eval
      simp only [hdir, not_true_eq_false, if_false, hne, hc, bind, Except.bind]
      unfold scaleOnset toFixed
      simp only [if_true, hwn, hc1, hd]
      simp only [hw, pure, Except.pure]
    · intro k hk
      refine ⟨hprod k hk, ?_⟩
      simp only [if_true]
      rw [hval1, if_pos ⟨rfl, by omega⟩]
  · obtain ⟨d, hd, _⟩ := fixed_loop m dir c hdir ((f.Pairs dir).toNat * 2)
      (evalUnity m f s dir del).coef16 (by omega)
    refine ⟨g, θ, c, { evalUnity m f s dir del with coef := c, coef16 := d },
      fun n hn => ⟨hg n hn, ht n hn⟩, hc, ?_, rfl, ?_⟩
    · unfold filter.eval
      simp only [hdir, not_true_eq_false, if_false, hne, hc, bind, Except.bind]
      unfold scaleOnset toFixed
      simp only [hd0, if_false, hwn, hd]
      simp only [hw, pure, Except.pure]
    · intro k hk
      refine ⟨hprod k hk, ?_⟩
      rw [if_neg hd0]

theorem eval_coefficients_are_product_witness :
    ∃ (g θ : Nat → ℝ) (c : Nat → Nat → ℝ) (s' : Scratch ℝ),
      (∀ n, n < 4 →
        (filter.mk (fun _ => 2) (fun _ _ _ => 4096) (fun _ _ _ => 1000) (fun _ => 0)).gain
            ⟨fun x y => x ^ y, Real.cos, Real.pi, fun x => if 0 ≤ x then ⌊x⌋ else ⌈x⌉⟩ 0 n (1 / 2)
          = .ok (g n)
        ∧ (filter.mk (fun _ => 2) (fun _ _ _ => 4096) (fun _ _ _ => 1000) (fun _ => 0)).phase
            ⟨fun x y => x ^ y, Real.cos, Real.pi, fun x => if 0 ≤ x then ⌊x⌋ else ⌈x⌉⟩ 0 n (1 / 2)
          = .ok (θ n))
      ∧ cascade ⟨fun x y => x ^ y, Real.cos, Real.pi, fun x => if 0 ≤ x then ⌊x⌋ else ⌈x⌉⟩
          (filter.mk (fun _ => 2) (fun _ _ _ => 4096) (fun _ _ _ => 1000) (fun _ => 0)) 0 (1 / 2)
          (evalUnity ⟨fun x y => x ^ y, Real.cos, Real.pi, fun x => if 0 ≤ x then ⌊x⌋ else ⌈x⌉⟩
            (filter.mk (fun _ => 2) (fun _ _ _ => 4096) (fun _ _ _ => 1000) (fun _ => 0))
            ⟨1, 65536, fun _ _ => 0, fun _ _ => 0⟩ 0 (1 / 2)).coef = .ok c
      ∧ (filter.mk (fun _ => 2) (fun _ _ _ => 4096) (fun _ _ _ => 1000) (fun _ => 0)).eval
          ⟨fun x y => x ^ y, Real.cos, Real.pi, fun x => if 0 ≤ x then ⌊x⌋ else ⌈x⌉⟩
          ⟨1, 65536, fun _ _ => 0, fun _ _ => 0⟩ 0 (1 / 2) = .ok (s', 2 * 2)
      ∧ s'.unity
          = (evalUnity ⟨fun x y => x ^ y, Real.cos, Real.pi, fun x => if 0 ≤ x then ⌊x⌋ else ⌈x⌉⟩
              (filter.mk (fun _ => 2) (fun _ _ _ => 4096) (fun _ _ _ => 1000) (fun _ => 0))
              ⟨1, 65536, fun _ _ => 0, fun _ _ => 0⟩ 0 (1 / 2)).unity
      ∧ ∀ k, k < 2 * (2 : Int).toNat →
          c 0 k
            = (∏ n in Finset.range (2 : Int).toNat,
                (1 + C (-2 * g n * Real.cos (θ n)) * X + C (g n ^ 2) * X ^ 2 : ℝ[X])).coeff (k + 1)
          ∧ s'.coef 0 k = (if 0 = 0 then c 0 k * s'.unity else c 0 k) :=
  eval_coefficients_are_product
    ⟨fun x y => x ^ y, Real.cos, Real.pi, fun x => if 0 ≤ x then ⌊x⌋ else ⌈x⌉⟩
    (filter.mk (fun _ => 2) (fun _ _ _ => 4096) (fun _ _ _ => 1000) (fun _ => 0))
    ⟨1, 65536, fun _ _ => 0, fun _ _ => 0⟩ 0 (1 / 2) (by decide) (by decide) (by decide)

end Cascade

/-! ## Square, sine and sawtooth -/

theorem shiftRight14_of_inRange (x : Int) (hlo : -2 ^ 63 ≤ x) (hhi : x < 2 ^ 63) :
    (wrap64 x) >>> (14 : Nat) = x / 16384 := by
  have hw : wrap64 x = x := by unfold wrap64; omega
  rw [hw, Int.shiftRight_eq_div_pow]
  norm_num

theorem floor_div_16384 (x : Int) : ⌊((x : ℚ)) / 16384⌋ = x / 16384 := by
  have h := Rat.floor_intCast_div_natCast x 16384
  push_cast at h
  exact h

/-- C11: for every integer phase and every 64-bit amplitude `A`, `generate(square, phase, A)`
is `A` when `phase mod 32768 < 16384` and the Go negation of `A` otherwise, which is `-A`
for every `A` other than `-2^63`; the result is always `A` or `-A`; and for shape 0 or any
shape code above 4 `generate` returns 0. -/
theorem generate_square (noise sin : Nat → Int) (phase A : Int)
    (hlo : -2 ^ 63 ≤ A) (hhi : A < 2 ^ 63) :
    0 ≤ phase % 32768 ∧ phase % 32768 < 32768
      ∧ (phase % 32768 < 16384 → generate noise sin 1 phase A = A)
      ∧ (¬ phase % 32768 < 16384 → generate noise sin 1 phase A = wrap64 (-A)
          ∧ (A ≠ -2 ^ 63 → generate noise sin 1 phase A = -A))
      ∧ (generate noise sin 1 phase A = A ∨ generate noise sin 1 phase A = -A)
      ∧ ∀ form : Nat, form = 0 ∨ 4 < form → generate noise sin form phase A = 0 := by
  have hidx := phaseIndex_eq phase
  have e1 : phase % 32768 < 16384 → generate noise sin 1 phase A = A := by
    intro h
    show (if phaseIndex phase < 16384 then A else wrap64 (-A)) = A
    rw [hidx, if_pos h]
  have e2 : ¬ phase % 32768 < 16384 → generate noise sin 1 phase A = wrap64 (-A) := by
    intro h
    show (if phaseIndex phase < 16384 then A else wrap64 (-A)) = wrap64 (-A)
    rw [hidx, if_neg h]
  have hneg : A ≠ -2 ^ 63 → wrap64 (-A) = -A := by
    intro h; unfold wrap64; omega
  have hmin : A = -2 ^ 63 → wrap64 (-A) = A := by
    intro h; subst h; decide
  refine ⟨by omega, by omega, e1, fun h => ⟨e2 h, fun hA => by rw [e2 h, hneg hA]⟩, ?_, ?_⟩
  · by_cases h : phase % 32768 < 16384
    · left; exact e1 h
    · by_cases hA : A = -2 ^ 63
      · left; rw [e2 h, hmin hA]
      · right; rw [e2 h, hneg hA]
  · intro form hform
    unfold generate
    split
    · omega
    · omega
    · omega
    · omega
    · rfl

theorem generate_square_witness :
    0 ≤ (-40000 : Int) % 32768 ∧ (-40000 : Int) % 32768 < 32768
      ∧ ((-40000 : Int) % 32768 < 16384 → generate (fun _ => 1) (fun _ => 0) 1 (-40000) 9 = 9)
      ∧ (¬ (-40000 : Int) % 32768 < 16384 →
          generate (fun _ => 1) (fun _ => 0) 1 (-40000) 9 = wrap64 (-9)
          ∧ ((9 : Int) ≠ -2 ^ 63 → generate (fun _ => 1) (fun _ => 0) 1 (-40000) 9 = -9))
      ∧ (generate (fun _ => 1) (fun _ => 0) 1 (-40000) 9 = 9
          ∨ generate (fun _ => 1) (fun _ => 0) 1 (-40000) 9 = -9)
      ∧ ∀ form : Nat, form = 0 ∨ 4 < form →
          generate (fun _ => 1) (fun _ => 0) form (-40000) 9 = 0 :=
  generate_square (fun _ => 1) (fun _ => 0) (-40000) 9 (by decide) (by decide)

theorem sinInit_zero : sinInit Real.sin Real.pi (goTrunc (R := ℝ)) 0 = 0 := by
  unfold sinInit goTrunc
  simp

/-- C13: for every phase and amplitude `A` whose product with the table entry lies in the
64-bit range, `generate(sine, phase, A)` is `floor(sinTable[phase mod 32768] * A / 16384)`,
the division rounding toward negative infinity: for a negative product that is not a
multiple of 16384 it is one less than the quotient truncated toward zero.  The table entry
at index 0, as `init` computes it over the reals, is 0, and `generate(sine, 0, A) = 0`. -/
theorem generate_sine (noise sinTable : Nat → Int) (phase A : Int)
    (hlo : -2 ^ 63 ≤ sinTable (phase % 32768).toNat * A)
    (hhi : sinTable (phase % 32768).toNat * A < 2 ^ 63) :
    generate noise sinTable 2 phase A
        = ⌊((sinTable (phase % 32768).toNat * A : Int) : ℚ) / 16384⌋
      ∧ (sinTable (phase % 32768).toNat * A < 0 →
          ¬ (16384 : Int) ∣ sinTable (phase % 32768).toNat * A →
          generate noise sinTable 2 phase A
            = Int.tdiv (sinTable (phase % 32768).toNat * A) 16384 - 1)
      ∧ sinInit Real.sin Real.pi (goTrunc (R := ℝ)) 0 = 0
      ∧ generate noise (sinInit Real.sin Real.pi (goTrunc (R := ℝ))) 2 0 A = 0 := by
  have key : generate noise sinTable 2 phase A = sinTable (phase % 32768).toNat * A / 16384 := by
    show (wrap64 (sinTable (phaseIndex phase).toNat * A)) >>> (14 : Nat) = _
    rw [phaseIndex_eq, shiftRight14_of_inRange _ hlo hhi]
  refine ⟨by rw [key, floor_div_16384], ?_, sinInit_zero, ?_⟩
  · intro hneg hdvd
    rw [key]
    have h1 : Int.tdiv (sinTable (phase % 32768).toNat * A) 16384
        = -(-(sinTable (phase % 32768).toNat * A) / 16384) := by
      rw [← Int.tdiv_eq_ediv (by omega) (by decide), Int.neg_tdiv, neg_neg]
    rw [h1]
    omega
  · show (wrap64 (sinInit Real.sin Real.pi (goTrunc (R := ℝ)) (phaseIndex 0).toNat * A))
        >>> (14 : Nat) = 0
    have h0 : (phaseIndex 0).toNat = 0 := by rw [phaseIndex_eq]; decide
    rw [h0, sinInit_zero]
    simp only [zero_mul]
    decide

theorem generate_sine_witness :
    generate (fun _ => 1) (fun _ => -3) 2 7 5
        = ⌊(((fun _ => -3 : Nat → Int) ((7 : Int) % 32768).toNat * 5 : Int) : ℚ) / 16384⌋
      ∧ ((fun _ => -3 : Nat → Int) ((7 : Int) % 32768).toNat * 5 < 0 →
          ¬ (16384 : Int) ∣ (fun _ => -3 : Nat → Int) ((7 : Int) % 32768).toNat * 5 →
          generate (fun _ => 1) (fun _ => -3) 2 7 5
            = Int.tdiv ((fun _ => -3 : Nat → Int) ((7 : Int) % 32768).toNat * 5) 16384 - 1)
      ∧ sinInit Real.sin Real.pi (goTrunc (R := ℝ)) 0 = 0
      ∧ generate (fun _ => 1) (sinInit Real.sin Real.pi (goTrunc (R := ℝ))) 2 0 5 = 0 :=
  generate_sine (fun _ => 1) (fun _ => -3) 7 5 (by decide) (by decide)

theorem saw_eq (noise sin : Nat → Int) (phase A : Int) (hA : -2 ^ 63 < A) (hA' : A < 2 ^ 63)
    (hlo : -2 ^ 63 ≤ phase % 32768 * A) (hhi : phase % 32768 * A < 2 ^ 63) :
    generate noise sin 3 phase A = phase % 32768 * A / 16384 - A := by
  show wrap64 ((wrap64 (phaseIndex phase * A)) >>> (14 : Nat) - A) = _
  rw [phaseIndex_eq, shiftRight14_of_inRange _ hlo hhi]
  have h0 : 0 ≤ phase % 32768 := by omega
  have h1 : phase % 32768 ≤ 32767 := by omega
  unfold wrap64
  by_cases hpos : 0 ≤ A
  · have h2 : 0 ≤ phase % 32768 * A := mul_nonneg h0 hpos
    have h3 : phase % 32768 * A ≤ 32767 * A := mul_le_mul_of_nonneg_right h1 hpos
    omega
  · have hA0 : A ≤ 0 := by omega
    have h2 : phase % 32768 * A ≤ 0 := mul_nonpos_of_nonneg_of_nonpos h0 hA0
    have h3 : 32767 * A ≤ phase % 32768 * A := mul_le_mul_of_nonpos_right h1 hA0
    omega

/-- C14: for every phase and every 64-bit amplitude `A` whose product with
`phase mod 32768` lies in the 64-bit range, `generate(sawtooth, phase, A)` is the Go
difference of `floor((phase mod 32768) * A / 16384)` and `A`, which for every `A` other than
`-2^63` is `floor((phase mod 32768) * A / 16384) - A`; `generate(sawtooth, 0, A)` is the Go
negation of `A`; and for `A >= 1` the result lies in `[-A, A - 1]` and does not decrease
when `phase mod 32768` grows. -/
theorem generate_sawtooth (noise sin : Nat → Int) (phase A : Int)
    (hA : -2 ^ 63 ≤ A) (hA' : A < 2 ^ 63)
    (hlo : -2 ^ 63 ≤ phase % 32768 * A) (hhi : phase % 32768 * A < 2 ^ 63) :
    generate noise sin 3 phase A
        = wrap64 (⌊((phase % 32768 * A : Int) : ℚ) / 16384⌋ - A)
      ∧ (A ≠ -2 ^ 63 →
          generate noise sin 3 phase A = ⌊((phase % 32768 * A : Int) : ℚ) / 16384⌋ - A)
      ∧ generate noise sin 3 0 A = wrap64 (-A)
      ∧ (A ≠ -2 ^ 63 → generate noise sin 3 0 A = -A)
      ∧ (1 ≤ A → -A ≤ generate noise sin 3 phase A ∧ generate noise sin 3 phase A ≤ A - 1
          ∧ ∀ phase' : Int, phase % 32768 ≤ phase' % 32768 → phase' % 32768 * A < 2 ^ 63 →
              generate noise sin 3 phase A ≤ generate noise sin 3 phase' A) := by
  have hgen : generate noise sin 3 phase A = wrap64 (phase % 32768 * A / 16384 - A) := by
    show wrap64 ((wrap64 (phaseIndex phase * A)) >>> (14 : Nat) - A) = _
    rw [phaseIndex_eq, shiftRight14_of_inRange _ hlo hhi]
  have hzero : generate noise sin 3 0 A = wrap64 (-A) := by
    show wrap64 ((wrap64 (phaseIndex 0 * A)) >>> (14 : Nat) - A) = _
    rw [phaseIndex_eq]
    have h0 : (0 : Int) % 32768 * A = 0 := by simp
    rw [h0]
    have h1 : (wrap64 0) >>> (14 : Nat) = 0 := by decide
    rw [h1, zero_sub]
  refine ⟨by rw [hgen, floor_div_16384], ?_, hzero, ?_, ?_⟩
  · intro hne
    rw [floor_div_16384]
    exact saw_eq noise sin phase A (by omega) hA' hlo hhi
  · intro hne
    rw [hzero]; unfold wrap64; omega
  · intro h1
    have h0 : 0 ≤ phase % 32768 := by omega
    have h32 : phase % 32768 ≤ 32767 := by omega
    have e := saw_eq noise sin phase A (by omega) hA' hlo hhi
    have h2 : 0 ≤ phase % 32768 * A := mul_nonneg h0 (by omega)
    have h3 : phase % 32768 * A ≤ 32767 * A := mul_le_mul_of_nonneg_right h32 (by omega)
    refine ⟨by rw [e]; omega, by rw [e]; omega, ?_⟩
    intro phase' hle hhi'
    have h0' : 0 ≤ phase' % 32768 := by omega
    have h2' : 0 ≤ phase' % 32768 * A := mul_nonneg h0' (by omega)
    have e' := saw_eq noise sin phase' A (by omega) hA' (by omega) hhi'
    have h4 : phase % 32768 * A ≤ phase' % 32768 * A := mul_le_mul_of_nonneg_right hle (by omega)
    rw [e, e']
    have h5 := Int.ediv_le_ediv (c := 16384) (by decide) h4
    omega

theorem generate_sawtooth_witness :
    generate (fun _ => 1) (fun _ => 0) 3 (-5) 7
        = wrap64 (⌊((((-5 : Int) % 32768) * 7 : Int) : ℚ) / 16384⌋ - 7)
      ∧ ((7 : Int) ≠ -2 ^ 63 →
          generate (fun _ => 1) (fun _ => 0) 3 (-5) 7
            = ⌊((((-5 : Int) % 32768) * 7 : Int) : ℚ) / 16384⌋ - 7)
      ∧ generate (fun _ => 1) (fun _ => 0) 3 0 7 = wrap64 (-7)
      ∧ ((7 : Int) ≠ -2 ^ 63 → generate (fun _ => 1) (fun _ => 0) 3 0 7 = -7)
      ∧ (1 ≤ (7 : Int) → -7 ≤ generate (fun _ => 1) (fun _ => 0) 3 (-5) 7
          ∧ generate (fun _ => 1) (fun _ => 0) 3 (-5) 7 ≤ 7 - 1
          ∧ ∀ phase' : Int, (-5 : Int) % 32768 ≤ phase' % 32768 → phase' % 32768 * 7 < 2 ^ 63 →
              generate (fun _ => 1) (fun _ => 0) 3 (-5) 7
                ≤ generate (fun _ => 1) (fun _ => 0) 3 phase' 7) :=
  generate_sawtooth (fun _ => 1) (fun _ => 0) (-5) 7 (by decide) (by decide) (by decide)
    (by decide)

/-! ## The sine table -/

theorem sinInit_arg (i : Nat) : ((i : ℝ) / (16384 / Real.pi)) = (i : ℝ) * Real.pi / 16384 := by
  field_simp

/-- Bounds on the real value behind table entry 4. -/
theorem sin_entry_four_bounds :
    (12.5 : ℝ) < Real.sin ((4 : ℝ) * Real.pi / 16384) * 16384
      ∧ Real.sin ((4 : ℝ) * Real.pi / 16384) * 16384 < 13 := by
  have hpi1 := Real.pi_gt_d6
  have hpi2 := Real.pi_lt_d6
  have hx0 : (0 : ℝ) < 4 * Real.pi / 16384 := by positivity
  have hx1 : (4 : ℝ) * Real.pi / 16384 ≤ 1 / 1000 := by
    rw [div_le_iff₀ (by norm_num)]; linarith
  have hlt := Real.sin_lt hx0
  have hgt := Real.sin_gt_sub_cube hx0 (by linarith)
  have hcube : ((4 : ℝ) * Real.pi / 16384) ^ 3 ≤ (1 / 1000) ^ 3 :=
    pow_le_pow_left₀ (le_of_lt hx0) hx1 3
  have hx2 : (4 : ℝ) * Real.pi / 16384 * 16384 = 4 * Real.pi := by field_simp
  constructor
  · nlinarith
  · nlinarith

/-- C12 (as stated, refuted): over the reals the value behind table entry 4 is
`sin(4 pi / 16384) * 16384`, about 12.566; `init` stores its truncation 12, while rounding
to the nearest integer gives 13. -/
theorem sin_table_not_rounded :
    sinInit Real.sin Real.pi (goTrunc (R := ℝ)) 4 = 12
      ∧ round (Real.sin ((4 : ℝ) * Real.pi / 16384) * 16384) = 13
      ∧ sinInit Real.sin Real.pi (goTrunc (R := ℝ)) 4
          ≠ round (Real.sin ((4 : ℝ) * Real.pi / 16384) * 16384) := by
  obtain ⟨hlo, hhi⟩ := sin_entry_four_bounds
  have h12 : sinInit Real.sin Real.pi (goTrunc (R := ℝ)) 4 = 12 := by
    unfold sinInit goTrunc
    have harg := sinInit_arg 4
    push_cast at harg
    push_cast
    rw [harg, if_pos (by linarith), Int.floor_eq_iff]
    constructor <;> push_cast <;> linarith
  have h13 : round (Real.sin ((4 : ℝ) * Real.pi / 16384) * 16384) = 13 := by
    rw [round_eq, Int.floor_eq_iff]
    constructor <;> push_cast <;> linarith
  refine ⟨h12, h13, ?_⟩
  rw [h12, h13]
  decide

/-- C12 (amended): for every index `i` in `[0, 32768)`, the sine table entry built by
`init`, computed over the reals, is `sin(i*pi/16384) * 16384` truncated toward zero: its
floor on the first half of the table, where the sine is non-negative, and its ceiling on
the second half, where the sine is non-positive. -/
theorem sin_table_truncated (i : Nat) (hi : i < 32768) :
    sinInit Real.sin Real.pi (goTrunc (R := ℝ)) i
        = goTrunc (Real.sin ((i : ℝ) * Real.pi / 16384) * 16384)
      ∧ (i ≤ 16384 → sinInit Real.sin Real.pi (goTrunc (R := ℝ)) i
          = ⌊Real.sin ((i : ℝ) * Real.pi / 16384) * 16384⌋)
      ∧ (16384 ≤ i → sinInit Real.sin Real.pi (goTrunc (R := ℝ)) i
          = ⌈Real.sin ((i : ℝ) * Real.pi / 16384) * 16384⌉) := by
  have hpi := Real.pi_pos
  have e : sinInit Real.sin Real.pi (goTrunc (R := ℝ)) i
      = goTrunc (Real.sin ((i : ℝ) * Real.pi / 16384) * 16384) := by
    unfold sinInit
    rw [sinInit_arg]
  refine ⟨e, ?_, ?_⟩
  · intro h
    rw [e]
    unfold goTrunc
    have hi' : (i : ℝ) ≤ 16384 := by exact_mod_cast h
    have hs : 0 ≤ Real.sin ((i : ℝ) * Real.pi / 16384) := by
      apply Real.sin_nonneg_of_nonneg_of_le_pi
      · positivity
      · rw [div_le_iff₀ (by norm_num)]; nlinarith
    rw [if_pos (by positivity)]
  · intro h
    rw [e]
    unfold goTrunc
    have hi1 : (16384 : ℝ) ≤ (i : ℝ) := by exact_mod_cast h
    have hi2 : (i : ℝ) < 32768 := by exact_mod_cast hi
    have hs : Real.sin ((i : ℝ) * Real.pi / 16384) ≤ 0 := by
      rw [← Real.sin_sub_two_pi]
      apply Real.sin_nonpos_of_nonnpos_of_neg_pi_le
      · have : (i : ℝ) * Real.pi / 16384 ≤ 2 * Real.pi := by
          rw [div_le_iff₀ (by norm_num)]; nlinarith
        linarith
      · have : Real.pi ≤ (i : ℝ) * Real.pi / 16384 := by
          rw [le_div_iff₀ (by norm_num)]; nlinarith
        linarith
    by_cases h0 : 0 ≤ Real.sin ((i : ℝ) * Real.pi / 16384) * 16384
    · have hz : Real.sin ((i : ℝ) * Real.pi / 16384) * 16384 = 0 := by nlinarith
      rw [hz]; simp
    · rw [if_neg h0]

theorem sin_table_truncated_witness :
    sinInit Real.sin Real.pi (goTrunc (R := ℝ)) 4
        = goTrunc (Real.sin (((4 : Nat) : ℝ) * Real.pi / 16384) * 16384)
      ∧ (4 ≤ 16384 → sinInit Real.sin Real.pi (goTrunc (R := ℝ)) 4
          = ⌊Real.sin (((4 : Nat) : ℝ) * Real.pi / 16384) * 16384⌋)
      ∧ (16384 ≤ 4 → sinInit Real.sin Real.pi (goTrunc (R := ℝ)) 4
          = ⌈Real.sin (((4 : Nat) : ℝ) * Real.pi / 16384) * 16384⌉) :=
  sin_table_truncated 4 (by decide)

/-! ## The order returned by eval and its frame -/

theorem evalUnity_coef {R : Type} [Field R] (m : MathOps R) (f : filter R) (s : Scratch R)
    (dir : Nat) (del : R) :
    (evalUnity m f s dir del).coef = s.coef ∧ (evalUnity m f s dir del).coef16 = s.coef16 := by
  unfold evalUnity
  split <;> exact ⟨rfl, rfl⟩

theorem evalUnity_release {R : Type} [Field R] (m : MathOps R) (f : filter R) (s : Scratch R)
    (dir : Nat) (del : R) (h : dir ≠ 0) : evalUnity m f s dir del = s := by
  unfold evalUnity
  rw [if_neg h]

/-- What `filter.eval` does for a direction with `1 <= p <= 4` pairs, step by step: the
array `c` left by the section loop, the array `c1` after the onset scaling, the fixed-point
array `d`, and the returned order. -/
theorem eval_run {R : Type} [Field R] (m : MathOps R) (f : filter R) (s : Scratch R)
    (dir : Nat) (del : R) (hdir : dir < 2) (hp1 : 1 ≤ f.Pairs dir) (hp4 : f.Pairs dir ≤ 4) :
    ∃ (c c1 : Nat → Nat → R) (d : Nat → Nat → Int),
      cascade m f dir del s.coef = .ok c
      ∧ (∀ x y, ¬ (x = dir ∧ y < (f.Pairs dir).toNat * 2) → c x y = s.coef x y)
      ∧ (∀ x y, c1 x y
          = if dir = 0 ∧ x = 0 ∧ y < (f.Pairs dir).toNat * 2 then
              c 0 y * (evalUnity m f s dir del).unity
            else c x y)
      ∧ (∀ x y, d x y
          = if x = dir ∧ y < (f.Pairs dir).toNat * 2 then m.toInt64 (c1 dir y * 65536)
            else s.coef16 x y)
      ∧ f.eval m s dir del
          = .ok ({ evalUnity m f s dir del with coef := c1, coef16 := d }, 2 * f.Pairs dir) := by
  obtain ⟨hcoef, hcoef16⟩ := evalUnity_coef m f s dir del
  obtain ⟨c, hc, _, hframe⟩ := cascade_holdsProduct m f dir del s.coef hdir
    (fun n => 1 - m.pow 10 (-((f.Ranges dir 0 n + (f.Ranges dir 1 n - f.Ranges dir 0 n) * del)
      * (100 / 65536)) / 20))
    (fun n => normalize m ((f.Frequencies dir 0 n
      + (f.Frequencies dir 1 n - f.Frequencies dir 0 n) * del) * (1 / 8192)))
    (fun n hn => gain_ok m f dir n del hdir hn) (fun n hn => phase_ok m f dir n del hdir hn)
    hp1 hp4
  obtain ⟨hw, hwn⟩ := wrap64_pairs (f.Pairs dir) hp1 hp4
  have hne : ¬ f.Pairs dir = 0 := by omega
  by_cases hd0 : dir = 0
  · subst hd0
    obtain ⟨c1, hc1, hval1⟩ := scale_loop (evalUnity m f s 0 del).unity
      ((f.Pairs 0).toNat * 2) c (by omega)
    obtain ⟨d, hd, hvald⟩ := fixed_loop m 0 c1 hdir ((f.Pairs 0).toNat * 2) s.coef16 (by omega)
    refine ⟨c, c1, d, hc, hframe, ?_, hvald, ?_⟩
    · intro x y
      rw [hval1 x y]
      by_cases h : x = 0 ∧ y < (f.Pairs 0).toNat * 2
      · rw [if_pos h, if_pos ⟨rfl, h⟩]
      · rw [if_neg h, if_neg (fun h' => h h'.2)]
    · unfold filter.eval
      simp only [hdir, not_true_eq_false, if_false, hne, hcoef, hcoef16, hc, bind, Except.bind]
      unfold scaleOnset toFixed
      simp only [if_true, hwn, hc1, hd]
      simp only [hw, pure, Except.pure]
  · obtain ⟨d, hd, hvald⟩ := fixed_loop m dir c hdir ((f.Pairs dir).toNat * 2) s.coef16
      (by omega)
    refine ⟨c, c, d, hc, hframe, ?_, hvald, ?_⟩
    · intro x y
      rw [if_neg (fun h' => hd0 h'.1)]
    · unfold filter.eval
      simp only [hdir, not_true_eq_false, if_false, hne, hcoef, hcoef16, hc, bind, Except.bind]
      unfold scaleOnset toFixed
      simp only [hd0, if_false, hwn, hd]
      simp only [hw, pure, Except.pure]

/-- With a negative pair count `filter.eval` still stores the first section's two
coefficients, runs none of its loops and returns twice the pair count. -/
theorem eval_negative {R : Type} [Field R] (m : MathOps R) (f : filter R) (s : Scratch R)
    (dir : Nat) (del : R) (hdir : dir < 2) (hneg : f.Pairs dir < 0)
    (hlo : -2 ^ 62 ≤ f.Pairs dir) :
    ∃ s', f.eval m s dir del = .ok (s', 2 * f.Pairs dir) := by
  obtain ⟨hcoef, hcoef16⟩ := evalUnity_coef m f s dir del
  have hne : ¬ f.Pairs dir = 0 := by omega
  have hw : wrap64 (f.Pairs dir * 2) = 2 * f.Pairs dir := by unfold wrap64; omega
  have hn0 : (f.Pairs dir).toNat - 1 = 0 := by omega
  have hn1 : (2 * f.Pairs dir).toNat = 0 := by omega
  have hp0 : f.Pairs 0 = f.Pairs dir → (wrap64 (f.Pairs 0 * 2)).toNat = 0 := by
    intro h; rw [h, hw]; exact hn1
  refine ⟨{ evalUnity m f s dir del with
    coef := store28 (store28 s.coef dir 0
      (-2 * (1 - m.pow 10 (-((f.Ranges dir 0 0 + (f.Ranges dir 1 0 - f.Ranges dir 0 0) * del)
          * (100 / 65536)) / 20))
        * m.cos (normalize m ((f.Frequencies dir 0 0
          + (f.Frequencies dir 1 0 - f.Frequencies dir 0 0) * del) * (1 / 8192))))) dir 1
      ((1 - m.pow 10 (-((f.Ranges dir 0 0 + (f.Ranges dir 1 0 - f.Ranges dir 0 0) * del)
          * (100 / 65536)) / 20))
        * (1 - m.pow 10 (-((f.Ranges dir 0 0 + (f.Ranges dir 1 0 - f.Ranges dir 0 0) * del)
          * (100 / 65536)) / 20))),
    coef16 := s.coef16 }, ?_⟩
  unfold filter.eval
  simp only [hdir, not_true_eq_false, if_false, hne, hcoef, hcoef16, bind, Except.bind]
  unfold cascade
  rw [gain_ok m f dir 0 del hdir (by omega), phase_ok m f dir 0 del hdir (by omega)]
  simp only [bind, Except.bind]
  rw [set28_ok _ dir 0 _ hdir (by omega)]
  simp only
  rw [set28_ok _ dir 1 _ hdir (by omega)]
  simp only [hn0, List.range'_zero, List.foldlM_nil, pure, Except.pure]
  unfold scaleOnset toFixed
  by_cases hd0 : dir = 0
  · subst hd0
    simp only [if_true, hw, hn1, List.range_zero, List.foldlM_nil, pure, Except.pure]
  · simp only [hd0, if_false, hw, hn1, List.range_zero, List.foldlM_nil, pure, Except.pure]

theorem gain_pair_out_of_range {R : Type} [Field R] (m : MathOps R) (f : filter R)
    (dir n : Nat) (del : R) (hn : 4 ≤ n) : f.gain m dir n del = .error .indexOutOfRange := by
  unfold filter.gain get224
  rw [if_neg (by omega)]
  rfl

/-- With five or more pairs in a direction the section loop reaches section 4 and
`filter.gain` indexes past the four entries of `Ranges[direction][0]`. -/
theorem eval_panics_of_five_pairs {R : Type} [Field R] (m : MathOps R) (f : filter R)
    (s : Scratch R) (dir : Nat) (del : R) (hdir : dir < 2) (h5 : 5 ≤ f.Pairs dir) :
    f.eval m s dir del = .error .indexOutOfRange := by
  have hne : ¬ f.Pairs dir = 0 := by omega
  have hsplit : List.range' 1 ((f.Pairs dir).toNat - 1)
      = List.range' 1 3 ++ 4 :: List.range' 5 ((f.Pairs dir).toNat - 5) := by
    have h1 : (f.Pairs dir).toNat - 1 = (((f.Pairs dir).toNat - 5) + 1) + 3 := by omega
    rw [h1, ← List.range'_append_1 1 3 (((f.Pairs dir).toNat - 5) + 1)]
    congr 1
  have hloop : ∀ c : Nat → Nat → R,
      (List.range' 1 ((f.Pairs dir).toNat - 1)).foldlM (cascadeStep m f dir del) c
        = .error .indexOutOfRange := by
    intro c
    obtain ⟨c3, hc3, _⟩ := foldlM_ok_of_step (fun _ : Nat → Nat → R => True)
      (cascadeStep m f dir del) (List.range' 1 3)
      (by
        intro c n hn _
        have hn' : 1 ≤ n ∧ n < 4 := by
          have := List.mem_range'_1.mp hn
          omega
        obtain ⟨c', hc', _⟩ := cascadeStep_ok m f dir del c n hdir hn'.1 (by omega) _ _
          (gain_ok m f dir n del hdir hn'.2) (phase_ok m f dir n del hdir hn'.2)
        exact ⟨c', hc', trivial⟩)
      c trivial
    rw [hsplit, List.foldlM_append, hc3]
    simp only [bind, Except.bind, List.foldlM_cons]
    unfold cascadeStep
    rw [gain_pair_out_of_range m f dir 4 del (le_refl 4)]
    rfl
  unfold filter.eval
  simp only [hdir, not_true_eq_false, if_false, hne, bind, Except.bind]
  unfold cascade
  rw [gain_ok m f dir 0 del hdir (by omega), phase_ok m f dir 0 del hdir (by omega)]
  simp only [bind, Except.bind]
  rw [set28_ok _ dir 0 _ hdir (by omega)]
  simp only
  rw [set28_ok _ dir 1 _ hdir (by omega)]
  simp only
  rw [hloop]

theorem eval_panics_of_bad_direction {R : Type} [Field R] (m : MathOps R) (f : filter R)
    (s : Scratch R) (dir : Nat) (del : R) (hdir : ¬ dir < 2) :
    f.eval m s dir del = .error .indexOutOfRange := by
  unfold filter.eval
  simp only [hdir, not_false_eq_true, if_true]

/-- A record that `filter.read` accepts leaves both pair counts in `[0, 4]`. -/
theorem read_ok_pairs {R : Type} [NatCast R] (readShape : buffer → Option String × buffer)
    (f : filter R) (b : buffer) (hok : (filter.read readShape f b).err = none) (d : Nat)
    (hd : d < 2) :
    0 ≤ (filter.read readShape f b).f.Pairs d ∧ (filter.read readShape f b).f.Pairs d ≤ 4 := by
  have hp0 : ∀ (P : Nat → Int) (x y : Int), set1 (set1 P 0 x) 1 y 0 = x := by
    intro P x y; simp [set1]
  have hp1 : ∀ (P : Nat → Int) (x y : Int), set1 (set1 P 0 x) 1 y 1 = y := by
    intro P x y; simp [set1]
  have hd01 : d = 0 ∨ d = 1 := by omega
  unfold filter.read at hok ⊢
  split at hok
  · simp at hok
  · next count b1 hu =>
    simp only [hu]
    simp only [hp0, hp1] at hok ⊢
    split at hok
    · simp at hok
    · next hbad =>
      rw [if_neg hbad]
      have hb : ∀ x : Int, (x = ((count >>> 4 : Nat) : Int) ∨ x = ((count &&& 0xF : Nat) : Int))
          → 0 ≤ x ∧ x ≤ 4 := by
        intro x hx
        rcases hx with hx | hx <;> subst hx
        · exact ⟨Int.ofNat_nonneg _, by by_contra h; exact hbad (Or.inl (by omega))⟩
        · exact ⟨Int.ofNat_nonneg _, by by_contra h; exact hbad (Or.inr (by omega))⟩
      split at hok
      · next hz =>
        rw [if_pos hz]
        split at hok
        · simp at hok
        · next f2 b2 mg he =>
          have hpairs := readBody_pairs _ _ _ he
          simp only at hpairs
          split <;> (rw [hpairs]; rcases hd01 with h | h <;> subst h
            <;> simp only [hp0, hp1] <;> exact hb _ (by simp))
      · next hz =>
        rw [if_neg hz]
        rcases hd01 with h | h <;> subst h <;> simp only [hp0, hp1] <;> exact hb _ (by simp)

theorem eval_zero_pairs {R : Type} [Field R] (m : MathOps R) (f : filter R) (s : Scratch R)
    (dir : Nat) (del : R) (hdir : dir < 2) (hp : f.Pairs dir = 0) :
    f.eval m s dir del = .ok (evalUnity m f s dir del, 0) := by
  unfold filter.eval
  simp only [hdir, not_true_eq_false, if_false, hp, if_true]

theorem eval_ok_of_pairs_le_four {R : Type} [Field R] (m : MathOps R) (f : filter R)
    (s : Scratch R) (dir : Nat) (del : R) (hdir : dir < 2) (hlo : -2 ^ 62 ≤ f.Pairs dir)
    (hhi : f.Pairs dir ≤ 4) : ∃ s', f.eval m s dir del = .ok (s', 2 * f.Pairs dir) := by
  by_cases h0 : f.Pairs dir = 0
  · exact ⟨evalUnity m f s dir del, by rw [eval_zero_pairs m f s dir del hdir h0, h0]; rfl⟩
  · by_cases hneg : f.Pairs dir < 0
    · exact eval_negative m f s dir del hdir hneg hlo
    · obtain ⟨c, c1, d, _, _, _, _, he⟩ := eval_run m f s dir del hdir (by omega) hhi
      exact ⟨_, he⟩

/-- C15 (as stated, refuted): the record whose count byte is `0x50` is rejected by
`filter.read`, which leaves `Pairs[0] = 5` in the filter; on that filter `eval(0, 0)` does
not return 10 but stops with an index out of range. -/
theorem eval_five_pairs_panics :
    (filter.read (fun b => (none, b)) (filter.zero ℚ) ⟨[0x50], 0⟩).f.Pairs 0 = 5
      ∧ (filter.read (fun b => (none, b)) (filter.zero ℚ) ⟨[0x50], 0⟩).f.eval
          ⟨fun x _ => x, fun x => x, 3, fun _ => 0⟩ ⟨1, 65536, fun _ _ => 0, fun _ _ => 0⟩ 0 0
        = .error .indexOutOfRange := by
  have h5 : (filter.read (fun b => (none, b)) (filter.zero ℚ) ⟨[0x50], 0⟩).f.Pairs 0 = 5 := by
    decide
  exact ⟨h5, eval_panics_of_five_pairs _ _ _ 0 0 (by decide) (by rw [h5])⟩

/-- C15 (amended): for every filter whose pair count in the direction is at most 4 (and not
below `-2^62`, so that doubling it cannot overflow), for direction 0 or 1 and every
position, `eval` returns exactly `2 * Pairs[direction]`; it returns 0 when the direction
has no pairs; and for a filter that `filter.read` accepted the result lies in `[0, 8]`. -/
theorem eval_returns_order {R : Type} [Field R] (m : MathOps R) (f : filter R) (s : Scratch R)
    (dir : Nat) (del : R) (hdir : dir < 2) (hlo : -2 ^ 62 ≤ f.Pairs dir)
    (hhi : f.Pairs dir ≤ 4) :
    (∃ s', f.eval m s dir del = .ok (s', 2 * f.Pairs dir))
      ∧ (f.Pairs dir = 0 → f.eval m s dir del = .ok (evalUnity m f s dir del, 0))
      ∧ ∀ (readShape : buffer → Option String × buffer) (f0 : filter R) (b : buffer),
          (filter.read readShape f0 b).err = none →
          ∃ s' order, (filter.read readShape f0 b).f.eval m s dir del = .ok (s', order)
            ∧ order = 2 * (filter.read readShape f0 b).f.Pairs dir ∧ 0 ≤ order ∧ order ≤ 8 := by
  refine ⟨eval_ok_of_pairs_le_four m f s dir del hdir hlo hhi,
    eval_zero_pairs m f s dir del hdir, ?_⟩
  intro readShape f0 b hok
  obtain ⟨h0, h4⟩ := read_ok_pairs readShape f0 b hok dir hdir
  obtain ⟨s', hs'⟩ := eval_ok_of_pairs_le_four m (filter.read readShape f0 b).f s dir del hdir
    (by omega) h4
  exact ⟨s', _, hs', rfl, by omega, by omega⟩

theorem eval_returns_order_witness :
    (∃ s', (filter.mk (fun _ => 3) (fun _ _ _ => 4096) (fun _ _ _ => 1000) (fun _ => 0)).eval
        (⟨fun x _ => x, fun x => x, 3, fun _ => 0⟩ : MathOps ℚ)
        ⟨1, 65536, fun _ _ => 0, fun _ _ => 0⟩ 1 (1 / 2) = .ok (s', 2 * 3))
      ∧ ((3 : Int) = 0 →
          (filter.mk (fun _ => 3) (fun _ _ _ => 4096) (fun _ _ _ => 1000) (fun _ => 0)).eval
            (⟨fun x _ => x, fun x => x, 3, fun _ => 0⟩ : MathOps ℚ)
            ⟨1, 65536, fun _ _ => 0, fun _ _ => 0⟩ 1 (1 / 2)
          = .ok (evalUnity (⟨fun x _ => x, fun x => x, 3, fun _ => 0⟩ : MathOps ℚ)
              (filter.mk (fun _ => 3) (fun _ _ _ => 4096) (fun _ _ _ => 1000) (fun _ => 0))
              ⟨1, 65536, fun _ _ => 0, fun _ _ => 0⟩ 1 (1 / 2), 0))
      ∧ ∀ (readShape : buffer → Option String × buffer) (f0 : filter ℚ) (b : buffer),
          (filter.read readShape f0 b).err = none →
          ∃ s' order, (filter.read readShape f0 b).f.eval
              (⟨fun x _ => x, fun x => x, 3, fun _ => 0⟩ : MathOps ℚ)
              ⟨1, 65536, fun _ _ => 0, fun _ _ => 0⟩ 1 (1 / 2) = .ok (s', order)
            ∧ order = 2 * (filter.read readShape f0 b).f.Pairs 1 ∧ 0 ≤ order ∧ order ≤ 8 :=
  eval_returns_order (⟨fun x _ => x, fun x => x, 3, fun _ => 0⟩ : MathOps ℚ)
    (filter.mk (fun _ => 3) (fun _ _ _ => 4096) (fun _ _ _ => 1000) (fun _ => 0))
    ⟨1, 65536, fun _ _ => 0, fun _ _ => 0⟩ 1 (1 / 2) (by decide) (by decide) (by decide)

/-- C18: for a filter with `0 <= Pairs[dir] <= 4` and `dir` 0 or 1, `eval(dir, position)`
returns, leaves the cached unity gain (floating and fixed-point) as it was unless `dir` is
onset, and changes no entry of the floating and fixed-point coefficient arrays outside
`[dir][0 .. 2 * Pairs[dir])`: with `Pairs[dir] = 0` both arrays are unchanged, and an eval
of the release direction leaves the unity cache and every onset coefficient unchanged. -/
theorem eval_frame {R : Type} [Field R] (m : MathOps R) (f : filter R) (s : Scratch R)
    (dir : Nat) (del : R) (hdir : dir < 2) (hp0 : 0 ≤ f.Pairs dir) (hp4 : f.Pairs dir ≤ 4) :
    ∃ s', f.eval m s dir del = .ok (s', 2 * f.Pairs dir)
      ∧ (dir ≠ 0 → s'.unity = s.unity ∧ s'.unity16 = s.unity16)
      ∧ (∀ x y : Nat, ¬ (x = dir ∧ (y : Int) < 2 * f.Pairs dir) →
          s'.coef x y = s.coef x y ∧ s'.coef16 x y = s.coef16 x y)
      ∧ (f.Pairs dir = 0 → s'.coef = s.coef ∧ s'.coef16 = s.coef16)
      ∧ (dir = 1 → s'.unity = s.unity ∧ s'.unity16 = s.unity16
          ∧ ∀ y : Nat, s'.coef 0 y = s.coef 0 y ∧ s'.coef16 0 y = s.coef16 0 y) := by
  obtain ⟨hcoef, hcoef16⟩ := evalUnity_coef m f s dir del
  by_cases h0 : f.Pairs dir = 0
  · refine ⟨evalUnity m f s dir del, by rw [eval_zero_pairs m f s dir del hdir h0, h0]; rfl, ?_,
      ?_, ?_, ?_⟩
    · intro hd; rw [evalUnity_release m f s dir del hd]; exact ⟨rfl, rfl⟩
    · intro x y _; rw [hcoef, hcoef16]; exact ⟨rfl, rfl⟩
    · intro _; exact ⟨hcoef, hcoef16⟩
    · intro hd
      rw [evalUnity_release m f s dir del (by omega)]
      exact ⟨rfl, rfl, fun _ => ⟨rfl, rfl⟩⟩
  · obtain ⟨c, c1, d, _, hframe, hc1, hd, he⟩ := eval_run m f s dir del hdir (by omega) hp4
    have hout : ∀ x y : Nat, ¬ (x = dir ∧ (y : Int) < 2 * f.Pairs dir) →
        c1 x y = s.coef x y ∧ d x y = s.coef16 x y := by
      intro x y hxy
      have hxy' : ¬ (x = dir ∧ y < (f.Pairs dir).toNat * 2) := by
        intro h; apply hxy; exact ⟨h.1, by omega⟩
      rw [hc1 x y, hd x y, if_neg hxy']
      refine ⟨?_, rfl⟩
      by_cases hsc : dir = 0 ∧ x = 0 ∧ y < (f.Pairs dir).toNat * 2
      · exact absurd ⟨hsc.2.1.trans hsc.1.symm, hsc.2.2⟩ hxy'
      · rw [if_neg hsc]; exact hframe x y hxy'
    refine ⟨_, he, ?_, hout, fun h => absurd h h0, ?_⟩
    · intro hdne
      show (evalUnity m f s dir del).unity = s.unity ∧ (evalUnity m f s dir del).unity16 = s.unity16
      rw [evalUnity_release m f s dir del hdne]; exact ⟨rfl, rfl⟩
    · intro hd1
      refine ⟨?_, ?_, ?_⟩
      · show (evalUnity m f s dir del).unity = s.unity
        rw [evalUnity_release m f s dir del (by omega)]
      · show (evalUnity m f s dir del).unity16 = s.unity16
        rw [evalUnity_release m f s dir del (by omega)]
      · intro y
        exact hout 0 y (by omega)

theorem eval_frame_witness :
    ∃ s', (filter.mk (fun _ => 3) (fun _ _ _ => 4096) (fun _ _ _ => 1000) (fun _ => 0)).eval
        (⟨fun x _ => x, fun x => x, 3, fun _ => 0⟩ : MathOps ℚ)
        ⟨1, 65536, fun _ _ => 7, fun _ _ => 9⟩ 1 (1 / 2) = .ok (s', 2 * 3)
      ∧ ((1 : Nat) ≠ 0 → s'.unity = 1 ∧ s'.unity16 = 65536)
      ∧ (∀ x y : Nat, ¬ (x = 1 ∧ (y : Int) < 2 * 3) → s'.coef x y = 7 ∧ s'.coef16 x y = 9)
      ∧ ((3 : Int) = 0 → s'.coef = (fun _ _ => 7) ∧ s'.coef16 = fun _ _ => 9)
      ∧ ((1 : Nat) = 1 → s'.unity = 1 ∧ s'.unity16 = 65536
          ∧ ∀ y : Nat, s'.coef 0 y = 7 ∧ s'.coef16 0 y = 9) :=
  eval_frame (⟨fun x _ => x, fun x => x, 3, fun _ => 0⟩ : MathOps ℚ)
    (filter.mk (fun _ => 3) (fun _ _ _ => 4096) (fun _ _ _ => 1000) (fun _ => 0))
    ⟨1, 65536, fun _ _ => 7, fun _ _ => 9⟩ 1 (1 / 2) (by decide) (by decide) (by decide)

/-! ## Monotonicity of gain and phase -/

theorem const_rpow_strictMono (b : ℝ) (hb : 1 < b) : StrictMono (fun x : ℝ => b ^ x) :=
  fun _ _ h => Real.rpow_lt_rpow_of_exponent_lt hb h

theorem const_rpow_continuous (b : ℝ) (hb : 0 < b) : Continuous (fun x : ℝ => b ^ x) :=
  Continuous.rpow continuous_const continuous_id (fun _ => Or.inl (ne_of_gt hb))

/-- The value `gain` returns over the reals, as a function of the position. -/
theorem gain_real_mono (a b : ℝ) :
    (a < b → StrictMono (fun δ : ℝ => 1 - (10 : ℝ) ^ (-((a + (b - a) * δ) * (100 / 65536)) / 20)))
      ∧ (b < a →
          StrictAnti (fun δ : ℝ => 1 - (10 : ℝ) ^ (-((a + (b - a) * δ) * (100 / 65536)) / 20)))
      ∧ Continuous (fun δ : ℝ => 1 - (10 : ℝ) ^ (-((a + (b - a) * δ) * (100 / 65536)) / 20)) := by
  refine ⟨?_, ?_, ?_⟩
  · intro hab x y hxy
    have h1 : -((a + (b - a) * y) * (100 / 65536)) / 20 < -((a + (b - a) * x) * (100 / 65536)) / 20 := by
      have : (b - a) * x < (b - a) * y := mul_lt_mul_of_pos_left hxy (by linarith)
      linarith
    have h2 := const_rpow_strictMono 10 (by norm_num) h1
    simp only at h2 ⊢
    linarith
  · intro hab x y hxy
    have h1 : -((a + (b - a) * x) * (100 / 65536)) / 20 < -((a + (b - a) * y) * (100 / 65536)) / 20 := by
      have : (b - a) * y < (b - a) * x := mul_lt_mul_of_neg_left hxy (by linarith)
      linarith
    have h2 := const_rpow_strictMono 10 (by norm_num) h1
    simp only at h2 ⊢
    linarith
  · have h := (const_rpow_continuous 10 (by norm_num)).comp
      (show Continuous (fun δ : ℝ => -((a + (b - a) * δ) * (100 / 65536)) / 20) by continuity)
    exact continuous_const.sub h

theorem phase_real_mono (pi a b : ℝ) (hpi : 0 < pi) :
    (a < b → StrictMono (fun δ : ℝ =>
        (32703197 / 1000000 : ℝ) * (2 : ℝ) ^ ((a + (b - a) * δ) * (1 / 8192)) * pi / 11025))
      ∧ (b < a → StrictAnti (fun δ : ℝ =>
        (32703197 / 1000000 : ℝ) * (2 : ℝ) ^ ((a + (b - a) * δ) * (1 / 8192)) * pi / 11025))
      ∧ Continuous (fun δ : ℝ =>
        (32703197 / 1000000 : ℝ) * (2 : ℝ) ^ ((a + (b - a) * δ) * (1 / 8192)) * pi / 11025) := by
  have hk : (0 : ℝ) < 32703197 / 1000000 * pi / 11025 := by positivity
  have hform : ∀ t : ℝ, (32703197 / 1000000 : ℝ) * t * pi / 11025
      = (32703197 / 1000000 * pi / 11025) * t := by intro t; ring
  refine ⟨?_, ?_, ?_⟩
  · intro hab x y hxy
    have h1 : (a + (b - a) * x) * (1 / 8192) < (a + (b - a) * y) * (1 / 8192) := by
      have : (b - a) * x < (b - a) * y := mul_lt_mul_of_pos_left hxy (by linarith)
      linarith
    have h2 := const_rpow_strictMono 2 (by norm_num) h1
    simp only at h2 ⊢
    rw [hform, hform]
    exact mul_lt_mul_of_pos_left h2 hk
  · intro hab x y hxy
    have h1 : (a + (b - a) * y) * (1 / 8192) < (a + (b - a) * x) * (1 / 8192) := by
      have : (b - a) * y < (b - a) * x := mul_lt_mul_of_neg_left hxy (by linarith)
      linarith
    have h2 := const_rpow_strictMono 2 (by norm_num) h1
    simp only at h2 ⊢
    rw [hform, hform]
    exact mul_lt_mul_of_pos_left h2 hk
  · have h := (const_rpow_continuous 2 (by norm_num)).comp
      (show Continuous (fun δ : ℝ => (a + (b - a) * δ) * (1 / 8192)) by continuity)
    have h3 : Continuous (fun δ : ℝ =>
        (32703197 / 1000000 * pi / 11025) * (2 : ℝ) ^ ((a + (b - a) * δ) * (1 / 8192))) :=
      continuous_const.mul h
    have e : (fun δ : ℝ =>
        (32703197 / 1000000 : ℝ) * (2 : ℝ) ^ ((a + (b - a) * δ) * (1 / 8192)) * pi / 11025)
        = fun δ : ℝ =>
          (32703197 / 1000000 * pi / 11025) * (2 : ℝ) ^ ((a + (b - a) * δ) * (1 / 8192)) := by
      funext δ; exact hform _
    rw [e]; exact h3

/-- C16: over the reals (`math.Pow` the real power, `math.Pi` the number pi), for every
direction `d` and pair `n` of the arrays, `gain(d, n, position)` and `phase(d, n, position)`
return values `G position` and `P position`, both continuous in the position; when the
start and end range codes differ `G` is strictly monotonic (increasing when the end code is
the larger, decreasing otherwise), and when the start and end frequency codes differ `P` is
strictly monotonic in the same way; in particular on `[0, 1]`. -/
theorem gain_phase_strictly_monotone (f : filter ℝ) (cosine : ℝ → ℝ) (toInt : ℝ → Int)
    (d n : Nat) (hd : d < 2) (hn : n < 4) :
    ∃ G P : ℝ → ℝ,
      (∀ δ, f.gain ⟨fun x y => x ^ y, cosine, Real.pi, toInt⟩ d n δ = .ok (G δ))
      ∧ (∀ δ, f.phase ⟨fun x y => x ^ y, cosine, Real.pi, toInt⟩ d n δ = .ok (P δ))
      ∧ Continuous G ∧ ContinuousOn G (Set.Icc 0 1)
      ∧ Continuous P ∧ ContinuousOn P (Set.Icc 0 1)
      ∧ (f.Ranges d 0 n < f.Ranges d 1 n → StrictMono G)
      ∧ (f.Ranges d 1 n < f.Ranges d 0 n → StrictAnti G)
      ∧ (f.Ranges d 0 n ≠ f.Ranges d 1 n →
          StrictMonoOn G (Set.Icc 0 1) ∨ StrictAntiOn G (Set.Icc 0 1))
      ∧ (f.Frequencies d 0 n < f.Frequencies d 1 n → StrictMono P)
      ∧ (f.Frequencies d 1 n < f.Frequencies d 0 n → StrictAnti P)
      ∧ (f.Frequencies d 0 n ≠ f.Frequencies d 1 n →
          StrictMonoOn P (Set.Icc 0 1) ∨ StrictAntiOn P (Set.Icc 0 1)) := by
  obtain ⟨g1, g2, g3⟩ := gain_real_mono (f.Ranges d 0 n) (f.Ranges d 1 n)
  obtain ⟨p1, p2, p3⟩ := phase_real_mono Real.pi (f.Frequencies d 0 n) (f.Frequencies d 1 n)
    Real.pi_pos
  refine ⟨_, _, fun δ => gain_ok _ f d n δ hd hn, fun δ => phase_ok _ f d n δ hd hn,
    g3, g3.continuousOn, ?_, ?_, g1, g2, ?_, ?_, ?_, ?_⟩
  · exact p3
  · exact p3.continuousOn
  · intro hne
    rcases lt_or_gt_of_ne hne with h | h
    · exact Or.inl ((g1 h).strictMonoOn _)
    · exact Or.inr ((g2 h).strictAntiOn _)
  · exact p1
  · exact p2
  · intro hne
    rcases lt_or_gt_of_ne hne with h | h
    · exact Or.inl ((p1 h).strictMonoOn _)
    · exact Or.inr ((p2 h).strictAntiOn _)

theorem gain_phase_strictly_monotone_witness :
    ∃ G P : ℝ → ℝ,
      (∀ δ, (filter.mk (fun _ => 2) (fun _ k _ => if k = 0 then 4096 else 8192)
            (fun _ k _ => if k = 0 then 1000 else 300) (fun _ => 0)).gain
          ⟨fun x y => x ^ y, Real.cos, Real.pi, goTrunc⟩ 1 3 δ = .ok (G δ))
      ∧ (∀ δ, (filter.mk (fun _ => 2) (fun _ k _ => if k = 0 then 4096 else 8192)
            (fun _ k _ => if k = 0 then 1000 else 300) (fun _ => 0)).phase
          ⟨fun x y => x ^ y, Real.cos, Real.pi, goTrunc⟩ 1 3 δ = .ok (P δ))
      ∧ Continuous G ∧ ContinuousOn G (Set.Icc 0 1)
      ∧ Continuous P ∧ ContinuousOn P (Set.Icc 0 1)
      ∧ ((if (0 : Nat) = 0 then (1000 : ℝ) else 300) < (if (1 : Nat) = 0 then (1000 : ℝ) else 300)
          → StrictMono G)
      ∧ ((if (1 : Nat) = 0 then (1000 : ℝ) else 300) < (if (0 : Nat) = 0 then (1000 : ℝ) else 300)
          → StrictAnti G)
      ∧ ((if (0 : Nat) = 0 then (1000 : ℝ) else 300) ≠ (if (1 : Nat) = 0 then (1000 : ℝ) else 300)
          → StrictMonoOn G (Set.Icc 0 1) ∨ StrictAntiOn G (Set.Icc 0 1))
      ∧ ((if (0 : Nat) = 0 then (4096 : ℝ) else 8192) < (if (1 : Nat) = 0 then (4096 : ℝ) else 8192)
          → StrictMono P)
      ∧ ((if (1 : Nat) = 0 then (4096 : ℝ) else 8192) < (if (0 : Nat) = 0 then (4096 : ℝ) else 8192)
          → StrictAnti P)
      ∧ ((if (0 : Nat) = 0 then (4096 : ℝ) else 8192) ≠ (if (1 : Nat) = 0 then (4096 : ℝ) else 8192)
          → StrictMonoOn P (Set.Icc 0 1) ∨ StrictAntiOn P (Set.Icc 0 1)) :=
  gain_phase_strictly_monotone
    (filter.mk (fun _ => 2) (fun _ k _ => if k = 0 then 4096 else 8192)
      (fun _ k _ => if k = 0 then 1000 else 300) (fun _ => 0))
    Real.cos goTrunc 1 3 (by decide) (by decide)

/-! ## Index safety of the mixer and the empty track -/

theorem maxEndOrZero_cons_none {τ : Type} (ops : ToneOps τ) (rest : List (Option τ)) :
    maxEndOrZero ops (none :: rest) = maxEndOrZero ops rest := by
  unfold maxEndOrZero
  simp

theorem maxEndOrZero_cons_some {τ : Type} (ops : ToneOps τ) (tn : τ) (rest : List (Option τ)) :
    maxEndOrZero ops (some tn :: rest) = max (toneEnd ops tn) (maxEndOrZero ops rest) := by
  unfold maxEndOrZero
  simp

theorem maxEndOrZero_nonneg {τ : Type} (ops : ToneOps τ) (tones : List (Option τ)) :
    0 ≤ maxEndOrZero ops tones := by
  induction tones with
  | nil => unfold maxEndOrZero; simp
  | cons slot rest ih =>
    cases slot with
    | none => rw [maxEndOrZero_cons_none]; exact ih
    | some tn => rw [maxEndOrZero_cons_some]; exact le_trans ih (le_max_right _ _)

theorem foldl_lengthStep_eq {τ : Type} (ops : ToneOps τ) (tones : List (Option τ)) :
    ∀ acc : Int, 0 ≤ acc →
      tones.foldl (lengthStep ops) acc = max acc (maxEndOrZero ops tones) := by
  induction tones with
  | nil =>
    intro acc hacc
    unfold maxEndOrZero
    simp only [List.foldl_nil, List.filterMap_nil, List.map_nil, List.foldr_nil]
    exact (max_eq_left hacc).symm
  | cons slot rest ih =>
    intro acc hacc
    rw [List.foldl_cons]
    cases slot with
    | none =>
      rw [maxEndOrZero_cons_none]
      exact ih acc hacc
    | some tn =>
      rw [maxEndOrZero_cons_some]
      show rest.foldl (lengthStep ops) (max (toneEnd ops tn) acc) = _
      rw [ih _ (le_trans hacc (le_max_right _ _)), max_comm (toneEnd ops tn) acc, max_assoc]

/-- The loop of lines 92-98 computes the maximum end of the present tones, floored at 0. -/
theorem trackLength_eq_maxEndOrZero {τ : Type} (ops : ToneOps τ) (tones : List (Option τ)) :
    trackLength ops tones = maxEndOrZero ops tones := by
  unfold trackLength
  rw [foldl_lengthStep_eq ops tones 0 (le_refl 0)]
  exact max_eq_right (maxEndOrZero_nonneg ops tones)

theorem isMaxEnd_trackLength {τ : Type} (ops : ToneOps τ) (tones : List (Option τ))
    (h : trackLength ops tones ≠ 0) : IsMaxEnd ops tones (trackLength ops tones) := by
  obtain ⟨h1, _, h3⟩ := trackLength_foldl_spec ops tones 0
  unfold trackLength at h ⊢
  rcases h1 with h1 | ⟨tn, hm, he⟩
  · exact absurd h1 h
  · exact ⟨⟨tn, hm, he.symm⟩, h3⟩

theorem mixTone_error (samples toneSamples : List Int) (toneStart toneSampleCount : Int)
    (e : Err) (h : mixTone samples toneSamples toneStart toneSampleCount = .error e) :
    e = .indexOutOfRange := by
  unfold mixTone at h
  refine foldlM_error_cause (fun e => e = .indexOutOfRange) _ ?_ _ _ _ h
  intro s pos e1 h1
  simp only at h1
  split at h1
  · split at h1
    · simp only [Except.error.injEq] at h1; exact h1.symm
    · simp at h1
  · simp only [Except.error.injEq] at h1; exact h1.symm

/-- The tone loop fails only with a tone's own error or with an index out of range. -/
theorem renderTones_error {τ : Type} (ops : ToneOps τ) (tones : List (Option τ))
    (sampleCount : Int) (e : Err) (h : renderTones ops tones sampleCount = .error e) :
    e = .indexOutOfRange ∨ ∃ msg, e = .collaborator msg := by
  unfold renderTones at h
  refine foldlM_error_cause (fun e => e = .indexOutOfRange ∨ ∃ msg, e = .collaborator msg)
    _ ?_ _ _ _ h
  intro s slot e1 h1
  unfold renderSlot at h1
  split at h1
  · simp at h1
  · simp only at h1
    split at h1
    · next msg _ =>
      simp only [Except.error.injEq] at h1
      exact Or.inr ⟨msg, h1.symm⟩
    · exact Or.inl (mixTone_error _ _ _ _ _ h1)

/-- `Track.generate` returns the empty-sound error exactly when the loop of lines 92-98
leaves `length = 0`. -/
theorem generate_emptySound_iff_length {τ : Type} (ops : ToneOps τ) (t : Track τ) :
    Track.generate ops t = .error .emptySound ↔ trackLength ops t.Tones = 0 := by
  constructor
  · intro h
    by_contra hne
    have hmax := isMaxEnd_trackLength ops t.Tones hne
    have hpos : 0 < trackLength ops t.Tones := by
      obtain ⟨⟨t0, _, he0⟩, _⟩ := hmax
      have := (toneEnd_bounds ops t0).1
      omega
    cases hr : renderTones ops t.Tones (sampleCountOf (trackLength ops t.Tones)) with
    | error e =>
      have hg : Track.generate ops t = .error e := by
        unfold Track.generate
        simp only [hne, if_false, hr]
      rw [hg] at h
      simp only [Except.error.injEq] at h
      rcases renderTones_error ops t.Tones _ e hr with h1 | ⟨msg, h1⟩
      · rw [h1] at h; exact absurd h (by decide)
      · rw [h1] at h; exact absurd h (by simp)
    | ok samples =>
      obtain ⟨hg, _⟩ := generate_eq_container ops t _ hmax hpos samples hr
      rw [hg] at h
      simp at h
  · intro h
    unfold Track.generate
    simp only [h, if_true]

theorem floor_ms_nat (k : Nat) : ⌊(((k : Int) : ℚ) * 22050) / 1000⌋ = (k : Int) * 22050 / 1000 :=
  floor_ms k

/-- C19: in a track whose maximum of `(start + length)` over present tones is `L > 0`, a
present tone whose `start + length` does not wrap around satisfies
`floor(start*22050/1000) + floor(length*22050/1000) <= floor(L*22050/1000)`, these three
being the tone's start offset, its sample count and the buffer's sample count as
`Track.generate` computes them; so every index `pos + toneStart` with
`0 <= pos < toneSampleCount` lies inside the sample buffer.  When this holds for every
present tone and every tone delivers its sample count, the tone loop completes without an
index out of range. -/
theorem mixer_writes_in_bounds {τ : Type} (ops : ToneOps τ) (tones : List (Option τ))
    (L : Int) (hmax : IsMaxEnd ops tones L) (hpos : 0 < L) (tn : τ) (hmem : some tn ∈ tones)
    (hfit : ops.Start tn + ops.Length tn < 65536) :
    Int.tdiv (wrap64 ((ops.Start tn : Int) * SampleRate)) 1000
        = ⌊(((ops.Start tn : Int) : ℚ) * 22050) / 1000⌋
      ∧ Int.tdiv (wrap64 ((ops.Length tn : Int) * SampleRate)) 1000
        = ⌊(((ops.Length tn : Int) : ℚ) * 22050) / 1000⌋
      ∧ sampleCountOf (trackLength ops tones) = ⌊((L : ℚ) * 22050) / 1000⌋
      ∧ ⌊(((ops.Start tn : Int) : ℚ) * 22050) / 1000⌋
          + ⌊(((ops.Length tn : Int) : ℚ) * 22050) / 1000⌋ ≤ ⌊((L : ℚ) * 22050) / 1000⌋
      ∧ (∀ pos : Int, 0 ≤ pos →
          pos < Int.tdiv (wrap64 ((ops.Length tn : Int) * SampleRate)) 1000 →
          0 ≤ pos + Int.tdiv (wrap64 ((ops.Start tn : Int) * SampleRate)) 1000
          ∧ pos + Int.tdiv (wrap64 ((ops.Start tn : Int) * SampleRate)) 1000
              < sampleCountOf (trackLength ops tones)
          ∧ pos + Int.tdiv (wrap64 ((ops.Start tn : Int) * SampleRate)) 1000
              < (newSamples (sampleCountOf (trackLength ops tones))).length)
      ∧ ((∀ t1, some t1 ∈ tones → ops.Start t1 + ops.Length t1 < 65536) →
          (∀ t1, some t1 ∈ tones → ∃ ts,
            ops.generate t1 (Int.tdiv (wrap64 ((ops.Length t1 : Int) * SampleRate)) 1000)
                (ops.Length t1 : Int) = .ok ts
              ∧ Int.tdiv (wrap64 ((ops.Length t1 : Int) * SampleRate)) 1000 ≤ ts.length) →
          ∃ samples, renderTones ops tones (sampleCountOf (trackLength ops tones))
            = .ok samples) := by
  have hlen := trackLength_eq_of_isMaxEnd ops tones L hmax
  have hS := ops.Start_lt tn
  have hLn := ops.Length_lt tn
  have hL1 : L < 65536 := by
    obtain ⟨⟨t0, _, he0⟩, _⟩ := hmax
    exact he0 ▸ (toneEnd_bounds ops t0).2
  have hend : (ops.Start tn : Int) + ops.Length tn ≤ L := by
    have h := hmax.2 tn hmem
    unfold toneEnd at h
    omega
  have hw1 : Int.tdiv (wrap64 ((ops.Length tn : Int) * SampleRate)) 1000
      = (ops.Length tn : Int) * 22050 / 1000 := sampleCountOf_eq _ (by omega) (by omega)
  have hw2 : Int.tdiv (wrap64 ((ops.Start tn : Int) * SampleRate)) 1000
      = (ops.Start tn : Int) * 22050 / 1000 := sampleCountOf_eq _ (by omega) (by omega)
  have hsc : sampleCountOf (trackLength ops tones) = L * 22050 / 1000 := by
    rw [hlen]; exact sampleCountOf_eq L (le_of_lt hpos) hL1
  refine ⟨by rw [hw2, floor_ms_nat], by rw [hw1, floor_ms_nat], by rw [hsc, floor_ms], ?_, ?_,
    ?_⟩
  · rw [floor_ms_nat, floor_ms_nat, floor_ms]; omega
  · intro pos h0 hlt
    rw [hw1] at hlt
    rw [hw2, hsc]
    refine ⟨by omega, by omega, ?_⟩
    unfold newSamples
    rw [List.length_replicate]
    omega
  · intro hfitAll hgen
    rw [hlen]
    exact renderTones_ok ops tones L hmax hfitAll hgen

theorem mixer_writes_in_bounds_witness :
    Int.tdiv (wrap64 ((plainTones.Start (30, 70) : Int) * SampleRate)) 1000
        = ⌊(((plainTones.Start (30, 70) : Int) : ℚ) * 22050) / 1000⌋
      ∧ Int.tdiv (wrap64 ((plainTones.Length (30, 70) : Int) * SampleRate)) 1000
        = ⌊(((plainTones.Length (30, 70) : Int) : ℚ) * 22050) / 1000⌋
      ∧ sampleCountOf (trackLength plainTones [some (30, 70)]) = ⌊(((100 : Int) : ℚ) * 22050) / 1000⌋
      ∧ ⌊(((plainTones.Start (30, 70) : Int) : ℚ) * 22050) / 1000⌋
          + ⌊(((plainTones.Length (30, 70) : Int) : ℚ) * 22050) / 1000⌋
            ≤ ⌊(((100 : Int) : ℚ) * 22050) / 1000⌋
      ∧ (∀ pos : Int, 0 ≤ pos →
          pos < Int.tdiv (wrap64 ((plainTones.Length (30, 70) : Int) * SampleRate)) 1000 →
          0 ≤ pos + Int.tdiv (wrap64 ((plainTones.Start (30, 70) : Int) * SampleRate)) 1000
          ∧ pos + Int.tdiv (wrap64 ((plainTones.Start (30, 70) : Int) * SampleRate)) 1000
              < sampleCountOf (trackLength plainTones [some (30, 70)])
          ∧ pos + Int.tdiv (wrap64 ((plainTones.Start (30, 70) : Int) * SampleRate)) 1000
              < (newSamples (sampleCountOf (trackLength plainTones [some (30, 70)]))).length)
      ∧ ((∀ t1, some t1 ∈ [some ((30, 70) : Fin 65536 × Fin 65536)] →
            plainTones.Start t1 + plainTones.Length t1 < 65536) →
          (∀ t1, some t1 ∈ [some ((30, 70) : Fin 65536 × Fin 65536)] → ∃ ts,
            plainTones.generate t1
                (Int.tdiv (wrap64 ((plainTones.Length t1 : Int) * SampleRate)) 1000)
                (plainTones.Length t1 : Int) = .ok ts
              ∧ Int.tdiv (wrap64 ((plainTones.Length t1 : Int) * SampleRate)) 1000 ≤ ts.length) →
          ∃ samples, renderTones plainTones [some (30, 70)]
            (sampleCountOf (trackLength plainTones [some (30, 70)])) = .ok samples) :=
  mixer_writes_in_bounds plainTones [some (30, 70)] 100
    (isMaxEnd_singleton _ _ _ (by decide)) (by decide) (30, 70)
    (List.mem_singleton.mpr rfl) (by decide)

/-- C20: `Track.generate` returns the empty-sound error if and only if the maximum of
`(start + length)` over present tones, floored at 0, is 0, which is what the loop of lines
92-98 computes; so a track all of whose present tones have `start + length = 0` is rejected
as empty like a track with no tones, and a track with a present tone of
`start + length >= 1` is not rejected as empty and gets a buffer of at least 22 samples. -/
theorem generate_emptySound_iff {τ : Type} (ops : ToneOps τ) (t : Track τ) :
    (Track.generate ops t = .error .emptySound ↔ maxEndOrZero ops t.Tones = 0)
      ∧ trackLength ops t.Tones = maxEndOrZero ops t.Tones
      ∧ ((∀ tn, some tn ∈ t.Tones → toneEnd ops tn = 0) →
          Track.generate ops t = .error .emptySound)
      ∧ ((∃ tn, some tn ∈ t.Tones ∧ 1 ≤ toneEnd ops tn) →
          Track.generate ops t ≠ .error .emptySound
          ∧ 22 ≤ sampleCountOf (trackLength ops t.Tones)
          ∧ 22 ≤ (newSamples (sampleCountOf (trackLength ops t.Tones))).length) := by
  have hiff := generate_emptySound_iff_length ops t
  have heq := trackLength_eq_maxEndOrZero ops t.Tones
  obtain ⟨h1, h2, h3⟩ := trackLength_foldl_spec ops t.Tones 0
  refine ⟨by rw [hiff, heq], heq, ?_, ?_⟩
  · intro hall
    rw [hiff]
    unfold trackLength
    rcases h1 with h | ⟨tn, hm, h⟩
    · exact h
    · rw [h]; exact hall tn hm
  · rintro ⟨tn, hm, hge⟩
    have hlen : 1 ≤ trackLength ops t.Tones := le_trans hge (h3 tn hm)
    have hmax := isMaxEnd_trackLength ops t.Tones (by omega)
    have hL : trackLength ops t.Tones < 65536 := by
      obtain ⟨⟨t0, _, he0⟩, _⟩ := hmax
      rw [← he0]; exact (toneEnd_bounds ops t0).2
    have hsc := sampleCountOf_eq (trackLength ops t.Tones) (by omega) hL
    refine ⟨?_, by rw [hsc]; omega, ?_⟩
    · intro hcontra
      rw [hiff] at hcontra
      omega
    · unfold newSamples
      rw [List.length_replicate, hsc]
      omega

/-! ## End codes read by filter.read -/

theorem endBytes_succ (mg d n : Nat) :
    endBytes mg d (n + 1) = endBytes mg d n + (if Nat.testBit mg (d * 4 + n) then 4 else 0) := by
  unfold endBytes
  rw [List.range_succ, List.map_append, List.sum_append]
  simp

theorem u8_spec (b b' : buffer) (v : Nat) (h : b.u8 = .ok (v, b')) :
    b'.data = b.data ∧ b'.pos = b.pos + 1 ∧ v = b.data.getD b.pos 0 % 256 := by
  unfold buffer.u8 at h
  split at h
  · next x hx =>
    simp only [Except.ok.injEq, Prod.mk.injEq] at h
    obtain ⟨h1, h2⟩ := h
    subst h2
    refine ⟨rfl, rfl, ?_⟩
    rw [← h1, List.getD_eq_getElem?_getD, hx]
    rfl
  · simp at h

theorem u16_spec (b b' : buffer) (v : Nat) (h : b.u16 = .ok (v, b')) :
    b'.data = b.data ∧ b'.pos = b.pos + 2 ∧ v = be16 b.data b.pos := by
  unfold buffer.u16 at h
  split at h
  · simp at h
  · next hi b1 h1 =>
    split at h
    · simp at h
    · next lo b2 h2 =>
      simp only [Except.ok.injEq, Prod.mk.injEq] at h
      obtain ⟨hv, hb⟩ := h
      subst hb
      obtain ⟨d1, p1, v1⟩ := u8_spec _ _ _ h1
      obtain ⟨d2, p2, v2⟩ := u8_spec _ _ _ h2
      refine ⟨by rw [d2, d1], by rw [p2, p1], ?_⟩
      unfold be16
      rw [← hv, v1, v2, d1, p1]

theorem migration_bit_iff (mg d n : Nat) (hd : d < 2) (hn : n < 4) :
    mg &&& ((1 <<< (d * 4) <<< n) % 256) ≠ 0 ↔ Nat.testBit mg (d * 4 + n) = true := by
  have h1 : 1 <<< (d * 4) <<< n = 2 ^ (d * 4 + n) := by
    rw [Nat.one_shiftLeft, Nat.shiftLeft_eq, ← Nat.pow_add]
  have h2 : (2 : Nat) ^ (d * 4 + n) < 256 := by
    calc (2 : Nat) ^ (d * 4 + n) ≤ 2 ^ 7 := Nat.pow_le_pow_right (by norm_num) (by omega)
      _ < 256 := by norm_num
  rw [h1, Nat.mod_eq_of_lt h2, Nat.land_comm, Nat.two_pow_and]
  cases hb : Nat.testBit mg (d * 4 + n)
  · simp
  · simp

theorem set3_same {α : Type} (a : Nat → Nat → Nat → α) (i j k : Nat) (v : α) :
    set3 a i j k v i j k = v := by
  unfold set3; simp

theorem set3_other {α : Type} (a : Nat → Nat → Nat → α) (i j k : Nat) (v : α) (x y z : Nat)
    (h : ¬ (x = i ∧ y = j ∧ z = k)) : set3 a i j k v x y z = a x y z := by
  unfold set3; rw [if_neg h]

theorem readStartPair_spec {R : Type} [NatCast R] (d p : Nat) (s s' : filter R × buffer)
    (h : readStartPair d p s = .ok s') :
    s'.2.data = s.2.data ∧ s'.2.pos = s.2.pos + 4 ∧ s'.1.Pairs = s.1.Pairs
      ∧ s'.1.Unities = s.1.Unities := by
  unfold readStartPair at h
  split at h
  · simp at h
  · next v b1 h1 =>
    simp only at h
    split at h
    · simp at h
    · next w b2 h2 =>
      simp only [Except.ok.injEq] at h
      obtain ⟨d1, p1, _⟩ := u16_spec _ _ _ h1
      obtain ⟨d2, p2, _⟩ := u16_spec _ _ _ h2
      rw [← h]
      exact ⟨by rw [d2, d1], by simp only; omega, rfl, rfl⟩

/-- One pass of the second pair loop of `filter.read` (lines 42-48), on pair `n` of
direction `d`: what it reads, what it stores and what it leaves alone. -/
theorem readEndPair_spec {R : Type} [NatCast R] (mg d n : Nat) (hd : d < 2) (hn : n < 4)
    (s s' : filter R × buffer) (h : readEndPair mg d n s = .ok s') :
    s'.2.data = s.2.data
      ∧ s'.2.pos = s.2.pos + (if Nat.testBit mg (d * 4 + n) then 4 else 0)
      ∧ s'.1.Pairs = s.1.Pairs ∧ s'.1.Unities = s.1.Unities
      ∧ (∀ x z, s'.1.Frequencies x 0 z = s.1.Frequencies x 0 z
          ∧ s'.1.Ranges x 0 z = s.1.Ranges x 0 z)
      ∧ (∀ x z, ¬ (x = d ∧ z = n) → s'.1.Frequencies x 1 z = s.1.Frequencies x 1 z
          ∧ s'.1.Ranges x 1 z = s.1.Ranges x 1 z)
      ∧ (if Nat.testBit mg (d * 4 + n) then
          s'.1.Frequencies d 1 n = ((be16 s.2.data s.2.pos : Nat) : R)
            ∧ s'.1.Ranges d 1 n = ((be16 s.2.data (s.2.pos + 2) : Nat) : R)
        else
          s'.2 = s.2 ∧ s'.1.Frequencies d 1 n = s.1.Frequencies d 0 n
            ∧ s'.1.Ranges d 1 n = s.1.Ranges d 0 n) := by
  have hbit := migration_bit_iff mg d n hd hn
  unfold readEndPair at h
  split at h
  · next hc =>
    have ht : Nat.testBit mg (d * 4 + n) = true := hbit.mp hc
    split at h
    · simp at h
    · next v b1 h1 =>
      simp only at h
      split at h
      · simp at h
      · next w b2 h2 =>
        simp only [Except.ok.injEq] at h
        obtain ⟨d1, p1, v1⟩ := u16_spec _ _ _ h1
        obtain ⟨d2, p2, v2⟩ := u16_spec _ _ _ h2
        rw [← h]
        simp only [ht, if_true]
        refine ⟨by rw [d2, d1], by omega, by first | rfl | trivial, by first | rfl | trivial,
          ?_, ?_, ?_, ?_⟩
        · intro x z
          exact ⟨set3_other _ _ _ _ _ _ _ _ (by omega), set3_other _ _ _ _ _ _ _ _ (by omega)⟩
        · intro x z hxz
          exact ⟨set3_other _ _ _ _ _ _ _ _ (by omega), set3_other _ _ _ _ _ _ _ _ (by omega)⟩
        · rw [set3_same, v1]
        · rw [set3_same, v2, d1, p1]
  · next hc =>
    have ht : Nat.testBit mg (d * 4 + n) = false := by
      cases hb : Nat.testBit mg (d * 4 + n)
      · rfl
      · exact absurd (hbit.mpr hb) hc
    simp only [Except.ok.injEq] at h
    rw [← h]
    simp only [ht, Bool.false_eq_true, if_false, Nat.add_zero]
    refine ⟨by first | rfl | trivial, by first | rfl | trivial, by first | rfl | trivial,
      by first | rfl | trivial, ?_, ?_, by first | rfl | trivial, ?_, ?_⟩
    · intro x z
      exact ⟨set3_other _ _ _ _ _ _ _ _ (by omega), set3_other _ _ _ _ _ _ _ _ (by omega)⟩
    · intro x z hxz
      exact ⟨set3_other _ _ _ _ _ _ _ _ (by omega), set3_other _ _ _ _ _ _ _ _ (by omega)⟩
    · rw [set3_same]
    · rw [set3_same]

theorem foldlM_range_succ_ok {σ : Type} (g : σ → Nat → Except Err σ) (k : Nat) (s0 s' : σ)
    (h : (List.range (k + 1)).foldlM g s0 = .ok s') :
    ∃ s1, (List.range k).foldlM g s0 = .ok s1 ∧ g s1 k = .ok s' := by
  rw [List.range_succ, List.foldlM_append] at h
  cases h1 : (List.range k).foldlM g s0 with
  | error e => rw [h1] at h; simp [bind, Except.bind] at h
  | ok s1 =>
    rw [h1] at h
    simp only [bind, Except.bind, List.foldlM_cons, List.foldlM_nil, pure, Except.pure] at h
    refine ⟨s1, rfl, ?_⟩
    cases h2 : g s1 k with
    | error e => rw [h2] at h; simp at h
    | ok s2 => rw [h2] at h; simpa using h

theorem startLoop_spec {R : Type} [NatCast R] (d : Nat) :
    ∀ (k : Nat) (s0 s' : filter R × buffer),
      (List.range k).foldlM (fun s pair => readStartPair d pair s) s0 = .ok s' →
      s'.2.data = s0.2.data ∧ s'.2.pos = s0.2.pos + 4 * k ∧ s'.1.Pairs = s0.1.Pairs
        ∧ s'.1.Unities = s0.1.Unities := by
  intro k
  induction k with
  | zero =>
    intro s0 s' h
    simp only [List.range_zero, List.foldlM_nil, pure, Except.pure, Except.ok.injEq] at h
    rw [← h]; exact ⟨rfl, rfl, rfl, rfl⟩
  | succ k ih =>
    intro s0 s' h
    obtain ⟨s1, h1, h2⟩ := foldlM_range_succ_ok _ k s0 s' h
    obtain ⟨a1, a2, a3, a4⟩ := ih s0 s1 h1
    obtain ⟨b1, b2, b3, b4⟩ := readStartPair_spec d k s1 s' h2
    exact ⟨by rw [b1, a1], by rw [b2, a2]; omega, by rw [b3, a3], by rw [b4, a4]⟩

theorem endLoop_spec {R : Type} [NatCast R] (mg d : Nat) (hd : d < 2) :
    ∀ (k : Nat) (s0 s' : filter R × buffer), k ≤ 4 →
      (List.range k).foldlM (fun s pair => readEndPair mg d pair s) s0 = .ok s' →
      EndLoopSpec mg d k s0 s' := by
  intro k
  induction k with
  | zero =>
    intro s0 s' _ h
    simp only [List.range_zero, List.foldlM_nil, pure, Except.pure, Except.ok.injEq] at h
    rw [← h]
    exact ⟨rfl, rfl, rfl, rfl, fun _ _ => ⟨rfl, rfl⟩, fun _ _ _ => ⟨rfl, rfl⟩,
      fun n hn => absurd hn (Nat.not_lt_zero n)⟩
  | succ k ih =>
    intro s0 s' hk h
    obtain ⟨s1, h1, h2⟩ := foldlM_range_succ_ok _ k s0 s' h
    obtain ⟨a1, a2, a3, a4, a5, a6, a7⟩ := ih s0 s1 (by omega) h1
    obtain ⟨b1, b2, b3, b4, b5, b6, b7⟩ := readEndPair_spec mg d k hd (by omega) s1 s' h2
    refine ⟨by rw [b1, a1], by rw [b2, a2, endBytes_succ]; omega, by rw [b3, a3],
      by rw [b4, a4], ?_, ?_, ?_⟩
    · intro x z
      exact ⟨by rw [(b5 x z).1, (a5 x z).1], by rw [(b5 x z).2, (a5 x z).2]⟩
    · intro x z hxz
      have hb := b6 x z (by omega)
      have ha := a6 x z (by omega)
      exact ⟨by rw [hb.1, ha.1], by rw [hb.2, ha.2]⟩
    · intro n hn
      by_cases hnk : n = k
      · subst hnk
        by_cases ht : Nat.testBit mg (d * 4 + n) = true
        · rw [if_pos ht] at b7 ⊢
          rw [a1, a2] at b7
          exact b7
        · rw [if_neg ht] at b7 ⊢
          exact ⟨by rw [b7.2.1, (a5 d n).1], by rw [b7.2.2, (a5 d n).2]⟩
      · have hb := b6 d n (by omega)
        have ha := a7 n (by omega)
        by_cases ht : Nat.testBit mg (d * 4 + n) = true
        · rw [if_pos ht] at ha ⊢
          exact ⟨by rw [hb.1, ha.1], by rw [hb.2, ha.2]⟩
        · rw [if_neg ht] at ha ⊢
          exact ⟨by rw [hb.1, ha.1], by rw [hb.2, ha.2]⟩

theorem pairLoops_ok_split {R : Type}
    (body : Nat → Nat → filter R × buffer → Except Err (filter R × buffer))
    (s s2 : filter R × buffer) (h : pairLoops body s = .ok s2) :
    ∃ sa, (List.range (s.1.Pairs 0).toNat).foldlM (fun s pair => body 0 pair s) s = .ok sa
      ∧ (List.range (sa.1.Pairs 1).toNat).foldlM (fun s pair => body 1 pair s) sa = .ok s2 := by
  unfold pairLoops at h
  have hr : List.range 2 = [0, 1] := rfl
  rw [hr, List.foldlM_cons] at h
  cases h1 : (List.range (s.1.Pairs 0).toNat).foldlM (fun s pair => body 0 pair s) s with
  | error e => rw [h1] at h; simp [bind, Except.bind] at h
  | ok sa =>
    rw [h1] at h
    simp only [bind, Except.bind, List.foldlM_cons, List.foldlM_nil, pure, Except.pure] at h
    refine ⟨sa, rfl, ?_⟩
    cases h2 : (List.range (sa.1.Pairs 1).toNat).foldlM (fun s pair => body 1 pair s) sa with
    | error e => rw [h2] at h; simp at h
    | ok s3 => rw [h2] at h; simpa using h

/-- What lines 28-50 of `filter.read` leave behind, for a filter with `p0` onset and `p1`
release pairs and the cursor `b` standing behind the count byte. -/
theorem readBody_spec {R : Type} [NatCast R] (f : filter R) (b : buffer) (p0 p1 : Nat)
    (hp0 : f.Pairs 0 = p0) (hp1 : f.Pairs 1 = p1) (h0 : p0 ≤ 4) (h1 : p1 ≤ 4)
    (f2 : filter R) (b2 : buffer) (mg : Nat) (h : readBody f b = .ok (f2, b2, mg)) :
    mg = b.data.getD (b.pos + 4) 0 % 256
      ∧ f2.Pairs = f.Pairs
      ∧ f2.Unities 0 = ((be16 b.data b.pos : Nat) : Int)
      ∧ f2.Unities 1 = ((be16 b.data (b.pos + 2) : Nat) : Int)
      ∧ b2.data = b.data
      ∧ b2.pos = b.pos + 5 + 4 * (p0 + p1) + endBytes mg 0 p0 + endBytes mg 1 p1
      ∧ ∀ (d n : Nat), d < 2 → (n : Int) < f.Pairs d →
          if Nat.testBit mg (d * 4 + n) then
            f2.Frequencies d 1 n
                = ((be16 b.data (b.pos + 5 + 4 * (p0 + p1)
                    + (if d = 0 then 0 else endBytes mg 0 p0) + endBytes mg d n) : Nat) : R)
              ∧ f2.Ranges d 1 n
                = ((be16 b.data (b.pos + 5 + 4 * (p0 + p1)
                    + (if d = 0 then 0 else endBytes mg 0 p0) + endBytes mg d n + 2) : Nat) : R)
          else
            f2.Frequencies d 1 n = f2.Frequencies d 0 n ∧ f2.Ranges d 1 n = f2.Ranges d 0 n := by
  unfold readBody at h
  split at h
  · simp at h
  · next u0 bu0 hu0 =>
    split at h
    · simp at h
    · next u1 bu1 hu1 =>
      split at h
      · simp at h
      · next mg1 b3 hmg =>
        simp only at h
        split at h
        · simp at h
        · next s1 hs1 =>
          split at h
          · simp at h
          · next s2 hs2 =>
            simp only [Except.ok.injEq, Prod.mk.injEq] at h
            obtain ⟨hf2, hb2, hmgeq⟩ := h
            subst hmgeq
            obtain ⟨d0, q0, v0⟩ := u16_spec _ _ _ hu0
            obtain ⟨d1, q1, v1⟩ := u16_spec _ _ _ hu1
            obtain ⟨d2, q2, v2⟩ := u8_spec _ _ _ hmg
            -- first pass
            obtain ⟨sa, ha, hb⟩ := pairLoops_ok_split _ _ _ hs1
            obtain ⟨a1, a2, a3, a4⟩ := startLoop_spec 0 _ _ _ ha
            obtain ⟨b1, b2', b3', b4⟩ := startLoop_spec 1 _ _ _ hb
            -- second pass
            obtain ⟨sc, hc, hd⟩ := pairLoops_ok_split _ _ _ hs2
            have hs1P : s1.1.Pairs = f.Pairs := by rw [b3', a3]
            have hs1P0 : (s1.1.Pairs 0).toNat = p0 := by rw [hs1P, hp0]; simp
            have hsaP1 : (sa.1.Pairs 1).toNat = p1 := by rw [a3]; simp only; rw [hp1]; simp
            have hfP0 : (f.Pairs 0).toNat = p0 := by rw [hp0]; simp
            rw [hs1P0] at hc
            have c := endLoop_spec mg1 0 (by omega) p0 s1 sc h0 hc
            obtain ⟨c1, c2, c3, c4, c5, c6, c7⟩ := c
            have hscP1 : (sc.1.Pairs 1).toNat = p1 := by rw [c3, hs1P, hp1]; simp
            rw [hscP1] at hd
            have e := endLoop_spec mg1 1 (by omega) p1 sc s2 h1 hd
            obtain ⟨e1, e2, e3, e4, e5, e6, e7⟩ := e
            simp only at a1 a2 a3 a4
            rw [hfP0] at a2
            rw [hsaP1] at hb
            have b2'' := (startLoop_spec 1 _ _ _ hb).2.1
            have hs1data : s1.2.data = b.data := by rw [b1, a1, d2, d1, d0]
            have hs1pos : s1.2.pos = b.pos + 5 + 4 * (p0 + p1) := by
              rw [b2'', a2, q2, q1, q0]; omega
            have hUn : s2.1.Unities = set1 (set1 f.Unities 0 (u0 : Int)) 1 (u1 : Int) := by
              rw [e4, c4, b4, a4]
            refine ⟨by rw [v2, d1, d0, q1, q0], by rw [← hf2, e3, c3, hs1P], ?_, ?_,
              by rw [← hb2, e1, c1, hs1data], by rw [← hb2, e2, c2, hs1pos], ?_⟩
            · rw [← hf2, hUn, v0]; simp [set1]
            · rw [← hf2, hUn, v1, d0, q0]; simp [set1]
            · intro d n hd2 hn
              have hd01 : d = 0 ∨ d = 1 := by omega
              rcases hd01 with hd0 | hd1
              · subst hd0
                have hn0 : n < p0 := by rw [hp0] at hn; exact_mod_cast hn
                have h7 := c7 n hn0
                have hfr := e6 0 n (by omega)
                by_cases ht : Nat.testBit mg1 (0 * 4 + n) = true
                · rw [if_pos ht] at h7 ⊢
                  rw [← hf2, hfr.1, hfr.2, h7.1, h7.2, hs1data, hs1pos]
                  simp only [if_true, Nat.add_zero]
                  exact ⟨trivial, trivial⟩
                · rw [if_neg ht] at h7 ⊢
                  rw [← hf2, hfr.1, hfr.2, h7.1, h7.2, (e5 0 n).1, (e5 0 n).2, (c5 0 n).1,
                    (c5 0 n).2]
                  exact ⟨rfl, rfl⟩
              · subst hd1
                have hn1 : n < p1 := by rw [hp1] at hn; exact_mod_cast hn
                have h7 := e7 n hn1
                by_cases ht : Nat.testBit mg1 (1 * 4 + n) = true
                · rw [if_pos ht] at h7 ⊢
                  rw [← hf2, h7.1, h7.2, c1, c2, hs1data, hs1pos]
                  simp only [Nat.one_ne_zero, if_false]
                  exact ⟨trivial, trivial⟩
                · rw [if_neg ht] at h7 ⊢
                  rw [← hf2, h7.1, h7.2, (e5 1 n).1, (e5 1 n).2]
                  exact ⟨rfl, rfl⟩

theorem endBytes_mono (mg d : Nat) (a b : Nat) (h : a ≤ b) : endBytes mg d a ≤ endBytes mg d b := by
  induction b with
  | zero =>
    have : a = 0 := by omega
    subst this; exact le_refl _
  | succ k ih =>
    by_cases hk : a ≤ k
    · have := ih hk
      rw [endBytes_succ]; omega
    · have : a = k + 1 := by omega
      subst this; exact le_refl _

theorem u8_inBounds (b b' : buffer) (v : Nat) (h : b.u8 = .ok (v, b')) :
    b'.pos ≤ b'.data.length := by
  unfold buffer.u8 at h
  split at h
  · next x hx =>
    simp only [Except.ok.injEq, Prod.mk.injEq] at h
    obtain ⟨_, h2⟩ := h
    subst h2
    have hlt : b.pos < b.data.length := by
      by_contra hcon
      rw [List.getElem?_eq_none (by omega)] at hx
      simp at hx
    simp only
    omega
  · simp at h

theorem u16_inBounds (b b' : buffer) (v : Nat) (h : b.u16 = .ok (v, b')) :
    b'.pos ≤ b'.data.length := by
  unfold buffer.u16 at h
  split at h
  · simp at h
  · next hi b1 h1 =>
    split at h
    · simp at h
    · next lo b2 h2 =>
      simp only [Except.ok.injEq, Prod.mk.injEq] at h
      obtain ⟨_, hb⟩ := h
      subst hb
      exact u8_inBounds _ _ _ h2

theorem readStartPair_inBounds {R : Type} [NatCast R] (d p : Nat) (s s' : filter R × buffer)
    (h : readStartPair d p s = .ok s') : s'.2.pos ≤ s'.2.data.length := by
  unfold readStartPair at h
  split at h
  · simp at h
  · next v b1 h1 =>
    simp only at h
    split at h
    · simp at h
    · next w b2 h2 =>
      simp only [Except.ok.injEq] at h
      rw [← h]
      exact u16_inBounds _ _ _ h2

theorem readEndPair_inBounds {R : Type} [NatCast R] (mg d p : Nat) (s s' : filter R × buffer)
    (hs : s.2.pos ≤ s.2.data.length) (h : readEndPair mg d p s = .ok s') :
    s'.2.pos ≤ s'.2.data.length := by
  unfold readEndPair at h
  split at h
  · split at h
    · simp at h
    · next v b1 h1 =>
      simp only at h
      split at h
      · simp at h
      · next w b2 h2 =>
        simp only [Except.ok.injEq] at h
        rw [← h]
        exact u16_inBounds _ _ _ h2
  · simp only [Except.ok.injEq] at h
    rw [← h]
    exact hs

theorem pairLoops_invariant {R : Type} (P : filter R × buffer → Prop)
    (body : Nat → Nat → filter R × buffer → Except Err (filter R × buffer))
    (hb : ∀ d p s s', P s → body d p s = .ok s' → P s')
    (s s' : filter R × buffer) (hs : P s) (h : pairLoops body s = .ok s') : P s' := by
  unfold pairLoops at h
  refine foldlM_ok_invariant P _ ?_ _ _ _ hs h
  intro s1 d s2 hs1 h1
  refine foldlM_ok_invariant P _ ?_ _ _ _ hs1 h1
  intro s3 p s4 hs3 h3
  exact hb d p s3 s4 hs3 h3

/-- A successful run of lines 28-50 of `filter.read` leaves the cursor inside the record. -/
theorem readBody_inBounds {R : Type} [NatCast R] (f : filter R) (b : buffer)
    (f2 : filter R) (b2 : buffer) (mg : Nat) (h : readBody f b = .ok (f2, b2, mg)) :
    b2.pos ≤ b2.data.length := by
  unfold readBody at h
  split at h
  · simp at h
  · split at h
    · simp at h
    · split at h
      · simp at h
      · next mg1 b3 hmg =>
        simp only at h
        split at h
        · simp at h
        · next s1 hs1 =>
          split at h
          · simp at h
          · next s2 hs2 =>
            simp only [Except.ok.injEq, Prod.mk.injEq] at h
            obtain ⟨_, hb2, _⟩ := h
            rw [← hb2]
            have h3 := u8_inBounds _ _ _ hmg
            have h4 := pairLoops_invariant (fun x => x.2.pos ≤ x.2.data.length) _
              (fun d p s s' _ hh => readStartPair_inBounds d p s s' hh) _ _ h3 hs1
            exact pairLoops_invariant (fun x => x.2.pos ≤ x.2.data.length) _
              (fun d p s s' hs hh => readEndPair_inBounds _ d p s s' hs hh) _ _ h4 hs2

/-- A record with a non-zero count byte that `filter.read` accepts went through lines
28-50, and the filter and the cursor returned are the ones these lines left. -/
theorem read_ok_body {R : Type} [NatCast R] (readShape : buffer → Option String × buffer)
    (f : filter R) (data : List Nat) (pos c : Nat) (hc : data[pos]? = some c) (hlt : c < 256)
    (hnz : c ≠ 0) (hok : (filter.read readShape f ⟨data, pos⟩).err = none) :
    ∃ f2 b2 mg,
      readBody
          { f with
            Pairs := set1 (set1 f.Pairs 0 ((c >>> 4 : Nat) : Int)) 1 ((c &&& 0xF : Nat) : Int) }
          ⟨data, pos + 1⟩ = .ok (f2, b2, mg)
      ∧ c >>> 4 ≤ 4 ∧ c &&& 0xF ≤ 4
      ∧ (filter.read readShape f ⟨data, pos⟩).f = f2
      ∧ (filter.read readShape f ⟨data, pos⟩).buf
          = if mg ≠ 0 ∨ f2.Unities 0 ≠ f2.Unities 1 then (readShape b2).2 else b2 := by
  have hu := u8_at data pos c hc hlt
  have hp0 : ∀ (P : Nat → Int) (x y : Int), set1 (set1 P 0 x) 1 y 0 = x := by
    intro P x y; simp [set1]
  have hp1 : ∀ (P : Nat → Int) (x y : Int), set1 (set1 P 0 x) 1 y 1 = y := by
    intro P x y; simp [set1]
  unfold filter.read at hok ⊢
  rw [hu] at hok ⊢
  simp only [hp0, hp1] at hok ⊢
  split at hok
  · simp at hok
  · next hbad =>
    rw [if_neg hbad]
    have h0 : c >>> 4 ≤ 4 := by
      by_contra h; exact hbad (Or.inl (by exact_mod_cast (by omega : c >>> 4 > 4)))
    have h1 : c &&& 0xF ≤ 4 := by
      by_contra h; exact hbad (Or.inr (by exact_mod_cast (by omega : c &&& 0xF > 4)))
    simp only [if_pos hnz]
    split at hok
    · simp at hok
    · next f2 b2 mg he =>
      refine ⟨f2, b2, mg, he, h0, h1, ?_, ?_⟩
      · split <;> rfl
      · split <;> rfl

/-- C17: on a record with a non-zero count byte `c` that `filter.read` accepts, with
`p0 = c >> 4` onset and `p1 = c & 0xF` release pairs and the migration byte `mg` (the
sixth byte of the record), every active pair `n` of a direction `d` has, when bit
`d*4 + n` of `mg` is clear, end codes equal to its start codes, a loop pass that hands
the cursor on untouched (so the next pair is read at the same offset) and `gain` and
`phase` returning one value for every position; and when the bit is set, end codes that
are the two big-endian 16-bit values lying at the offset the loop has reached, which are
inside the record, the next pair being read four bytes further.  The cursor handed to
`readShape`, or returned, stands behind the last end code read. -/
theorem filter_read_end_codes {R : Type} [Field R] (m : MathOps R)
    (readShape : buffer → Option String × buffer) (f0 : filter R) (data : List Nat)
    (pos c : Nat) (out : ReadOutcome R) (mg p0 p1 : Nat)
    (hc : data[pos]? = some c) (hlt : c < 256) (hnz : c ≠ 0)
    (hout : out = filter.read readShape f0 ⟨data, pos⟩) (hok : out.err = none)
    (hmg : mg = data.getD (pos + 5) 0 % 256) (hp0 : p0 = c >>> 4) (hp1 : p1 = c &&& 0xF) :
    out.f.Pairs 0 = (p0 : Int) ∧ out.f.Pairs 1 = (p1 : Int)
      ∧ endCodePos pos p0 p1 mg 1 p1 ≤ data.length
      ∧ out.buf
          = (if mg ≠ 0 ∨ be16 data (pos + 1) ≠ be16 data (pos + 3) then
              (readShape ⟨data, endCodePos pos p0 p1 mg 1 p1⟩).2
            else ⟨data, endCodePos pos p0 p1 mg 1 p1⟩)
      ∧ ∀ d n : Nat, d < 2 → (n : Int) < out.f.Pairs d →
          (Nat.testBit mg (d * 4 + n) = false →
            out.f.Frequencies d 1 n = out.f.Frequencies d 0 n
              ∧ out.f.Ranges d 1 n = out.f.Ranges d 0 n
              ∧ (∀ s : filter R × buffer, ∃ f1, readEndPair mg d n s = .ok (f1, s.2))
              ∧ endCodePos pos p0 p1 mg d (n + 1) = endCodePos pos p0 p1 mg d n
              ∧ ∃ g p, ∀ delta : R,
                  out.f.gain m d n delta = .ok g ∧ out.f.phase m d n delta = .ok p)
          ∧ (Nat.testBit mg (d * 4 + n) = true →
            out.f.Frequencies d 1 n = ((be16 data (endCodePos pos p0 p1 mg d n) : Nat) : R)
              ∧ out.f.Ranges d 1 n
                  = ((be16 data (endCodePos pos p0 p1 mg d n + 2) : Nat) : R)
              ∧ endCodePos pos p0 p1 mg d (n + 1) = endCodePos pos p0 p1 mg d n + 4
              ∧ endCodePos pos p0 p1 mg d n + 4 ≤ data.length) := by
  have hs0 : ∀ (P : Nat → Int) (x y : Int), set1 (set1 P 0 x) 1 y 0 = x := by
    intro P x y; simp [set1]
  have hs1 : ∀ (P : Nat → Int) (x y : Int), set1 (set1 P 0 x) 1 y 1 = y := by
    intro P x y; simp [set1]
  rw [hout] at hok
  obtain ⟨f2, b2, mg1, hbody, h0, h1, hf, hbuf⟩ :=
    read_ok_body readShape f0 data pos c hc hlt hnz hok
  rw [← hp0] at hbody h0
  rw [← hp1] at hbody h1
  have hin := readBody_inBounds _ _ _ _ _ hbody
  obtain ⟨e1, e2, e3, e4, e5, e6, e7⟩ :=
    readBody_spec _ ⟨data, pos + 1⟩ p0 p1 (hs0 f0.Pairs (p0 : Int) (p1 : Int))
      (hs1 f0.Pairs (p0 : Int) (p1 : Int)) h0 h1 f2 b2 mg1 hbody
  simp only at e1 e2 e3 e4 e5 e6 e7
  have hmg1 : mg1 = mg := by rw [e1, hmg]
  subst hmg1
  rw [e5, e6] at hin
  have hE : pos + 1 + 5 + 4 * (p0 + p1) + endBytes mg1 0 p0 + endBytes mg1 1 p1
      = endCodePos pos p0 p1 mg1 1 p1 := by
    unfold endCodePos; simp only [Nat.one_ne_zero, if_false]
  have hb2 : b2 = ⟨data, endCodePos pos p0 p1 mg1 1 p1⟩ := by
    cases b2; simp only at e5 e6; rw [e5, e6, hE]
  have hP0 : f2.Pairs 0 = (p0 : Int) := by rw [e2]; exact hs0 _ _ _
  have hP1 : f2.Pairs 1 = (p1 : Int) := by rw [e2]; exact hs1 _ _ _
  rw [hout, hf]
  refine ⟨hP0, hP1, by rw [← hE]; exact hin, ?_, ?_⟩
  · rw [hbuf, hb2, e3, e4]
    have hiff : (mg1 ≠ 0 ∨ ((be16 data (pos + 1) : Nat) : Int) ≠ ((be16 data (pos + 1 + 2) : Nat) : Int))
        ↔ (mg1 ≠ 0 ∨ be16 data (pos + 1) ≠ be16 data (pos + 3)) := by
      constructor
      · rintro (h | h)
        · exact Or.inl h
        · right; intro hh; apply h; rw [show pos + 1 + 2 = pos + 3 by omega, hh]
      · rintro (h | h)
        · exact Or.inl h
        · right; intro hh; apply h; rw [show pos + 1 + 2 = pos + 3 by omega] at hh
          exact_mod_cast hh
    by_cases hcond : mg1 ≠ 0 ∨ be16 data (pos + 1) ≠ be16 data (pos + 3)
    · rw [if_pos hcond, if_pos (hiff.mpr hcond)]
    · rw [if_neg hcond, if_neg (fun h => hcond (hiff.mp h))]
  · intro d n hd hn
    have hd01 : d = 0 ∨ d = 1 := by omega
    have hn4 : n < 4 := by
      rcases hd01 with h | h <;> subst h
      · rw [hP0] at hn; omega
      · rw [hP1] at hn; omega
    have hnp : (n : Int) < set1 (set1 f0.Pairs 0 (p0 : Int)) 1 (p1 : Int) d := by
      rw [← e2]; exact hn
    have hcode := e7 d n hd hnp
    have hpos : pos + 1 + 5 + 4 * (p0 + p1) + (if d = 0 then 0 else endBytes mg1 0 p0)
        + endBytes mg1 d n = endCodePos pos p0 p1 mg1 d n := by
      unfold endCodePos; omega
    have hsucc : endCodePos pos p0 p1 mg1 d (n + 1)
        = endCodePos pos p0 p1 mg1 d n + (if Nat.testBit mg1 (d * 4 + n) then 4 else 0) := by
      unfold endCodePos; rw [endBytes_succ]; omega
    constructor
    · intro ht
      rw [ht] at hcode hsucc
      simp only [Bool.false_eq_true, if_false, Nat.add_zero] at hcode hsucc
      refine ⟨hcode.1, hcode.2, ?_, hsucc, ?_⟩
      · intro s
        have hbit := migration_bit_iff mg1 d n hd hn4
        have hnb : ¬ (mg1 &&& ((1 <<< (d * 4) <<< n) % 256) ≠ 0) := by
          intro h; rw [hbit.mp h] at ht; exact Bool.noConfusion ht
        unfold readEndPair
        rw [if_neg hnb]
        exact ⟨_, rfl⟩
      · refine ⟨1 - m.pow 10 (-(f2.Ranges d 0 n * (100 / 65536)) / 20),
          normalize m (f2.Frequencies d 0 n * (1 / 8192)), ?_⟩
        intro delta
        rw [gain_ok m f2 d n delta hd hn4, phase_ok m f2 d n delta hd hn4, hcode.1, hcode.2]
        simp
    · intro ht
      rw [ht] at hcode hsucc
      simp only [if_true] at hcode hsucc
      rw [hpos] at hcode
      refine ⟨hcode.1, hcode.2, hsucc, ?_⟩
      rw [← hsucc]
      have hfin : endCodePos pos p0 p1 mg1 1 p1 ≤ data.length := by rw [← hE]; exact hin
      refine le_trans ?_ hfin
      have hle : n + 1 ≤ (if d = 0 then p0 else p1) := by
        rcases hd01 with h | h <;> subst h
        · rw [hP0] at hn; simp only [if_true]; omega
        · rw [hP1] at hn; simp only [Nat.one_ne_zero, if_false]; omega
      rcases hd01 with h | h <;> subst h
      · simp only [if_true] at hle
        have := endBytes_mono mg1 0 _ _ hle
        simp only [endCodePos, eq_self_iff_true, if_true, one_ne_zero, if_false]; omega
      · simp only [Nat.one_ne_zero, if_false] at hle
        have := endBytes_mono mg1 1 _ _ hle
        simp only [endCodePos, eq_self_iff_true, if_true, one_ne_zero, if_false]; omega

theorem filter_read_end_codes_witness :
    (filter.read (fun b => (none, b)) (filter.zero ℚ) ⟨endCodeRecord, 0⟩).err = none
      ∧ (filter.read (fun b => (none, b)) (filter.zero ℚ) ⟨endCodeRecord, 0⟩).f.Pairs 0
          = ((1 : Nat) : Int)
      ∧ (filter.read (fun b => (none, b)) (filter.zero ℚ) ⟨endCodeRecord, 0⟩).f.Pairs 1
          = ((1 : Nat) : Int)
      ∧ endCodePos 0 1 1 1 1 1 ≤ endCodeRecord.length
      ∧ (filter.read (fun b => (none, b)) (filter.zero ℚ) ⟨endCodeRecord, 0⟩).buf
          = (if 1 ≠ 0 ∨ be16 endCodeRecord (0 + 1) ≠ be16 endCodeRecord (0 + 3) then
              ((fun b => (none, b) : buffer → Option String × buffer)
                ⟨endCodeRecord, endCodePos 0 1 1 1 1 1⟩).2
            else ⟨endCodeRecord, endCodePos 0 1 1 1 1 1⟩)
      ∧ ∀ d n : Nat, d < 2 →
          (n : Int) < (filter.read (fun b => (none, b)) (filter.zero ℚ)
            ⟨endCodeRecord, 0⟩).f.Pairs d →
          (Nat.testBit 1 (d * 4 + n) = false →
            (filter.read (fun b => (none, b)) (filter.zero ℚ) ⟨endCodeRecord, 0⟩).f.Frequencies
                d 1 n
              = (filter.read (fun b => (none, b)) (filter.zero ℚ)
                  ⟨endCodeRecord, 0⟩).f.Frequencies d 0 n
              ∧ (filter.read (fun b => (none, b)) (filter.zero ℚ) ⟨endCodeRecord, 0⟩).f.Ranges
                  d 1 n
                = (filter.read (fun b => (none, b)) (filter.zero ℚ)
                    ⟨endCodeRecord, 0⟩).f.Ranges d 0 n
              ∧ (∀ s : filter ℚ × buffer, ∃ f1, readEndPair 1 d n s = .ok (f1, s.2))
              ∧ endCodePos 0 1 1 1 d (n + 1) = endCodePos 0 1 1 1 d n
              ∧ ∃ g p, ∀ delta : ℚ,
                  (filter.read (fun b => (none, b)) (filter.zero ℚ) ⟨endCodeRecord, 0⟩).f.gain
                      (⟨fun x _ => x, fun x => x, 3, fun _ => 0⟩ : MathOps ℚ) d n delta = .ok g
                    ∧ (filter.read (fun b => (none, b)) (filter.zero ℚ)
                        ⟨endCodeRecord, 0⟩).f.phase
                      (⟨fun x _ => x, fun x => x, 3, fun _ => 0⟩ : MathOps ℚ) d n delta = .ok p)
          ∧ (Nat.testBit 1 (d * 4 + n) = true →
            (filter.read (fun b => (none, b)) (filter.zero ℚ) ⟨endCodeRecord, 0⟩).f.Frequencies
                d 1 n
              = ((be16 endCodeRecord (endCodePos 0 1 1 1 d n) : Nat) : ℚ)
              ∧ (filter.read (fun b => (none, b)) (filter.zero ℚ) ⟨endCodeRecord, 0⟩).f.Ranges
                  d 1 n
                = ((be16 endCodeRecord (endCodePos 0 1 1 1 d n + 2) : Nat) : ℚ)
              ∧ endCodePos 0 1 1 1 d (n + 1) = endCodePos 0 1 1 1 d n + 4
              ∧ endCodePos 0 1 1 1 d n + 4 ≤ endCodeRecord.length) :=
  ⟨rfl, filter_read_end_codes (⟨fun x _ => x, fun x => x, 3, fun _ => 0⟩ : MathOps ℚ)
    (fun b => (none, b)) (filter.zero ℚ) endCodeRecord 0 0x11 _ 1 1 1 rfl (by decide)
    (by decide) rfl rfl rfl rfl rfl⟩

end snd
